import Mathlib

/-!
# Verification development for `hexcraft-biz/geo` (`core.go`)

The Go package defines one value type, `Point`, wrapping a pointer to a
GeoJSON geometry, with two distance functions, a 25-byte binary codec
(`Scan` / `Value`) and a JSON codec.

Conventions of the embedding:

* a Go function that may raise a run-time panic (index or slice out of
  range) returns an `Option`; `none` is the panic;
* a Go `error` result is an `Option String`; `none` is the `nil` error;
* a pointer receiver that the function assigns to is passed in and returned
  (state passing);
* `uint64` / `int64` values are `Nat` / `Int` with explicit wrap-around;
* the conversion `uint64(f)` of a `float64` outside the `uint64` range is
  implementation-dependent in Go: its result is a parameter `outOfRange` of
  the encoder, with the behaviour of amd64 and of arm64 as two instances;
* `json.Marshal` and `json.Unmarshal` are a parameter of the JSON methods
  (`JSONLibrary`); `specJSON` models them on JSON values;
* the coordinate type of a geometry is a parameter: the binary codec and the
  distance functions are studied at `F64`, an exact model of the values of a
  `float64`;
* `float64` arithmetic is IEEE-754 binary64: `+`, `-`, `*`, `/` and
  `math.Sqrt` return the exact result rounded to nearest, ties to even, with
  overflow to an infinity and gradual underflow (`F64.round`); every operation
  is rounded on its own (no fused multiply-add);
* `math.Sin`, `math.Cos` and `math.Atan2`, whose results the language does
  not fix, are a parameter of `Distance` (`MathLibrary`); what a theorem
  needs of them is a hypothesis of that theorem.
-/

namespace Geo

/-! ## Data model -/

/-- One element of a Go `[]byte`. -/
abbrev Byte := Fin 256

/-- The values of a Go `float64`: a finite value, given by the rational number
it denotes, the two infinities and NaN.  Signed zeros are identified.  Not
every rational is a `float64`; `F64.IsDouble` singles out those that are. -/
inductive F64 where
  | finite (q : ℚ)
  | posInf
  | negInf
  | nan
deriving DecidableEq

/-- A finite value is a `float64` when it is `± m * 2 ^ e` with a significand
`m` of at most 53 bits (the exponent range is not restricted here). -/
def F64.IsDouble : F64 → Prop
  | .finite q => ∃ (m : ℕ) (e : ℤ), m < 2 ^ 53 ∧ |q| = (m : ℚ) * (2 : ℚ) ^ e
  | _ => True

/-- Modelled from the spec: the typed-geometry capability of the external
GeoJSON library (`geojson.Geometry`), of which the core uses the type tag
(`Type`) and the coordinate array of a point (`Point`). -/
structure Geometry (α : Type) where
  Type_ : String
  Point : List α
deriving DecidableEq

/-- Modelled from the spec: `geojson.NewPointGeometry` of the external
library, which tags the given coordinate array as a point. -/
def NewPointGeometry {α : Type} (coordinate : List α) : Geometry α :=
  { Type_ := "Point", Point := coordinate }

/-- The Go type `Point`, a struct embedding `*geojson.Geometry`; `none` is
the nil pointer (the absent point). -/
structure Point (α : Type) where
  Geometry : Option (Geometry α)
deriving DecidableEq

/-- A Go `interface{}` value handed to `Scan` by a database driver. -/
inductive AnyValue where
  | nil
  | bytes (b : List Byte)
  | int64 (n : ℤ)
  | float64 (f : F64)
  | bool (b : Bool)
  | string (s : String)
  deriving DecidableEq

/-- Go function `Parse`. -/
def Parse {α : Type} (longitude latitude : α) : Point α :=
  { Geometry := some (NewPointGeometry [longitude, latitude]) }

/-! ## Integer and float conversions of the Go language -/

/-- Go conversion `int64(bits)` of a `uint64`: two's complement
reinterpretation. -/
def uint64ToInt64 (bits : ℕ) : ℤ :=
  if bits % 2 ^ 64 < 2 ^ 63 then ((bits % 2 ^ 64 : ℕ) : ℤ) else ((bits % 2 ^ 64 : ℕ) : ℤ) - 2 ^ 64

/-- Rounding of a natural number to 53 significant bits, to nearest, ties to
even (IEEE-754 `roundTiesToEven`). -/
def roundNat53 (a : ℕ) : ℕ :=
  if a < 2 ^ 53 then a
  else
    let sh := Nat.log2 a - 52
    let q := a / 2 ^ sh
    let r := a % 2 ^ sh
    let half := 2 ^ (sh - 1)
    let q1 := if half < r ∨ (r = half ∧ q % 2 = 1) then q + 1 else q
    q1 * 2 ^ sh

/-- Go conversion `float64(n)` of an `int64`: the nearest `float64`. -/
def int64ToFloat64 (n : ℤ) : F64 :=
  if 0 ≤ n then .finite ((roundNat53 n.natAbs : ℕ) : ℚ)
  else .finite (-((roundNat53 n.natAbs : ℕ) : ℚ))

/-- Truncation of a rational toward zero. -/
def truncRat (q : ℚ) : ℤ := if 0 ≤ q then ⌊q⌋ else ⌈q⌉

/-- Go conversion `uint64(f)` of a `float64`.  The fraction is discarded
(truncation toward zero).  When the truncated value is not a `uint64`
(negative, at least `2 ^ 64`, an infinity or NaN) the Go specification leaves
the result implementation-dependent: it is then `outOfRange f`, a parameter of
the model. -/
def float64ToUint64 (outOfRange : F64 → ℕ) (f : F64) : ℕ :=
  match f with
  | .finite q =>
    if 0 ≤ truncRat q ∧ truncRat q < 2 ^ 64 then (truncRat q).toNat
    else outOfRange f % 2 ^ 64
  | _ => outOfRange f % 2 ^ 64

/-- The out-of-range results of `uint64(f)` in code generated for amd64: a
value whose truncation is an `int64` is converted as an `int64` and
reinterpreted (two's complement); anything else gives `2 ^ 63`. -/
def outOfRangeAmd64 (f : F64) : ℕ :=
  match f with
  | .finite q =>
    if -(2 : ℤ) ^ 63 ≤ truncRat q ∧ truncRat q < 0 then (truncRat q + 2 ^ 64).toNat
    else 2 ^ 63
  | _ => 2 ^ 63

/-- The out-of-range results of `uint64(f)` in code generated for arm64
(instruction `FCVTZU`): saturation, and `0` for NaN. -/
def outOfRangeArm64 (f : F64) : ℕ :=
  match f with
  | .finite q => if truncRat q < 0 then 0 else 2 ^ 64 - 1
  | .posInf => 2 ^ 64 - 1
  | .negInf => 0
  | .nan => 0

/-! ## Slices and `encoding/binary` -/

/-- Go slice expression `b[lo:hi]`; `none` when the bounds are out of range. -/
def subslice {α : Type} (b : List α) (lo hi : ℕ) : Option (List α) :=
  if lo ≤ hi ∧ hi ≤ b.length then some ((b.take hi).drop lo) else none

/-- Go `binary.LittleEndian.Uint64`; `none` when `b` has fewer than 8
bytes. -/
def Uint64 (b : List Byte) : Option ℕ := do
  let _ ← b[7]?
  let b0 ← b[0]?
  let b1 ← b[1]?
  let b2 ← b[2]?
  let b3 ← b[3]?
  let b4 ← b[4]?
  let b5 ← b[5]?
  let b6 ← b[6]?
  let b7 ← b[7]?
  some (b0.val ||| b1.val <<< 8 ||| b2.val <<< 16 ||| b3.val <<< 24 |||
    b4.val <<< 32 ||| b5.val <<< 40 ||| b6.val <<< 48 ||| b7.val <<< 56)

/-- Go conversion `byte(v)`: the low 8 bits. -/
def toByte (v : ℕ) : Byte := ⟨v % 256, Nat.mod_lt _ (by decide)⟩

/-- Go `binary.LittleEndian.PutUint64(b, v)`: the first 8 bytes of `b` are
overwritten; `none` when `b` has fewer than 8 bytes. -/
def PutUint64 (b : List Byte) (v : ℕ) : Option (List Byte) :=
  if 8 ≤ b.length then
    some ([toByte v, toByte (v >>> 8), toByte (v >>> 16), toByte (v >>> 24),
      toByte (v >>> 32), toByte (v >>> 40), toByte (v >>> 48), toByte (v >>> 56)] ++ b.drop 8)
  else none

/-- Go `make([]byte, n)`. -/
def makeBytes (n : ℕ) : List Byte := List.replicate n 0

/-- Go `copy(dst[lo:hi], src)`, as an update of `dst`; `none` when the slice
bounds are out of range. -/
def copyInto (dst : List Byte) (lo hi : ℕ) (src : List Byte) : Option (List Byte) :=
  if lo ≤ hi ∧ hi ≤ dst.length then
    let n := min (hi - lo) src.length
    some (dst.take lo ++ src.take n ++ dst.drop (lo + n))
  else none

/-- Go assignment `data[i] = v`; `none` when `i` is out of range. -/
def setIndex (data : List Byte) (i : ℕ) (v : Byte) : Option (List Byte) :=
  if i < data.length then some (data.set i v) else none

/-! ## The binary codec -/

/-- Go function `float64FromBytes`. -/
def float64FromBytes (bits : ℕ) : F64 :=
  int64ToFloat64 (uint64ToInt64 bits)

/-- Go function `float64ToBytes`; `outOfRange` is the platform's result for
the conversion `uint64(f)` of a value outside the `uint64` range (see
`float64ToUint64`). -/
def float64ToBytes (outOfRange : F64 → ℕ) (f : F64) : Option (List Byte) :=
  let bits := float64ToUint64 outOfRange f
  let b := makeBytes 8
  PutUint64 b bits

/-- Go method `(*Point).Scan`.  The result is the receiver after the call and
the returned error. -/
def Scan (g : Point F64) (value : AnyValue) : Option (Point F64 × Option String) :=
  match value with
  | .bytes b =>
    if b.length ≠ 25 then
      some (g, some "failed to scan Point: invalid POINT data")
    else do
      let b0 ← b[0]?
      if b0 ≠ 0 then
        some (g, some "failed to scan Point: invalid POINT data")
      else do
        let b1 ← b[1]?
        if b1 ≠ 1 then
          some (g, some "failed to scan Point: invalid POINT data")
        else do
          let lon ← (subslice b 9 17).bind Uint64
          let lat ← (subslice b 17 25).bind Uint64
          some ({ Geometry := some (NewPointGeometry
            [float64FromBytes lon, float64FromBytes lat]) }, none)
  | _ => some (g, some "failed to scan Point: invalid type")

/-- Go method `Point.Value`.  The result is the pair of the returned
`driver.Value` (`none` for `nil`) and the returned error; `outOfRange` is
passed on to `float64ToBytes`. -/
def Value (outOfRange : F64 → ℕ) (g : Point F64) :
    Option (Option (List Byte) × Option String) :=
  match g.Geometry with
  | none => some (none, some "invalid Point value")
  | some geom =>
    if geom.Type_ ≠ "Point" then some (none, some "invalid Point value")
    else do
      let p0 ← geom.Point[0]?
      let lon ← float64ToBytes outOfRange p0
      let p1 ← geom.Point[1]?
      let lat ← float64ToBytes outOfRange p1
      let data := makeBytes 25
      let data ← setIndex data 0 0
      let data ← setIndex data 1 1
      let data ← copyInto data 9 17 lon
      let data ← copyInto data 17 25 lat
      some (some data, none)

/-! ## IEEE-754 binary64 arithmetic and the distance functions

A finite `float64` is the rational it denotes; an operation computes the exact
rational (or real) result and rounds it.  Signed zeros are identified: the
zeros that reach `math.Atan2` in `Distance` are positive (a sum whose first
term is a square, the difference `1 - a` and their square roots), and a
result `-0` is `== 0`. -/

/-- Rounding of `t` to the nearest integer, a tie going to the even one. -/
def roundHalfEven {K : Type} [LinearOrderedField K] [FloorRing K] (t : K) : ℤ :=
  if t - ⌊t⌋ < 1 / 2 then ⌊t⌋
  else if 1 / 2 < t - ⌊t⌋ then ⌊t⌋ + 1
  else if ⌊t⌋ % 2 = 0 then ⌊t⌋ else ⌊t⌋ + 1

/-- The exponent of the unit in the last place of the `float64` values around
`x`: 52 below the binary exponent of `x`, and `-1074` in the subnormal
range. -/
def ulpExponent {K : Type} [LinearOrderedField K] [FloorRing K] (x : K) : ℤ :=
  max (Int.log 2 |x| - 52) (-1074)

/-- IEEE-754 rounding of an exact value to `float64`: to the nearest value, a
tie to the even significand (`roundTiesToEven`), with gradual underflow and
overflow to an infinity. -/
def F64.round {K : Type} [LinearOrderedField K] [FloorRing K] (x : K) : F64 :=
  if x = 0 then .finite 0
  else if (2 : ℚ) ^ (1024 : ℕ) ≤
      (roundHalfEven (|x| / (2 : K) ^ ulpExponent x) : ℚ) * (2 : ℚ) ^ ulpExponent x then
    if 0 < x then .posInf else .negInf
  else if 0 < x then
    .finite ((roundHalfEven (|x| / (2 : K) ^ ulpExponent x) : ℚ) * (2 : ℚ) ^ ulpExponent x)
  else
    .finite (-((roundHalfEven (|x| / (2 : K) ^ ulpExponent x) : ℚ) * (2 : ℚ) ^ ulpExponent x))

/-- Go unary `-x` on `float64`. -/
def F64.neg : F64 → F64
  | .finite a => .finite (-a)
  | .posInf => .negInf
  | .negInf => .posInf
  | .nan => .nan

/-- Go `x + y` on `float64`. -/
def F64.add : F64 → F64 → F64
  | .finite a, .finite b => F64.round (a + b)
  | .finite _, .posInf => .posInf
  | .finite _, .negInf => .negInf
  | .posInf, .finite _ => .posInf
  | .posInf, .posInf => .posInf
  | .posInf, .negInf => .nan
  | .negInf, .finite _ => .negInf
  | .negInf, .posInf => .nan
  | .negInf, .negInf => .negInf
  | .nan, _ => .nan
  | _, .nan => .nan

/-- Go `x - y` on `float64`. -/
def F64.sub (x y : F64) : F64 := F64.add x (F64.neg y)

/-- The product of an infinity, positive or negative according to `positive`,
and the finite factor `b`: NaN when `b` is zero, otherwise the infinity whose
sign is the product of the two signs. -/
def F64.infTimes (positive : Bool) (b : ℚ) : F64 :=
  if b = 0 then .nan
  else if (0 < b) = positive then .posInf else .negInf

/-- Go `x * y` on `float64`. -/
def F64.mul : F64 → F64 → F64
  | .finite a, .finite b => F64.round (a * b)
  | .finite a, .posInf => F64.infTimes true a
  | .finite a, .negInf => F64.infTimes false a
  | .posInf, .finite b => F64.infTimes true b
  | .negInf, .finite b => F64.infTimes false b
  | .posInf, .posInf => .posInf
  | .posInf, .negInf => .negInf
  | .negInf, .posInf => .negInf
  | .negInf, .negInf => .posInf
  | .nan, _ => .nan
  | _, .nan => .nan

/-- Go `x / y` on `float64`.  The sign of an infinity obtained by dividing by
a zero depends on the sign of that zero, which this model does not keep: the
zero is taken positive.  (`Distance` divides by the constant `2` only.) -/
def F64.div : F64 → F64 → F64
  | .finite a, .finite b =>
    if b = 0 then
      if a = 0 then .nan else if 0 < a then .posInf else .negInf
    else F64.round (a / b)
  | .finite _, .posInf => .finite 0
  | .finite _, .negInf => .finite 0
  | .posInf, .finite b => if 0 ≤ b then .posInf else .negInf
  | .negInf, .finite b => if 0 ≤ b then .negInf else .posInf
  | .posInf, .posInf => .nan
  | .posInf, .negInf => .nan
  | .negInf, .posInf => .nan
  | .negInf, .negInf => .nan
  | .nan, _ => .nan
  | _, .nan => .nan

/-- Go `math.Sqrt`: the correctly rounded square root (IEEE-754), NaN on a
negative argument. -/
noncomputable def F64.sqrt : F64 → F64
  | .finite a => if a < 0 then .nan else F64.round (Real.sqrt (a : ℝ))
  | .posInf => .posInf
  | .negInf => .nan
  | .nan => .nan

/-- Go `x == y` on `float64`: NaN is equal to nothing, itself included. -/
def F64.equal (x y : F64) : Bool :=
  match x, y with
  | .nan, _ => false
  | _, .nan => false
  | x, y => decide (x = y)

/-- The functions of Go package `math` called by `Distance` whose results the
language does not fix (they need not be correctly rounded, and differ between
architectures): parameters of the model. -/
structure MathLibrary where
  Sin : F64 → F64
  Cos : F64 → F64
  Atan2 : F64 → F64 → F64

/-- Go constant `degToKm`. -/
def degToKm : F64 := .finite 111

/-- Go constant `earthRadiusKm`. -/
def earthRadiusKm : F64 := .finite 6371

/-- Go constant expression `math.Pi / 180`: an untyped constant, evaluated
exactly from the decimal expansion that package `math` gives for `Pi` and
rounded to `float64` where it meets the `float64` operand. -/
def piOver180 : F64 :=
  F64.round ((3.14159265358979323846264338327950288419716939937510582097494459 : ℚ) / 180)

/-- Go function `toRadians`. -/
def toRadians (deg : F64) : F64 := F64.mul deg piOver180

/-- The Haversine term `a` computed in the body of `Point.Distance`, from
the coordinates in degrees.  Each operation is rounded on its own (no fused
multiply-add, as in code generated for amd64). -/
def haversineA (M : MathLibrary) (lon1 lat1 lon2 lat2 : F64) : F64 :=
  let lat1Rad := toRadians lat1
  let lon1Rad := toRadians lon1
  let lat2Rad := toRadians lat2
  let lon2Rad := toRadians lon2
  let dlat := F64.sub lat2Rad lat1Rad
  let dlon := F64.sub lon2Rad lon1Rad
  F64.add (F64.mul (M.Sin (F64.div dlat (.finite 2))) (M.Sin (F64.div dlat (.finite 2))))
    (F64.mul
      (F64.mul (F64.mul (M.Cos lat1Rad) (M.Cos lat2Rad)) (M.Sin (F64.div dlon (.finite 2))))
      (M.Sin (F64.div dlon (.finite 2))))

/-- Go method `Point.StraightLineDistance`.  `none` is a panic (index out of
range). -/
noncomputable def StraightLineDistance (p tp : Point F64) : Option F64 :=
  match p.Geometry, tp.Geometry with
  | some g1, some g2 => do
    let lat1 ← g1.Point[1]?
    let lon1 ← g1.Point[0]?
    let lat2 ← g2.Point[1]?
    let lon2 ← g2.Point[0]?
    let dx := F64.sub lon2 lon1
    let dy := F64.sub lat2 lat1
    let distanceKm := F64.mul (F64.sqrt (F64.add (F64.mul dx dx) (F64.mul dy dy))) degToKm
    some distanceKm
  | _, _ => some (.finite 0)

/-- Go method `Point.Distance`.  `none` is a panic (index out of range). -/
noncomputable def Distance (M : MathLibrary) (p tp : Point F64) : Option F64 :=
  match p.Geometry, tp.Geometry with
  | some g1, some g2 => do
    let lat1 ← g1.Point[1]?
    let lon1 ← g1.Point[0]?
    let lat2 ← g2.Point[1]?
    let lon2 ← g2.Point[0]?
    let a := haversineA M lon1 lat1 lon2 lat2
    let c := F64.mul (.finite 2) (M.Atan2 (F64.sqrt a) (F64.sqrt (F64.sub (.finite 1) a)))
    let distance := F64.mul earthRadiusKm c
    some distance
  | _, _ => some (.finite 0)

/-- The angle in `(-π, π]` of the point `(x, y)` of the real plane, by the
case analysis of `math.Atan2`. -/
noncomputable def realAtan2 (y x : ℝ) : ℝ :=
  if y = 0 then
    if 0 ≤ x then 0 else Real.pi
  else if x = 0 then
    if 0 < y then Real.pi / 2 else -(Real.pi / 2)
  else
    if x < 0 then
      if Real.arctan (y / x) ≤ 0 then Real.arctan (y / x) + Real.pi
      else Real.arctan (y / x) - Real.pi
    else Real.arctan (y / x)

/-- A mathematical library that returns the correctly rounded value of the
real function, with the special cases of package `math`.  It is not Go's
implementation (which is accurate to the last places, not correctly rounded);
it shows that the properties assumed of a library can be met. -/
noncomputable def idealMath : MathLibrary where
  Sin := fun x =>
    match x with
    | .finite q => F64.round (Real.sin (q : ℝ))
    | _ => .nan
  Cos := fun x =>
    match x with
    | .finite q => F64.round (Real.cos (q : ℝ))
    | _ => .nan
  Atan2 := fun y x =>
    match y, x with
    | .nan, _ => .nan
    | _, .nan => .nan
    | .finite a, .finite b => F64.round (realAtan2 (a : ℝ) (b : ℝ))
    | .finite _, .posInf => .finite 0
    | .finite a, .negInf => F64.round (if 0 ≤ a then Real.pi else -Real.pi)
    | .posInf, .finite _ => F64.round (Real.pi / 2)
    | .negInf, .finite _ => F64.round (-(Real.pi / 2))
    | .posInf, .posInf => F64.round (Real.pi / 4)
    | .posInf, .negInf => F64.round (3 * Real.pi / 4)
    | .negInf, .posInf => F64.round (-(Real.pi / 4))
    | .negInf, .negInf => F64.round (-(3 * Real.pi / 4))

/-- The value is `+Inf` or a finite value that is not negative. -/
def F64.NonNeg : F64 → Prop
  | .finite q => 0 ≤ q
  | .posInf => True
  | _ => False

/-- The point is present and its coordinate array starts with `lon`, `lat`
(whatever its type tag and its further coordinates are). -/
def Point.HasCoordinates {α : Type} (p : Point α) (lon lat : α) : Prop :=
  ∃ g, p.Geometry = some g ∧ g.Point[0]? = some lon ∧ g.Point[1]? = some lat

/-- The value is finite and lies between `lo` and `hi`. -/
def F64.Within (x : F64) (lo hi : ℚ) : Prop :=
  ∃ r : ℚ, x = .finite r ∧ lo ≤ r ∧ r ≤ hi

/-- The library is accurate to `2 ^ -30` in absolute terms: on a finite
argument of magnitude at most 2, `Sin` and `Cos` return a finite value within
`2 ^ -30` of the real sine and cosine, and for `0 ≤ y` and `0 < x`,
`Atan2(y, x)` is a finite value within `2 ^ -30` of `arctan (y / x)`. -/
def MathLibrary.Accurate (M : MathLibrary) : Prop :=
  (∀ q : ℚ, |q| ≤ 2 →
    ∃ s : ℚ, M.Sin (.finite q) = .finite s ∧ |(s : ℝ) - Real.sin (q : ℝ)| ≤ (2 : ℝ) ^ (-30 : ℤ)) ∧
  (∀ q : ℚ, |q| ≤ 2 →
    ∃ c : ℚ, M.Cos (.finite q) = .finite c ∧ |(c : ℝ) - Real.cos (q : ℝ)| ≤ (2 : ℝ) ^ (-30 : ℤ)) ∧
  (∀ y x : ℚ, 0 ≤ y → 0 < x →
    ∃ t : ℚ, M.Atan2 (.finite y) (.finite x) = .finite t ∧
      |(t : ℝ) - Real.arctan ((y : ℝ) / (x : ℝ))| ≤ (2 : ℝ) ^ (-30 : ℤ))

/-- The ideal library, except at the arguments reached from the points
`(-180, -56)` and `(0, 56)`: there `Sin` and `Cos` take the values that the
polynomial algorithm of package `math` (file `sin.go`) computes in `float64`
arithmetic, `Sin(0x1.f46bb9c109324p-1) = 0x1.a8779cda8eea5p-1`,
`Sin(0x1.921fb54442d18p+0) = 1` and `Cos(±0x1.f46bb9c109324p-1) =
0x1.1e4e88411fd13p-1` (the last one is one unit in the last place above the
correctly rounded cosine). -/
noncomputable def sampleMath : MathLibrary where
  Sin := fun x =>
    if x = .finite (2200873967297737 / 2 ^ 51) then .finite (7467306605670053 / 2 ^ 53)
    else if x = .finite (884279719003555 / 2 ^ 49) then .finite 1
    else idealMath.Sin x
  Cos := fun x =>
    if x = .finite (2200873967297737 / 2 ^ 51) ∨ x = .finite (-(2200873967297737 / 2 ^ 51)) then
      .finite (5036761903398163 / 2 ^ 53)
    else idealMath.Cos x
  Atan2 := idealMath.Atan2

/-! ## The JSON codec

`json.Marshal` and `json.Unmarshal` belong to the standard library and
dispatch to the GeoJSON library; the two methods of the core are written over
an arbitrary pair of such functions, and a model of the pair is given after
them. -/

/-- Modelled from the spec: the two functions of `encoding/json` that the
core calls, at the geometry type of the external GeoJSON library. `Marshal g`
is the pair returned by `json.Marshal(g)`; `Unmarshal data g` is the geometry
left in `g` by `json.Unmarshal(data, &g)` together with the returned error.
`Payload` is the type of the JSON payloads. -/
structure JSONLibrary (Payload : Type) (α : Type) where
  Marshal : Geometry α → Option Payload × Option String
  Unmarshal : Payload → Geometry α → Geometry α × Option String

/-- The zero value of `geojson.Geometry`, as declared by
`var g geojson.Geometry`. -/
def zeroGeometry {α : Type} : Geometry α := { Type_ := "", Point := [] }

/-- Go method `Point.MarshalJSON`. -/
def MarshalJSON {Payload α : Type} (lib : JSONLibrary Payload α) (p : Point α) :
    Option Payload × Option String :=
  match p.Geometry with
  | none => (none, some "invalid GeoJSON Point")
  | some geom =>
    if geom.Type_ ≠ "Point" then (none, some "invalid GeoJSON Point")
    else lib.Marshal geom

/-- Go method `(*Point).UnmarshalJSON`.  The result is the receiver after the
call and the returned error. -/
def UnmarshalJSON {Payload α : Type} (lib : JSONLibrary Payload α) (p : Point α)
    (data : Payload) : Point α × Option String :=
  let g : Geometry α := zeroGeometry
  match lib.Unmarshal data g with
  | (_, some err) => (p, some err)
  | (g, none) =>
    if g.Type_ ≠ "Point" ∨ g.Point.length ≠ 2 then
      (p, some "invalid GeoJSON Point")
    else
      ({ Geometry := some g }, none)

/-- Modelled from the spec: a JSON document, as a value.  A number is the
exact value of a finite `float64` (the encoder preserves the full
precision); NaN and the infinities have no JSON number. -/
inductive JSON where
  | null
  | bool (b : Bool)
  | number (x : ℚ)
  | string (s : String)
  | array (items : List JSON)
  | object (members : List (String × JSON))

/-- Modelled from the spec: the JSON number of a coordinate; `none` for NaN
and the infinities, which `json.Marshal` refuses. -/
def JSON.ofFloat : F64 → Option JSON
  | .finite q => some (.number q)
  | _ => none

/-- Modelled from the spec: the coordinate a JSON value denotes; `none` when
it is not a number. -/
def JSON.toFloat : JSON → Option F64
  | .number q => some (.finite q)
  | _ => none

/-- The list of the results of `f` on all elements; `none` as soon as `f`
fails on one of them. -/
def mapAll {α β : Type} (f : α → Option β) : List α → Option (List β)
  | [] => some []
  | x :: xs =>
    match f x, mapAll f xs with
    | some y, some ys => some (y :: ys)
    | _, _ => none

/-- The member of a JSON object with the given name; of two members with
the same name the later one counts, as in `encoding/json`. -/
def JSON.lookup (name : String) : List (String × JSON) → Option JSON
  | [] => none
  | (k, v) :: rest =>
    match JSON.lookup name rest with
    | some w => some w
    | none => if k = name then some v else none

/-- Modelled from the spec: `json.Marshal` of a geometry of the GeoJSON
library, which yields the GeoJSON point object with members `type` and
`coordinates`, and fails on a coordinate that is NaN or infinite. -/
def jsonMarshal (g : Geometry F64) : Option JSON × Option String :=
  match mapAll JSON.ofFloat g.Point with
  | some coordinates =>
    (some (.object [("type", .string g.Type_), ("coordinates", .array coordinates)]), none)
  | none => (none, some "json: unsupported value")

/-- Modelled from the spec: `json.Unmarshal` into a geometry of the GeoJSON
library.  The document must be an object with a string member `type`; for
the type "Point" the member `coordinates` must be an array of numbers, which
becomes the coordinate array.  The coordinates of the other geometry types
go to fields that the core does not use. -/
def jsonUnmarshal (data : JSON) (g : Geometry F64) : Geometry F64 × Option String :=
  match data with
  | .object members =>
    match JSON.lookup "type" members with
    | some (.string t) =>
      if t = "Point" then
        match JSON.lookup "coordinates" members with
        | some (.array items) =>
          match mapAll JSON.toFloat items with
          | some coordinates => ({ Type_ := t, Point := coordinates }, none)
          | none => ({ g with Type_ := t }, some "not a valid coordinate")
        | _ => ({ g with Type_ := t }, some "not a valid position")
      else ({ g with Type_ := t }, none)
    | some _ => (g, some "type property not string")
    | none => (g, some "type property not defined")
  | _ => (g, some "json: cannot unmarshal into a geometry object")

/-- Modelled from the spec: the JSON functions that the core calls, on JSON
documents given as values. -/
def specJSON : JSONLibrary JSON F64 :=
  { Marshal := jsonMarshal, Unmarshal := jsonUnmarshal }

/-! ## Definitions used to state the properties -/

/-- The value that `binary.LittleEndian.Uint64` assembles from eight bytes. -/
def le64 (b0 b1 b2 b3 b4 b5 b6 b7 : Byte) : ℕ :=
  b0.val ||| b1.val <<< 8 ||| b2.val <<< 16 ||| b3.val <<< 24 |||
    b4.val <<< 32 ||| b5.val <<< 40 ||| b6.val <<< 48 ||| b7.val <<< 56

/-- The number a byte sequence denotes when read little-endian (first byte
least significant), base 256. -/
def leValue (bs : List Byte) : ℕ := bs.foldr (fun x acc => x.val + 256 * acc) 0

/-- The integer eight bytes denote when read as a little-endian signed
(two's complement) 64-bit integer. -/
def leSigned64 (bs : List Byte) : ℤ :=
  if leValue bs < 2 ^ 63 then (leValue bs : ℤ) else (leValue bs : ℤ) - 2 ^ 64

/-- A record that `Scan` accepts according to the specification: exactly 25
bytes, the first `0`, the second `1`. -/
def Accepted (b : List Byte) : Prop :=
  b.length = 25 ∧ b[0]? = some 0 ∧ b[1]? = some 1

instance (b : List Byte) : Decidable (Accepted b) := by
  unfold Accepted; infer_instance

/-- The eight bytes `PutUint64` writes for `v`. -/
def putBytes (v : ℕ) : List Byte :=
  [toByte v, toByte (v >>> 8), toByte (v >>> 16), toByte (v >>> 24),
    toByte (v >>> 32), toByte (v >>> 40), toByte (v >>> 48), toByte (v >>> 56)]

/-- An integer that is exactly a `float64`: `± m * 2 ^ e` with `m < 2 ^ 53`. -/
def IsDoubleInt (n : ℤ) : Prop := ∃ m e : ℕ, m < 2 ^ 53 ∧ n.natAbs = m * 2 ^ e

/-- The first `k` bytes of the little-endian base-256 expansion of `n`. -/
def leBytesAux : ℕ → ℕ → List Byte
  | 0, _ => []
  | k + 1, n => toByte n :: leBytesAux k (n / 256)

/-- The little-endian 64-bit encoding of `n`: eight bytes, least significant
first. -/
def leBytes (n : ℕ) : List Byte := leBytesAux 8 n

/-- Eight bytes are a little-endian 64-bit encoding of the integer `n` when
they denote `n`, read unsigned or read signed (two's complement). -/
def Encodes64 (bs : List Byte) (n : ℤ) : Prop :=
  bs.length = 8 ∧ ((leValue bs : ℤ) = n ∨ leSigned64 bs = n)

/-- A point is well formed when it is present, tagged "Point" and has
exactly two coordinates. -/
def Point.WellFormed {α : Type} (p : Point α) : Prop :=
  ∃ g, p.Geometry = some g ∧ g.Type_ = "Point" ∧ g.Point.length = 2

/-- The same point with its coordinates read in another number type. -/
def Point.mapCoordinates {α β : Type} (f : α → β) (p : Point α) : Point β :=
  { Geometry := p.Geometry.map fun g => { Type_ := g.Type_, Point := g.Point.map f } }

/-! ## Auxiliary facts: byte sequences -/

theorem list_length_25 {α : Type} (b : List α) (h : b.length = 25) :
    ∃ x0 x1 x2 x3 x4 x5 x6 x7 x8 x9 x10 x11 x12 x13 x14 x15 x16 x17 x18 x19 x20 x21 x22 x23 x24 : α,
      b = [x0, x1, x2, x3, x4, x5, x6, x7, x8, x9, x10, x11, x12,
      x13, x14, x15, x16, x17, x18, x19, x20, x21, x22, x23, x24] := by
  match b, h with
  | [x0, x1, x2, x3, x4, x5, x6, x7, x8, x9, x10, x11, x12,
      x13, x14, x15, x16, x17, x18, x19, x20, x21, x22, x23, x24], _ =>
    exact ⟨x0, x1, x2, x3, x4, x5, x6, x7, x8, x9, x10, x11, x12, x13, x14, x15, x16, x17, x18, x19, x20, x21, x22, x23, x24, rfl⟩

theorem Scan_bytes_25 (g : Point F64) (x0 x1 x2 x3 x4 x5 x6 x7 x8 x9 x10 x11 x12 x13 x14 x15 x16 x17 x18 x19 x20 x21 x22 x23 x24 : Byte) :
    Scan g (.bytes [x0, x1, x2, x3, x4, x5, x6, x7, x8, x9, x10, x11, x12,
      x13, x14, x15, x16, x17, x18, x19, x20, x21, x22, x23, x24]) =
      if x0 ≠ 0 then some (g, some "failed to scan Point: invalid POINT data")
      else if x1 ≠ 1 then some (g, some "failed to scan Point: invalid POINT data")
      else some ({ Geometry := some (NewPointGeometry
        [float64FromBytes (le64 x9 x10 x11 x12 x13 x14 x15 x16),
         float64FromBytes (le64 x17 x18 x19 x20 x21 x22 x23 x24)]) }, none) := by
  by_cases h0 : x0 = 0
  · by_cases h1 : x1 = 1
    · subst h0 h1
      rfl
    · simp [Scan, h0, h1]
  · simp [Scan, h0]

theorem or_shiftLeft_of_lt (a b k : ℕ) (h : a < 2 ^ k) : a ||| b <<< k = a + b * 2 ^ k := by
  rw [Nat.shiftLeft_eq, Nat.or_comm, Nat.mul_comm b, ← Nat.mul_add_lt_is_or h, Nat.add_comm]

theorem le64_eq_sum (b0 b1 b2 b3 b4 b5 b6 b7 : Byte) :
    le64 b0 b1 b2 b3 b4 b5 b6 b7 =
      b0.val + b1.val * 2 ^ 8 + b2.val * 2 ^ 16 + b3.val * 2 ^ 24 + b4.val * 2 ^ 32 +
        b5.val * 2 ^ 40 + b6.val * 2 ^ 48 + b7.val * 2 ^ 56 := by
  have h0 := b0.isLt
  have h1 := b1.isLt
  have h2 := b2.isLt
  have h3 := b3.isLt
  have h4 := b4.isLt
  have h5 := b5.isLt
  have h6 := b6.isLt
  unfold le64
  rw [or_shiftLeft_of_lt _ _ 8 (by omega), or_shiftLeft_of_lt _ _ 16 (by omega),
    or_shiftLeft_of_lt _ _ 24 (by omega), or_shiftLeft_of_lt _ _ 32 (by omega),
    or_shiftLeft_of_lt _ _ 40 (by omega), or_shiftLeft_of_lt _ _ 48 (by omega),
    or_shiftLeft_of_lt _ _ 56 (by omega)]

theorem le64_eq_leValue (b0 b1 b2 b3 b4 b5 b6 b7 : Byte) :
    le64 b0 b1 b2 b3 b4 b5 b6 b7 = leValue [b0, b1, b2, b3, b4, b5, b6, b7] := by
  rw [le64_eq_sum]
  simp only [leValue, List.foldr]
  omega

theorem le64_lt (b0 b1 b2 b3 b4 b5 b6 b7 : Byte) :
    le64 b0 b1 b2 b3 b4 b5 b6 b7 < 2 ^ 64 := by
  have h0 := b0.isLt
  have h1 := b1.isLt
  have h2 := b2.isLt
  have h3 := b3.isLt
  have h4 := b4.isLt
  have h5 := b5.isLt
  have h6 := b6.isLt
  have h7 := b7.isLt
  rw [le64_eq_sum]
  omega

theorem le64_toByte (v : ℕ) :
    le64 (toByte v) (toByte (v >>> 8)) (toByte (v >>> 16)) (toByte (v >>> 24))
      (toByte (v >>> 32)) (toByte (v >>> 40)) (toByte (v >>> 48)) (toByte (v >>> 56)) =
      v % 2 ^ 64 := by
  rw [le64_eq_sum]
  simp only [toByte, Nat.shiftRight_eq_div_pow]
  omega

theorem uint64ToInt64_le64 (b0 b1 b2 b3 b4 b5 b6 b7 : Byte) :
    uint64ToInt64 (le64 b0 b1 b2 b3 b4 b5 b6 b7) =
      leSigned64 [b0, b1, b2, b3, b4, b5, b6, b7] := by
  have h := le64_lt b0 b1 b2 b3 b4 b5 b6 b7
  rw [uint64ToInt64, Nat.mod_eq_of_lt h, leSigned64, ← le64_eq_leValue]

/-! ## Scan: acceptance and decoding -/

/-- C1. For every byte sequence `b`, `Scan` succeeds exactly when `b` has 25
bytes, the first `0` and the second `1`; in every other case it returns the
"invalid POINT data" error, leaving the receiver as it was, and it never
panics on an index out of range.  For a value that is not a byte sequence,
`nil` included, it returns the "invalid type" error. -/
theorem Scan_acceptance (g : Point F64) (b : List Byte) :
    ((∃ p, Scan g (.bytes b) = some (p, none)) ↔ Accepted b) ∧
    (¬ Accepted b →
      Scan g (.bytes b) = some (g, some "failed to scan Point: invalid POINT data")) ∧
    (∀ v : AnyValue, (∀ c, v ≠ .bytes c) →
      Scan g v = some (g, some "failed to scan Point: invalid type")) := by
  refine ⟨?_, ?_, ?_⟩
  · by_cases h : b.length = 25
    · obtain ⟨x0, x1, x2, x3, x4, x5, x6, x7, x8, x9, x10, x11, x12, x13, x14, x15, x16, x17, x18, x19, x20, x21, x22, x23, x24, rfl⟩ := list_length_25 b h
      rw [Scan_bytes_25]
      by_cases h0 : x0 = 0
      · by_cases h1 : x1 = 1
        · simp [Accepted, h0, h1]
        · simp [Accepted, h0, h1]
      · simp [Accepted, h0]
    · simp [Scan, Accepted, h]
  · intro hacc
    by_cases h : b.length = 25
    · obtain ⟨x0, x1, x2, x3, x4, x5, x6, x7, x8, x9, x10, x11, x12, x13, x14, x15, x16, x17, x18, x19, x20, x21, x22, x23, x24, rfl⟩ := list_length_25 b h
      rw [Scan_bytes_25]
      by_cases h0 : x0 = 0
      · by_cases h1 : x1 = 1
        · exact absurd (by simp [Accepted, h0, h1]) hacc
        · simp [h0, h1]
      · simp [h0]
    · simp [Scan, h]
  · intro v hv
    cases v with
    | bytes c => exact absurd rfl (hv c)
    | _ => rfl

/-- C3. For every accepted record `b` the point produced by `Scan` has as
longitude the integer that bytes 9..16 denote as a little-endian signed
64-bit integer, converted to a `float64`, and as latitude the same reading of
bytes 17..24; a second accepted record that differs from `b` only in bytes
2..8 decodes to the same point. -/
theorem Scan_decoding (g : Point F64) (b : List Byte) (hb : Accepted b) :
    Scan g (.bytes b) =
        some (Parse (int64ToFloat64 (leSigned64 ((b.drop 9).take 8)))
          (int64ToFloat64 (leSigned64 ((b.drop 17).take 8))), none) ∧
    (∀ (k : Point F64) (c : List Byte), Accepted c → c.drop 9 = b.drop 9 →
      Scan k (.bytes c) = Scan g (.bytes b)) := by
  have key : ∀ (k : Point F64) (c : List Byte), Accepted c →
      Scan k (.bytes c) =
        some (Parse (int64ToFloat64 (leSigned64 ((c.drop 9).take 8)))
          (int64ToFloat64 (leSigned64 ((c.drop 17).take 8))), none) := by
    intro k c hc
    obtain ⟨h, h0, h1⟩ := hc
    obtain ⟨x0, x1, x2, x3, x4, x5, x6, x7, x8, x9, x10, x11, x12, x13, x14, x15, x16, x17, x18, x19, x20, x21, x22, x23, x24, rfl⟩ := list_length_25 c h
    simp only [List.getElem?_cons_zero, List.getElem?_cons_succ, Option.some.injEq] at h0 h1
    rw [Scan_bytes_25, if_neg (by simp [h0]), if_neg (by simp [h1])]
    simp [Parse, float64FromBytes, uint64ToInt64_le64]
  refine ⟨key g b hb, ?_⟩
  intro k c hc hdrop
  rw [key k c hc, key g b hb, hdrop]
  have h17 : c.drop 17 = b.drop 17 := by
    have := congrArg (List.drop 8) hdrop
    simpa using this
  rw [h17]

/-- Witness for C3: a record holding 10 and -20, with non-zero reserved
bytes. -/
theorem Scan_decoding_witness :
    Scan (Point.mk none) (.bytes [0, 1, 7, 7, 7, 7, 7, 7, 7, 10, 0, 0, 0, 0, 0, 0, 0,
        236, 255, 255, 255, 255, 255, 255, 255]) =
      some (Parse (F64.finite 10) (F64.finite (-20)), none) := by
  have h := (Scan_decoding (Point.mk none) [0, 1, 7, 7, 7, 7, 7, 7, 7, 10, 0, 0, 0, 0, 0, 0, 0,
    236, 255, 255, 255, 255, 255, 255, 255] (by decide)).1
  rw [h]
  decide

/-! ## Auxiliary facts: conversions and the encoder -/

theorem roundNat53_of_lt {a : ℕ} (h : a < 2 ^ 53) : roundNat53 a = a := by
  rw [roundNat53, if_pos h]

theorem roundNat53_exact (m e : ℕ) (hm : m < 2 ^ 53) :
    roundNat53 (m * 2 ^ e) = m * 2 ^ e := by
  by_cases h : m * 2 ^ e < 2 ^ 53
  · exact roundNat53_of_lt h
  · have hne : m * 2 ^ e ≠ 0 := by
      intro h0; rw [h0] at h; exact h (by norm_num)
    have hlog : Nat.log2 (m * 2 ^ e) < 53 + e := by
      rw [Nat.log2_lt hne, pow_add]
      exact Nat.mul_lt_mul_of_pos_right hm (by positivity)
    have hsh : Nat.log2 (m * 2 ^ e) - 52 ≤ e := by omega
    have hdvd : 2 ^ (Nat.log2 (m * 2 ^ e) - 52) ∣ m * 2 ^ e :=
      Dvd.dvd.mul_left (pow_dvd_pow 2 hsh) m
    have hmod : m * 2 ^ e % 2 ^ (Nat.log2 (m * 2 ^ e) - 52) = 0 := Nat.mod_eq_zero_of_dvd hdvd
    have hhalf : 0 < 2 ^ (Nat.log2 (m * 2 ^ e) - 52 - 1) := by positivity
    simp only [roundNat53, if_neg h, hmod]
    rw [if_neg (by omega)]
    exact Nat.div_mul_cancel hdvd

theorem natAbs_truncRat_le (q : ℚ) : ((truncRat q).natAbs : ℚ) ≤ |q| := by
  unfold truncRat
  split_ifs with h
  · have h1 : (0 : ℤ) ≤ ⌊q⌋ := Int.floor_nonneg.mpr h
    rw [abs_of_nonneg h, Nat.cast_natAbs, abs_of_nonneg h1]
    exact_mod_cast Int.floor_le q
  · push_neg at h
    have h1 : ⌈q⌉ ≤ 0 := Int.ceil_le.mpr (by exact_mod_cast h.le)
    rw [abs_of_neg h, Nat.cast_natAbs, abs_of_nonpos h1]
    have := Int.le_ceil q
    push_cast
    linarith

theorem truncRat_intCast (n : ℤ) : truncRat (n : ℚ) = n := by
  unfold truncRat
  split_ifs <;> simp

theorem truncRat_nonneg_iff (q : ℚ) : 0 ≤ truncRat q ↔ -1 < q := by
  unfold truncRat
  split_ifs with h
  · constructor
    · intro _; linarith
    · intro _; exact Int.floor_nonneg.mpr h
  · push_neg at h
    rw [Int.le_ceil_iff]
    simp

theorem int64ToFloat64_exact {n : ℤ} (h : IsDoubleInt n) :
    int64ToFloat64 n = F64.finite (n : ℚ) := by
  obtain ⟨m, e, hm, hn⟩ := h
  have hr : roundNat53 n.natAbs = n.natAbs := by rw [hn]; exact roundNat53_exact m e hm
  unfold int64ToFloat64
  rw [hr]
  split_ifs with h0
  · congr 1
    rw [Nat.cast_natAbs, abs_of_nonneg h0]
  · push_neg at h0
    congr 1
    rw [Nat.cast_natAbs, abs_of_neg h0]
    simp

theorem isDoubleInt_truncRat {q : ℚ} (h : (F64.finite q).IsDouble) : IsDoubleInt (truncRat q) := by
  obtain ⟨m, e, hm, hq⟩ := h
  rcases le_or_lt 0 e with he | he
  · -- the value is an integer
    obtain ⟨k, rfl⟩ := Int.eq_ofNat_of_zero_le he
    have habs : |q| = ((m * 2 ^ k : ℕ) : ℚ) := by rw [hq]; push_cast; simp
    refine ⟨m, k, hm, ?_⟩
    rcases le_or_lt 0 q with h0 | h0
    · rw [abs_of_nonneg h0] at habs
      rw [habs]
      have := truncRat_intCast ((m * 2 ^ k : ℕ) : ℤ)
      simp only [Int.cast_natCast] at this
      rw [this]; exact Int.natAbs_ofNat _
    · rw [abs_of_neg h0] at habs
      have hq2 : q = ((-((m * 2 ^ k : ℕ) : ℤ) : ℤ) : ℚ) := by push_cast; push_cast at habs; linarith
      rw [hq2, truncRat_intCast, Int.natAbs_neg]; exact Int.natAbs_ofNat _
  · -- the value is below 2 ^ 53 in magnitude
    refine ⟨(truncRat q).natAbs, 0, ?_, by simp⟩
    have h1 := natAbs_truncRat_le q
    have h2 : |q| < (2 : ℚ) ^ 53 := by
      rw [hq]
      have hpow : (2 : ℚ) ^ e ≤ 1 := zpow_le_one_of_nonpos₀ (by norm_num) he.le
      have hm' : (m : ℚ) < 2 ^ 53 := by exact_mod_cast hm
      calc (m : ℚ) * 2 ^ e ≤ m * 1 := by gcongr
        _ < 2 ^ 53 := by simpa using hm'
    have h3 : ((truncRat q).natAbs : ℚ) < (2 : ℚ) ^ 53 := lt_of_le_of_lt h1 h2
    exact_mod_cast h3

theorem Value_point (conv : F64 → ℕ) (lon lat : F64) :
    Value conv (Parse lon lat) =
      some (some ([0, 1, 0, 0, 0, 0, 0, 0, 0] ++ putBytes (float64ToUint64 conv lon) ++
        putBytes (float64ToUint64 conv lat)), none) := by
  rfl

theorem float64ToUint64_lt (conv : F64 → ℕ) (f : F64) : float64ToUint64 conv f < 2 ^ 64 := by
  unfold float64ToUint64
  split
  · split_ifs with h
    · omega
    · exact Nat.mod_lt _ (by norm_num)
  · exact Nat.mod_lt _ (by norm_num)

theorem leValue_lt (bs : List Byte) : leValue bs < 256 ^ bs.length := by
  induction bs with
  | nil => simp [leValue]
  | cons x t ih =>
    have hx := x.isLt
    have : leValue (x :: t) = x.val + 256 * leValue t := rfl
    rw [this, List.length_cons, pow_succ]
    omega

theorem leValue_leBytesAux (k n : ℕ) : leValue (leBytesAux k n) = n % 256 ^ k := by
  induction k generalizing n with
  | zero => simp [leBytesAux, leValue, Nat.mod_one]
  | succ k ih =>
    have : leValue (leBytesAux (k + 1) n) = (toByte n).val + 256 * leValue (leBytesAux k (n / 256)) :=
      rfl
    rw [this, ih, pow_succ, Nat.mul_comm (256 ^ k) 256, Nat.mod_mul]
    simp [toByte]

theorem leValue_leBytes {n : ℕ} (h : n < 2 ^ 64) : leValue (leBytes n) = n := by
  rw [leBytes, leValue_leBytesAux]
  exact Nat.mod_eq_of_lt (by norm_num; omega)

theorem putBytes_eq_leBytes (v : ℕ) : putBytes v = leBytes v := by
  simp only [putBytes, leBytes, leBytesAux, Nat.shiftRight_eq_div_pow]
  have e : ∀ a b : ℕ, a % 256 = b % 256 → toByte a = toByte b := by
    intro a b h; exact Fin.ext h
  refine congrArg₂ _ rfl (congrArg₂ _ (e _ _ ?_) (congrArg₂ _ (e _ _ ?_) (congrArg₂ _ (e _ _ ?_)
    (congrArg₂ _ (e _ _ ?_) (congrArg₂ _ (e _ _ ?_) (congrArg₂ _ (e _ _ ?_)
    (congrArg₂ _ (e _ _ ?_) rfl))))))) <;> omega

theorem Scan_Value (conv : F64 → ℕ) (g : Point F64) (lon lat : F64) :
    ∃ data, Value conv (Parse lon lat) = some (some data, none) ∧
      data = [0, 1, 0, 0, 0, 0, 0, 0, 0] ++ leBytes (float64ToUint64 conv lon) ++
        leBytes (float64ToUint64 conv lat) ∧
      Scan g (.bytes data) =
        some (Parse (float64FromBytes (float64ToUint64 conv lon))
          (float64FromBytes (float64ToUint64 conv lat)), none) := by
  refine ⟨_, Value_point conv lon lat, by rw [putBytes_eq_leBytes, putBytes_eq_leBytes], ?_⟩
  have h : Scan g (.bytes ([0, 1, 0, 0, 0, 0, 0, 0, 0] ++ putBytes (float64ToUint64 conv lon) ++
      putBytes (float64ToUint64 conv lat))) =
      some (Parse (float64FromBytes (le64 (toByte (float64ToUint64 conv lon))
          (toByte (float64ToUint64 conv lon >>> 8)) (toByte (float64ToUint64 conv lon >>> 16))
          (toByte (float64ToUint64 conv lon >>> 24)) (toByte (float64ToUint64 conv lon >>> 32))
          (toByte (float64ToUint64 conv lon >>> 40)) (toByte (float64ToUint64 conv lon >>> 48))
          (toByte (float64ToUint64 conv lon >>> 56))))
        (float64FromBytes (le64 (toByte (float64ToUint64 conv lat))
          (toByte (float64ToUint64 conv lat >>> 8)) (toByte (float64ToUint64 conv lat >>> 16))
          (toByte (float64ToUint64 conv lat >>> 24)) (toByte (float64ToUint64 conv lat >>> 32))
          (toByte (float64ToUint64 conv lat >>> 40)) (toByte (float64ToUint64 conv lat >>> 48))
          (toByte (float64ToUint64 conv lat >>> 56)))), none) := rfl
  rw [h, le64_toByte, le64_toByte, Nat.mod_eq_of_lt (float64ToUint64_lt conv lon),
    Nat.mod_eq_of_lt (float64ToUint64_lt conv lat)]

theorem float64ToUint64_inRange (conv : F64 → ℕ) {q : ℚ} (h0 : 0 ≤ truncRat q)
    (h1 : truncRat q < 2 ^ 64) : float64ToUint64 conv (.finite q) = (truncRat q).toNat := by
  simp only [float64ToUint64]
  rw [if_pos ⟨h0, h1⟩]

theorem coordinate_inRange (conv : F64 → ℕ) {q : ℚ} (hd : (F64.finite q).IsDouble)
    (h0 : 0 ≤ truncRat q) (h1 : truncRat q < 2 ^ 63) :
    float64FromBytes (float64ToUint64 conv (.finite q)) = .finite (truncRat q : ℚ) := by
  rw [float64ToUint64_inRange conv h0 (by omega), float64FromBytes]
  have e : uint64ToInt64 (truncRat q).toNat = truncRat q := by
    unfold uint64ToInt64
    have hlt : (truncRat q).toNat < 2 ^ 63 := by omega
    rw [Nat.mod_eq_of_lt (by omega), if_pos hlt]
    omega
  rw [e]
  exact int64ToFloat64_exact (isDoubleInt_truncRat hd)

theorem coordinate_negative_amd64 {q : ℚ} (hd : (F64.finite q).IsDouble)
    (h0 : -(2 : ℤ) ^ 63 ≤ truncRat q) (h1 : truncRat q < 0) :
    float64FromBytes (float64ToUint64 outOfRangeAmd64 (.finite q)) =
      .finite (truncRat q : ℚ) := by
  have hu : float64ToUint64 outOfRangeAmd64 (.finite q) = (truncRat q + 2 ^ 64).toNat := by
    simp only [float64ToUint64, outOfRangeAmd64]
    rw [if_neg (by omega), if_pos ⟨h0, h1⟩]
    exact Nat.mod_eq_of_lt (by omega)
  rw [hu, float64FromBytes]
  have e : uint64ToInt64 (truncRat q + 2 ^ 64).toNat = truncRat q := by
    unfold uint64ToInt64
    rw [Nat.mod_eq_of_lt (by omega), if_neg (by omega)]
    omega
  rw [e]
  exact int64ToFloat64_exact (isDoubleInt_truncRat hd)

theorem coordinate_negative_arm64 {q : ℚ} (h1 : truncRat q < 0) :
    float64FromBytes (float64ToUint64 outOfRangeArm64 (.finite q)) = .finite 0 := by
  have hu : float64ToUint64 outOfRangeArm64 (.finite q) = 0 := by
    simp only [float64ToUint64, outOfRangeArm64]
    rw [if_neg (by omega), if_pos h1, Nat.zero_mod]
  rw [hu]
  decide

theorem truncRat_neg_of_le {q : ℚ} (h : q ≤ -1) : truncRat q < 0 := by
  unfold truncRat
  rw [if_neg (by linarith)]
  have : ⌈q⌉ ≤ -1 := Int.ceil_le.mpr (by exact_mod_cast h)
  omega

theorem truncRat_lt_of_lt {q : ℚ} {N : ℤ} (hN : 0 < N) (h : q < N) : truncRat q < N := by
  unfold truncRat
  split_ifs with h0
  · exact Int.floor_lt.mpr h
  · push_neg at h0
    have : ⌈q⌉ ≤ 0 := Int.ceil_le.mpr (by exact_mod_cast h0.le)
    omega

theorem truncRat_gt_of_gt {q : ℚ} {N : ℤ} (hN : N < 0) (h : (N : ℚ) < q) : N < truncRat q := by
  unfold truncRat
  split_ifs with h0
  · have : (0 : ℤ) ≤ ⌊q⌋ := Int.floor_nonneg.mpr h0
    omega
  · exact Int.lt_ceil.mpr h

theorem encodes64_leBytes {n : ℤ} (h0 : 0 ≤ n) (h1 : n < 2 ^ 64) :
    Encodes64 (leBytes n.toNat) n := by
  refine ⟨rfl, Or.inl ?_⟩
  rw [leValue_leBytes (by omega)]
  omega

theorem not_encodes64_of_ge (bs : List Byte) {n : ℤ} (h : 2 ^ 64 ≤ n) : ¬ Encodes64 bs n := by
  rintro ⟨hlen, hv⟩
  have hlt := leValue_lt bs
  rw [hlen] at hlt
  have hlt2 : leValue bs < 2 ^ 64 := by norm_num at hlt ⊢; exact hlt
  unfold leSigned64 at hv
  split_ifs at hv <;> omega

/-! ## Value: the layout of the record -/

/-- C2, amended. For every present point tagged "Point" whose coordinates
`lon` and `lat` are finite, greater than -1 and below `2 ^ 64` (so that their
truncations are `uint64` values), whatever the platform does out of range,
`Value` returns exactly 25 bytes: byte 0 is `0`, byte 1 is `1`, bytes 2..8
are zero, bytes 9..16 are the little-endian 64-bit encoding of `lon`
truncated toward zero and bytes 17..24 that of `lat`. -/
theorem Value_layout (conv : F64 → ℕ) (lon lat : ℚ)
    (hlon : -1 < lon ∧ lon < 2 ^ 64) (hlat : -1 < lat ∧ lat < 2 ^ 64) :
    ∃ data, Value conv (Parse (.finite lon) (.finite lat)) = some (some data, none) ∧
      data.length = 25 ∧
      data = [0, 1, 0, 0, 0, 0, 0, 0, 0] ++ leBytes (truncRat lon).toNat ++
        leBytes (truncRat lat).toNat ∧
      Encodes64 ((data.drop 9).take 8) (truncRat lon) ∧
      Encodes64 (data.drop 17) (truncRat lat) := by
  have a0 := (truncRat_nonneg_iff lon).mpr hlon.1
  have a1 : truncRat lon < 2 ^ 64 := truncRat_lt_of_lt (by norm_num) (by exact_mod_cast hlon.2)
  have b0 := (truncRat_nonneg_iff lat).mpr hlat.1
  have b1 : truncRat lat < 2 ^ 64 := truncRat_lt_of_lt (by norm_num) (by exact_mod_cast hlat.2)
  obtain ⟨data, hv, hd, -⟩ := Scan_Value conv (Point.mk none) (.finite lon) (.finite lat)
  rw [float64ToUint64_inRange conv a0 a1, float64ToUint64_inRange conv b0 b1] at hd
  refine ⟨data, hv, ?_, hd, ?_, ?_⟩
  · rw [hd]; rfl
  · rw [hd]
    exact encodes64_leBytes a0 a1
  · rw [hd]
    exact encodes64_leBytes b0 b1

/-- Witness for C2: the point (12.75, 20). -/
theorem Value_layout_witness :
    ∃ data, Value outOfRangeArm64 (Parse (.finite (51 / 4)) (.finite 20)) = some (some data, none) ∧
      data.length = 25 ∧
      data = [0, 1, 0, 0, 0, 0, 0, 0, 0] ++ leBytes (truncRat (51 / 4)).toNat ++
        leBytes (truncRat 20).toNat ∧
      Encodes64 ((data.drop 9).take 8) (truncRat (51 / 4)) ∧
      Encodes64 (data.drop 17) (truncRat 20) :=
  Value_layout outOfRangeArm64 (51 / 4) 20 (by norm_num) (by norm_num)

theorem truncRat_two_pow (k : ℕ) : truncRat ((2 : ℚ) ^ k) = 2 ^ k := by
  have := truncRat_intCast ((2 : ℤ) ^ k)
  simpa using this

/-- Counterexample to C2 as stated. At the point `(2 ^ 64, 0)`, whose
longitude is a finite `float64`, `Value` succeeds (with the amd64 conversion
bytes 9..16 are `00 00 00 00 00 00 00 80`), but with no conversion can bytes
9..16 be a 64-bit encoding of the truncated longitude `2 ^ 64`: eight bytes
denote a number below `2 ^ 64`. -/
theorem Value_layout_counterexample :
    (∃ data, Value outOfRangeAmd64 (Parse (.finite (2 ^ 64)) (.finite 0)) = some (some data, none) ∧
      (data.drop 9).take 8 = [0, 0, 0, 0, 0, 0, 0, 128]) ∧
    ¬ ∃ (conv : F64 → ℕ) (data : List Byte),
      Value conv (Parse (.finite (2 ^ 64)) (.finite 0)) = some (some data, none) ∧
        Encodes64 ((data.drop 9).take 8) (truncRat (2 ^ 64)) := by
  constructor
  · refine ⟨_, Value_point _ _ _, ?_⟩
    have h : float64ToUint64 outOfRangeAmd64 (.finite (2 ^ 64)) = 2 ^ 63 := by
      simp only [float64ToUint64, outOfRangeAmd64, truncRat_two_pow]
      rw [if_neg (by omega), if_neg (by omega)]
      norm_num
    rw [h]
    decide
  · rintro ⟨conv, data, -, h⟩
    rw [truncRat_two_pow] at h
    exact not_encodes64_of_ge _ le_rfl h

/-! ## Value followed by Scan -/

theorem isDouble_two_pow (k : ℕ) : (F64.finite ((2 : ℚ) ^ k)).IsDouble :=
  ⟨1, k, by norm_num, by simp⟩

theorem float64FromBytes_two_pow_63 :
    float64FromBytes (2 ^ 63) = .finite (-(2 : ℚ) ^ 63) := by
  have h : uint64ToInt64 (2 ^ 63) = -((2 ^ 63 : ℕ) : ℤ) := by decide
  rw [float64FromBytes, h]
  have hd : IsDoubleInt (-((2 ^ 63 : ℕ) : ℤ)) := ⟨1, 63, by norm_num, by simp⟩
  rw [int64ToFloat64_exact hd]
  congr 1

/-- C4, amended. For every point whose longitude and latitude are
integer-valued `float64` values in the range `0 ≤ x < 2 ^ 63`, whatever the
platform does out of range, `Value` succeeds, `Scan` accepts its output and
the decoded point has exactly the same longitude and latitude. -/
theorem binary_round_trip_integers (conv : F64 → ℕ) (g : Point F64) (lon lat : ℤ)
    (hdlon : (F64.finite lon).IsDouble) (hdlat : (F64.finite lat).IsDouble)
    (hlon : 0 ≤ lon ∧ lon < 2 ^ 63) (hlat : 0 ≤ lat ∧ lat < 2 ^ 63) :
    ∃ data, Value conv (Parse (.finite lon) (.finite lat)) = some (some data, none) ∧
      Scan g (.bytes data) = some (Parse (.finite lon) (.finite lat), none) := by
  obtain ⟨data, hv, -, hs⟩ := Scan_Value conv g (.finite lon) (.finite lat)
  refine ⟨data, hv, ?_⟩
  rw [hs, coordinate_inRange conv hdlon (by rw [truncRat_intCast]; exact hlon.1)
    (by rw [truncRat_intCast]; exact hlon.2),
    coordinate_inRange conv hdlat (by rw [truncRat_intCast]; exact hlat.1)
    (by rw [truncRat_intCast]; exact hlat.2), truncRat_intCast, truncRat_intCast]

/-- Witness for C4: the point (10, 20) encodes and decodes back to (10, 20). -/
theorem binary_round_trip_integers_witness :
    ∃ data, Value outOfRangeArm64 (Parse (.finite ((10 : ℤ) : ℚ)) (.finite ((20 : ℤ) : ℚ))) =
        some (some data, none) ∧
      Scan (Point.mk none) (.bytes data) =
        some (Parse (.finite ((10 : ℤ) : ℚ)) (.finite ((20 : ℤ) : ℚ)), none) :=
  binary_round_trip_integers outOfRangeArm64 (Point.mk none) 10 20
    ⟨10, 0, by norm_num, by norm_num⟩ ⟨20, 0, by norm_num, by norm_num⟩
    (by norm_num) (by norm_num)

/-- Counterexample to C4 as stated. The point `(2 ^ 63, 0)` has
integer-valued `float64` coordinates; `Value` succeeds on it and `Scan`
accepts the output, but the decoded longitude is `-2 ^ 63` (the encoder writes
the `uint64` `2 ^ 63`, which the decoder reads as an `int64`); with no
out-of-range conversion does the point decode to itself. -/
theorem binary_round_trip_integers_counterexample :
    (F64.finite ((2 : ℚ) ^ 63)).IsDouble ∧
    (∃ data, Value outOfRangeAmd64 (Parse (.finite (2 ^ 63)) (.finite 0)) = some (some data, none) ∧
      Scan (Point.mk none) (.bytes data) = some (Parse (.finite (-2 ^ 63)) (.finite 0), none)) ∧
    ¬ ∃ (conv : F64 → ℕ) (g : Point F64) (data : List Byte),
      Value conv (Parse (.finite (2 ^ 63)) (.finite 0)) = some (some data, none) ∧
        Scan g (.bytes data) = some (Parse (.finite (2 ^ 63)) (.finite 0), none) := by
  have hu : ∀ conv : F64 → ℕ, float64ToUint64 conv (.finite (2 ^ 63)) = 2 ^ 63 := by
    intro conv
    rw [float64ToUint64_inRange conv (by rw [truncRat_two_pow]; positivity)
      (by rw [truncRat_two_pow]; norm_num), truncRat_two_pow]
    rfl
  have hz : ∀ conv : F64 → ℕ, float64ToUint64 conv (.finite 0) = 0 := by
    intro conv
    have h0 : truncRat 0 = 0 := by simpa using truncRat_intCast 0
    rw [float64ToUint64_inRange conv (by rw [h0]) (by rw [h0]; norm_num), h0]
    rfl
  have hf0 : float64FromBytes 0 = .finite 0 := by decide
  refine ⟨isDouble_two_pow 63, ?_, ?_⟩
  · obtain ⟨data, hv, -, hs⟩ :=
      Scan_Value outOfRangeAmd64 (Point.mk none) (.finite (2 ^ 63)) (.finite 0)
    refine ⟨data, hv, ?_⟩
    rw [hs, hu, hz, float64FromBytes_two_pow_63, hf0]
  · rintro ⟨conv, g, data, hv, hs⟩
    obtain ⟨data2, hv2, -, hs2⟩ := Scan_Value conv g (.finite (2 ^ 63)) (.finite 0)
    rw [hv] at hv2
    simp only [Option.some.injEq, Prod.mk.injEq, and_true] at hv2
    subst hv2
    rw [hs, hu, hz, float64FromBytes_two_pow_63, hf0] at hs2
    simp only [Parse, NewPointGeometry, Option.some.injEq, Prod.mk.injEq, and_true,
      Point.mk.injEq, Geometry.mk.injEq, true_and, List.cons.injEq, F64.finite.injEq] at hs2
    norm_num at hs2

theorem truncRat_eq_of_nonneg {q : ℚ} {n : ℤ} (h0 : (n : ℚ) ≤ q) (h1 : q < n + 1) (hn : 0 ≤ n) :
    truncRat q = n := by
  have hq : 0 ≤ q := le_trans (by exact_mod_cast hn) h0
  rw [truncRat, if_pos hq, Int.floor_eq_iff]
  exact ⟨h0, h1⟩

theorem coordinate_amd64 {q : ℚ} (hd : (F64.finite q).IsDouble) (h : |q| < 2 ^ 63) :
    float64FromBytes (float64ToUint64 outOfRangeAmd64 (.finite q)) =
      .finite (truncRat q : ℚ) := by
  obtain ⟨h1, h2⟩ := abs_lt.mp h
  have hlt : truncRat q < 2 ^ 63 := truncRat_lt_of_lt (by norm_num) (by exact_mod_cast h2)
  have hgt : -(2 : ℤ) ^ 63 < truncRat q :=
    truncRat_gt_of_gt (by norm_num) (by exact_mod_cast h1)
  rcases le_or_lt 0 (truncRat q) with h0 | h0
  · exact coordinate_inRange _ hd h0 hlt
  · exact coordinate_negative_amd64 hd hgt.le h0

/-- With the amd64 conversion, `Value` followed by `Scan` truncates each
coordinate toward zero, for every pair of finite `float64` coordinates of
magnitude below `2 ^ 63`, negative ones included. -/
theorem binary_truncation_amd64 (g : Point F64) (lon lat : ℚ)
    (hdlon : (F64.finite lon).IsDouble) (hdlat : (F64.finite lat).IsDouble)
    (hlon : |lon| < 2 ^ 63) (hlat : |lat| < 2 ^ 63) :
    ∃ data, Value outOfRangeAmd64 (Parse (.finite lon) (.finite lat)) = some (some data, none) ∧
      Scan g (.bytes data) =
        some (Parse (.finite (truncRat lon : ℚ)) (.finite (truncRat lat : ℚ)), none) := by
  obtain ⟨data, hv, -, hs⟩ := Scan_Value outOfRangeAmd64 g (.finite lon) (.finite lat)
  exact ⟨data, hv, by rw [hs, coordinate_amd64 hdlon hlon, coordinate_amd64 hdlat hlat]⟩

/-- With any out-of-range conversion, `Value` followed by `Scan` truncates
each coordinate toward zero, for finite `float64` coordinates greater than -1
and below `2 ^ 63`. -/
theorem binary_truncation_inRange (conv : F64 → ℕ) (g : Point F64) (lon lat : ℚ)
    (hdlon : (F64.finite lon).IsDouble) (hdlat : (F64.finite lat).IsDouble)
    (hlon : -1 < lon ∧ lon < 2 ^ 63) (hlat : -1 < lat ∧ lat < 2 ^ 63) :
    ∃ data, Value conv (Parse (.finite lon) (.finite lat)) = some (some data, none) ∧
      Scan g (.bytes data) =
        some (Parse (.finite (truncRat lon : ℚ)) (.finite (truncRat lat : ℚ)), none) := by
  obtain ⟨data, hv, -, hs⟩ := Scan_Value conv g (.finite lon) (.finite lat)
  refine ⟨data, hv, ?_⟩
  rw [hs, coordinate_inRange conv hdlon ((truncRat_nonneg_iff lon).mpr hlon.1)
      (truncRat_lt_of_lt (by norm_num) (by exact_mod_cast hlon.2)),
    coordinate_inRange conv hdlat ((truncRat_nonneg_iff lat).mpr hlat.1)
      (truncRat_lt_of_lt (by norm_num) (by exact_mod_cast hlat.2))]

/-- C5, evaluation at the failing input. With the saturating conversion of
arm64, `Value` followed by `Scan` sends the point (10.5, -20.25), and likewise
the point of the two `float64` values nearest to 10.9 and -20.2, to (10, 0):
the negative latitude is not truncated to -20 but lost. -/
theorem binary_truncation_negative_arm64 :
    (∃ data, Value outOfRangeArm64 (Parse (.finite (21 / 2)) (.finite (-81 / 4))) =
        some (some data, none) ∧
      Scan (Point.mk none) (.bytes data) = some (Parse (.finite 10) (.finite 0), none)) ∧
    (∃ data, Value outOfRangeArm64 (Parse (.finite (6136154492292301 / 2 ^ 49))
        (.finite (-5685794529555251 / 2 ^ 48))) = some (some data, none) ∧
      Scan (Point.mk none) (.bytes data) = some (Parse (.finite 10) (.finite 0), none)) := by
  have key : ∀ lon lat : ℚ, (F64.finite lon).IsDouble → (10 : ℚ) ≤ lon → lon < 11 → lat ≤ -1 →
      ∃ data, Value outOfRangeArm64 (Parse (.finite lon) (.finite lat)) =
          some (some data, none) ∧
        Scan (Point.mk none) (.bytes data) = some (Parse (.finite 10) (.finite 0), none) := by
    intro lon lat hd h0 h1 hl
    obtain ⟨data, hv, -, hs⟩ := Scan_Value outOfRangeArm64 (Point.mk none) (.finite lon) (.finite lat)
    refine ⟨data, hv, ?_⟩
    have ht : truncRat lon = 10 := truncRat_eq_of_nonneg (by exact_mod_cast h0) (by norm_num; linarith) (by norm_num)
    rw [hs, coordinate_negative_arm64 (truncRat_neg_of_le hl),
      coordinate_inRange _ hd (by rw [ht]; norm_num) (by rw [ht]; norm_num), ht]
    norm_num
  exact ⟨key _ _ ⟨21, -1, by norm_num, by norm_num⟩ (by norm_num) (by norm_num) (by norm_num),
    key _ _ ⟨6136154492292301, -49, by norm_num, by norm_num⟩ (by norm_num) (by norm_num)
      (by norm_num)⟩

/-! ## Value: failure -/

theorem Value_present (conv : F64 → ℕ) (geom : Geometry F64) (h : geom.Type_ = "Point")
    (v : Option (List Byte)) (e : Option String)
    (hv : Value conv { Geometry := some geom } = some (v, e)) : e = none ∧ v ≠ none := by
  simp only [Value, h, ne_eq, not_true_eq_false, if_false] at hv
  simp only [bind, Option.bind_eq_some, Option.some.injEq, Prod.mk.injEq] at hv
  obtain ⟨_, _, _, _, _, _, _, _, _, _, _, _, _, _, _, _, rfl, rfl⟩ := hv
  simp

/-- C6. `Value` returns an error exactly when the point is absent or its
geometry type tag is not "Point"; the error comes with no bytes; and `Value`
succeeds on every point returned by `Parse`. -/
theorem Value_failure (conv : F64 → ℕ) (g : Point F64) :
    ((∃ v e, Value conv g = some (v, some e)) ↔
      (g.Geometry = none ∨ ∃ geom, g.Geometry = some geom ∧ geom.Type_ ≠ "Point")) ∧
    (∀ v e, Value conv g = some (v, some e) → v = none ∧ e = "invalid Point value") ∧
    (∀ lon lat : F64, ∃ data, Value conv (Parse lon lat) = some (some data, none)) := by
  obtain ⟨geo⟩ := g
  cases geo with
  | none =>
    refine ⟨⟨fun _ => Or.inl rfl, fun _ => ⟨none, _, rfl⟩⟩, ?_, ?_⟩
    · intro v e h
      simp only [Value, Option.some.injEq, Prod.mk.injEq] at h
      exact ⟨h.1.symm, h.2.symm⟩
    · exact fun lon lat => ⟨_, Value_point conv lon lat⟩
  | some geom =>
    by_cases ht : geom.Type_ = "Point"
    · refine ⟨⟨?_, ?_⟩, ?_, ?_⟩
      · rintro ⟨v, e, h⟩
        exact absurd (Value_present conv geom ht v _ h).1 (by simp)
      · rintro (h | ⟨geom2, h, h2⟩)
        · simp at h
        · simp only [Option.some.injEq] at h
          subst h
          exact absurd ht h2
      · intro v e h
        exact absurd (Value_present conv geom ht v _ h).1 (by simp)
      · exact fun lon lat => ⟨_, Value_point conv lon lat⟩
    · refine ⟨⟨fun _ => Or.inr ⟨geom, rfl, ht⟩, fun _ => ⟨none, "invalid Point value", ?_⟩⟩, ?_, ?_⟩
      · simp [Value, ht]
      · intro v e h
        simp only [Value, ht, ne_eq, not_false_eq_true, if_true, Option.some.injEq, Prod.mk.injEq] at h
        exact ⟨h.1.symm, h.2.symm⟩
      · exact fun lon lat => ⟨_, Value_point conv lon lat⟩

/-! ## The distance functions -/

section Rounding

variable {K : Type} [LinearOrderedField K] [FloorRing K]

theorem roundHalfEven_of_abs_sub_lt (t : K) (m : ℤ) (h : |t - m| < 1 / 2) :
    roundHalfEven t = m := by
  obtain ⟨h1, h2⟩ := abs_lt.mp h
  unfold roundHalfEven
  have hf1 : (⌊t⌋ : K) ≤ t := Int.floor_le t
  have hf2 : t < ⌊t⌋ + 1 := Int.lt_floor_add_one t
  -- the floor is m or m - 1
  have hlo : m - 1 ≤ ⌊t⌋ := by
    rw [Int.le_floor]; push_cast; linarith
  have hhi : ⌊t⌋ ≤ m := by
    have : ⌊t⌋ < m + 1 := by
      rw [Int.floor_lt]; push_cast; linarith
    omega
  rcases (by omega : ⌊t⌋ = m ∨ ⌊t⌋ = m - 1) with e | e
  · rw [e, if_pos (by linarith)]
  · have e' : (⌊t⌋ : K) = m - 1 := by rw [e]; push_cast; rfl
    rw [if_neg (by rw [e']; linarith), if_pos (by rw [e']; linarith), e]
    ring

theorem roundHalfEven_intCast (n : ℤ) : roundHalfEven (n : K) = n :=
  roundHalfEven_of_abs_sub_lt _ n (by simp)

theorem roundHalfEven_nonneg {t : K} (h : 0 ≤ t) : 0 ≤ roundHalfEven t := by
  have hf : 0 ≤ ⌊t⌋ := Int.floor_nonneg.mpr h
  unfold roundHalfEven
  split_ifs <;> omega

theorem roundHalfEven_le (t : K) : (roundHalfEven t : K) ≤ t + 1 / 2 := by
  have hf1 : (⌊t⌋ : K) ≤ t := Int.floor_le t
  unfold roundHalfEven
  split_ifs with h1 h2 h3
  · linarith
  · push_cast; linarith
  · linarith
  · push_cast
    have : t - ⌊t⌋ = 1 / 2 := le_antisymm (not_lt.mp h2) (not_lt.mp h1)
    linarith

theorem roundHalfEven_ge (t : K) : t - 1 / 2 ≤ (roundHalfEven t : K) := by
  have hf2 : t < ⌊t⌋ + 1 := Int.lt_floor_add_one t
  unfold roundHalfEven
  split_ifs with h1 h2 h3
  · linarith
  · push_cast; linarith
  · have : t - ⌊t⌋ = 1 / 2 := le_antisymm (not_lt.mp h2) (not_lt.mp h1)
    linarith
  · push_cast; linarith

theorem log_two_eq {x : K} {e : ℤ} (h1 : (2 : K) ^ e ≤ x) (h2 : x < (2 : K) ^ (e + 1)) :
    Int.log 2 x = e := by
  have hx : 0 < x := lt_of_lt_of_le (by positivity) h1
  have a : e ≤ Int.log 2 x := by
    rw [← Int.zpow_le_iff_le_log (by norm_num) hx]; exact_mod_cast h1
  have b : Int.log 2 x < e + 1 := by
    rw [← Int.lt_zpow_iff_log_lt (by norm_num) hx]; exact_mod_cast h2
  omega

theorem F64.round_zero : F64.round (0 : K) = .finite 0 := by
  simp [F64.round]

theorem ulpExponent_neg (x : K) : ulpExponent (-x) = ulpExponent x := by
  simp [ulpExponent]

theorem F64.round_neg (x : K) : F64.round (-x) = F64.neg (F64.round x) := by
  rcases lt_trichotomy x 0 with h | h | h
  · have h1 : ¬ (x = 0) := h.ne
    have h2 : ¬ (-x = 0) := by simpa using h1
    have h3 : (0 : K) < -x := by linarith
    have h4 : ¬ ((0 : K) < x) := by linarith
    simp only [F64.round, abs_neg, ulpExponent_neg, if_neg h1, if_neg h2, if_pos h3, if_neg h4]
    split_ifs <;> simp [F64.neg]
  · subst h
    simp [F64.round, F64.neg]
  · have h1 : ¬ (x = 0) := h.ne'
    have h2 : ¬ (-x = 0) := by simpa using h1
    have h3 : ¬ ((0 : K) < -x) := by linarith
    simp only [F64.round, abs_neg, ulpExponent_neg, if_neg h1, if_neg h2, if_neg h3, if_pos h]
    split_ifs <;> simp [F64.neg]

theorem F64.round_of_pos {x : K} (h : 0 < x) :
    F64.round x =
      if (2 : ℚ) ^ (1024 : ℕ) ≤
          (roundHalfEven (x / (2 : K) ^ ulpExponent x) : ℚ) * (2 : ℚ) ^ ulpExponent x then
        .posInf
      else .finite ((roundHalfEven (x / (2 : K) ^ ulpExponent x) : ℚ) * (2 : ℚ) ^ ulpExponent x) := by
  simp only [F64.round, if_neg h.ne', if_pos h, abs_of_pos h]

theorem ulpExponent_eq {x : K} {e : ℤ} (h1 : (2 : K) ^ e ≤ x) (h2 : x < (2 : K) ^ (e + 1)) :
    ulpExponent x = max (e - 52) (-1074) := by
  have hx : 0 < x := lt_of_lt_of_le (by positivity) h1
  rw [ulpExponent, abs_of_pos hx, log_two_eq h1 h2]

/-- Evaluation of the rounding: `x` in the binade of exponent `e` lies within
half a unit in the last place of `m * 2 ^ k`. -/
theorem F64.round_eq_of_close {x : K} {e : ℤ} (h1 : (2 : K) ^ e ≤ x)
    (h2 : x < (2 : K) ^ (e + 1)) (m : ℤ)
    (hm : |x / (2 : K) ^ max (e - 52) (-1074) - m| < 1 / 2)
    (hfin : (m : ℚ) * (2 : ℚ) ^ max (e - 52) (-1074) < (2 : ℚ) ^ (1024 : ℕ)) :
    F64.round x = .finite ((m : ℚ) * (2 : ℚ) ^ max (e - 52) (-1074)) := by
  have hx : 0 < x := lt_of_lt_of_le (by positivity) h1
  rw [F64.round_of_pos hx, ulpExponent_eq h1 h2, roundHalfEven_of_abs_sub_lt _ m hm,
    if_neg (not_le.mpr hfin)]

omit [FloorRing K] in
theorem two_zpow_natLog_le (n : ℕ) (hn : 0 < n) : (2 : K) ^ ((Nat.log 2 n : ℕ) : ℤ) ≤ (n : K) := by
  rw [zpow_natCast]
  exact_mod_cast Nat.pow_log_le_self 2 hn.ne'

omit [FloorRing K] in
theorem lt_two_zpow_natLog_succ (n : ℕ) : (n : K) < (2 : K) ^ (((Nat.log 2 n : ℕ) : ℤ) + 1) := by
  have : n < 2 ^ (Nat.log 2 n + 1) := Nat.lt_pow_succ_log_self (by norm_num) n
  have h2 : (n : K) < ((2 ^ (Nat.log 2 n + 1) : ℕ) : K) := by exact_mod_cast this
  rw [show ((Nat.log 2 n : ℕ) : ℤ) + 1 = ((Nat.log 2 n + 1 : ℕ) : ℤ) by push_cast; rfl,
    zpow_natCast]
  exact_mod_cast h2

/-- A value `n * 2 ^ j` with a significand `n` of at most 53 bits and an
exponent in range is a `float64`: rounding leaves it as it is. -/
theorem F64.round_representable (n : ℕ) (j : ℤ) (hn0 : 0 < n) (hn : n < 2 ^ 53)
    (hj : -1074 ≤ j) (hfin : (n : ℚ) * (2 : ℚ) ^ j < (2 : ℚ) ^ (1024 : ℕ)) :
    F64.round ((n : K) * (2 : K) ^ j) = .finite ((n : ℚ) * (2 : ℚ) ^ j) := by
  have h2K : (0 : K) < 2 := by norm_num
  have hlog : Nat.log 2 n ≤ 52 := by
    have := Nat.log_lt_of_lt_pow hn0.ne' hn
    omega
  set e : ℤ := (Nat.log 2 n : ℤ) + j with he
  have h1 : (2 : K) ^ e ≤ (n : K) * (2 : K) ^ j := by
    rw [he, zpow_add₀ h2K.ne']
    exact mul_le_mul_of_nonneg_right (two_zpow_natLog_le n hn0) (by positivity)
  have h2 : (n : K) * (2 : K) ^ j < (2 : K) ^ (e + 1) := by
    rw [he, show (Nat.log 2 n : ℤ) + j + 1 = ((Nat.log 2 n : ℤ) + 1) + j by ring,
      zpow_add₀ h2K.ne']
    exact mul_lt_mul_of_pos_right (lt_two_zpow_natLog_succ n) (by positivity)
  have hk : max (e - 52) (-1074) ≤ j := by
    apply max_le <;> omega
  obtain ⟨d, hd'⟩ := Int.le.dest hk
  have hd : j = max (e - 52) (-1074) + d := hd'.symm
  have hquot : (n : K) * (2 : K) ^ j / (2 : K) ^ max (e - 52) (-1074) =
      (((n * 2 ^ d : ℕ) : ℤ) : K) := by
    rw [hd, zpow_add₀ h2K.ne', zpow_natCast]
    field_simp
    ring
  have key := F64.round_eq_of_close h1 h2 ((n * 2 ^ d : ℕ) : ℤ)
    (by rw [hquot]; simp)
    (by
      have : (((n * 2 ^ d : ℕ) : ℤ) : ℚ) * (2 : ℚ) ^ max (e - 52) (-1074) = (n : ℚ) * (2 : ℚ) ^ j := by
        rw [hd, zpow_add₀ (by norm_num : (2 : ℚ) ≠ 0), zpow_natCast]
        push_cast
        ring
      rw [this]; exact hfin)
  rw [key]
  congr 1
  rw [hd, zpow_add₀ (by norm_num : (2 : ℚ) ≠ 0), zpow_natCast]
  push_cast
  ring

theorem F64.round_natCast (n : ℕ) (hn : n < 2 ^ 53) : F64.round (n : K) = .finite (n : ℚ) := by
  rcases Nat.eq_zero_or_pos n with h | h
  · subst h
    simp [F64.round_zero]
  · have := F64.round_representable (K := K) n 0 h hn (by norm_num)
      (by
        have : (n : ℚ) < 2 ^ 53 := by exact_mod_cast hn
        simp only [zpow_zero, mul_one]
        calc (n : ℚ) < 2 ^ 53 := this
          _ < 2 ^ 1024 := by norm_num)
    simpa using this

theorem F64.round_bounded_of_pos {x : K} {b : ℤ} (hx : 0 < x) (hb1 : -1022 ≤ b)
    (hb2 : b ≤ 1023) (h : x < (2 : K) ^ b) :
    ∃ r : ℚ, F64.round x = .finite r ∧ 0 ≤ r ∧ r ≤ (2 : ℚ) ^ b := by
  have h2K : (0 : K) < 2 := by norm_num
  have he1 : (2 : K) ^ Int.log 2 x ≤ x := by
    exact_mod_cast Int.zpow_log_le_self (b := 2) (by norm_num) hx
  have he2 : Int.log 2 x < b := by
    rw [← Int.lt_zpow_iff_log_lt (by norm_num) hx]; exact_mod_cast h
  have hk : ulpExponent x ≤ b := by
    rw [ulpExponent, abs_of_pos hx]
    apply max_le <;> omega
  obtain ⟨d, hd'⟩ := Int.le.dest hk
  have hd : b = ulpExponent x + d := hd'.symm
  have ht : x / (2 : K) ^ ulpExponent x < ((2 ^ d : ℤ) : K) := by
    rw [div_lt_iff₀ (by positivity)]
    calc x < (2 : K) ^ b := h
      _ = ((2 ^ d : ℤ) : K) * (2 : K) ^ ulpExponent x := by
        rw [hd, zpow_add₀ h2K.ne', zpow_natCast]; push_cast; ring
  have hm0 : 0 ≤ roundHalfEven (x / (2 : K) ^ ulpExponent x) :=
    roundHalfEven_nonneg (by positivity)
  have hm1 : roundHalfEven (x / (2 : K) ^ ulpExponent x) ≤ 2 ^ d := by
    have h3 := roundHalfEven_le (x / (2 : K) ^ ulpExponent x)
    have h4 : (roundHalfEven (x / (2 : K) ^ ulpExponent x) : K) < ((2 ^ d + 1 : ℤ) : K) := by
      push_cast; push_cast at ht; linarith
    have := Int.cast_lt.mp h4
    omega
  have hv : (roundHalfEven (x / (2 : K) ^ ulpExponent x) : ℚ) * (2 : ℚ) ^ ulpExponent x ≤
      (2 : ℚ) ^ b := by
    rw [hd, zpow_add₀ (by norm_num : (2 : ℚ) ≠ 0), zpow_natCast, mul_comm ((2 : ℚ) ^ ulpExponent x)]
    apply mul_le_mul_of_nonneg_right _ (by positivity)
    exact_mod_cast hm1
  have hb : (2 : ℚ) ^ b < (2 : ℚ) ^ (1024 : ℕ) := by
    rw [← zpow_natCast]
    exact zpow_lt_zpow_right₀ (by norm_num) (by omega)
  refine ⟨_, ?_, ?_, hv⟩
  · rw [F64.round_of_pos hx, if_neg (not_le.mpr (lt_of_le_of_lt hv hb))]
  · have : (0 : ℚ) ≤ roundHalfEven (x / (2 : K) ^ ulpExponent x) := by exact_mod_cast hm0
    exact mul_nonneg this (zpow_pos (by norm_num) _).le

/-- A value of magnitude below `2 ^ b` rounds to a finite value of magnitude at
most `2 ^ b`, of the same sign. -/
theorem F64.round_bounded {x : K} {b : ℤ} (hb1 : -1022 ≤ b) (hb2 : b ≤ 1023)
    (h : |x| < (2 : K) ^ b) :
    ∃ r : ℚ, F64.round x = .finite r ∧ |r| ≤ (2 : ℚ) ^ b ∧ (0 ≤ x → 0 ≤ r) ∧
      (x ≤ 0 → r ≤ 0) := by
  rcases lt_trichotomy x 0 with hx | hx | hx
  · obtain ⟨r, h1, h2, h3⟩ := F64.round_bounded_of_pos (x := -x) (by linarith) hb1 hb2
      (by rwa [abs_of_neg hx] at h)
    refine ⟨-r, ?_, by rw [abs_neg, abs_of_nonneg h2]; exact h3, fun h0 => absurd hx (not_lt.mpr h0),
      fun _ => by linarith⟩
    have := F64.round_neg (-x)
    rw [neg_neg, h1] at this
    rw [this]; rfl
  · subst hx
    exact ⟨0, F64.round_zero, by simp; positivity, fun _ => le_rfl, fun _ => le_rfl⟩
  · obtain ⟨r, h1, h2, h3⟩ := F64.round_bounded_of_pos hx hb1 hb2 (by rwa [abs_of_pos hx] at h)
    exact ⟨r, h1, by rw [abs_of_nonneg h2]; exact h3, fun _ => h2,
      fun h0 => absurd hx (not_lt.mpr h0)⟩

theorem F64.round_overflow {x : K} (h : (2 : K) ^ (1024 : ℤ) ≤ x) : F64.round x = .posInf := by
  have h2K : (0 : K) < 2 := by norm_num
  have hx : 0 < x := lt_of_lt_of_le (by positivity) h
  have he1 : (2 : K) ^ Int.log 2 x ≤ x := by
    exact_mod_cast Int.zpow_log_le_self (b := 2) (by norm_num) hx
  have he : 1024 ≤ Int.log 2 x := by
    rw [← Int.zpow_le_iff_le_log (by norm_num) hx]; exact_mod_cast h
  have hk : ulpExponent x = Int.log 2 x - 52 := by
    rw [ulpExponent, abs_of_pos hx]
    exact max_eq_left (by omega)
  have ht : ((2 ^ 52 : ℤ) : K) ≤ x / (2 : K) ^ ulpExponent x := by
    rw [le_div_iff₀ (by positivity), hk]
    calc ((2 ^ 52 : ℤ) : K) * (2 : K) ^ (Int.log 2 x - 52) = (2 : K) ^ Int.log 2 x := by
          rw [zpow_sub₀ h2K.ne']; push_cast; field_simp; ring
      _ ≤ x := he1
  have hm : 2 ^ 52 ≤ roundHalfEven (x / (2 : K) ^ ulpExponent x) := by
    have h3 := roundHalfEven_ge (x / (2 : K) ^ ulpExponent x)
    have h4 : ((2 ^ 52 - 1 : ℤ) : K) < (roundHalfEven (x / (2 : K) ^ ulpExponent x) : K) := by
      push_cast; push_cast at ht; linarith
    have := Int.cast_lt.mp h4
    omega
  rw [F64.round_of_pos hx, if_pos]
  calc (2 : ℚ) ^ (1024 : ℕ) ≤ (2 : ℚ) ^ Int.log 2 x := by
        rw [← zpow_natCast]; exact zpow_le_zpow_right₀ (by norm_num) (by exact_mod_cast he)
    _ = ((2 ^ 52 : ℤ) : ℚ) * (2 : ℚ) ^ ulpExponent x := by
        rw [hk, zpow_sub₀ (by norm_num : (2 : ℚ) ≠ 0)]; push_cast; field_simp; ring
    _ ≤ _ := by
        apply mul_le_mul_of_nonneg_right _ (by positivity)
        exact_mod_cast hm

theorem F64.round_underflow {x : K} (h0 : 0 ≤ x) (h : x < (2 : K) ^ (-1075 : ℤ)) :
    F64.round x = .finite 0 := by
  rcases eq_or_lt_of_le h0 with hx | hx
  · rw [← hx]; exact F64.round_zero
  have h2K : (0 : K) < 2 := by norm_num
  have he : Int.log 2 x < -1075 := by
    rw [← Int.lt_zpow_iff_log_lt (by norm_num) hx]; exact_mod_cast h
  have hk : ulpExponent x = -1074 := by
    rw [ulpExponent, abs_of_pos hx]
    exact max_eq_right (by omega)
  have ht : x / (2 : K) ^ (-1074 : ℤ) < 1 / 2 := by
    rw [div_lt_iff₀ (by positivity)]
    calc x < (2 : K) ^ (-1075 : ℤ) := h
      _ = 1 / 2 * (2 : K) ^ (-1074 : ℤ) := by
        rw [show (-1075 : ℤ) = -1074 - 1 by norm_num, zpow_sub₀ h2K.ne']; simp; ring
  have hm : roundHalfEven (x / (2 : K) ^ (-1074 : ℤ)) = 0 := by
    apply roundHalfEven_of_abs_sub_lt
    have : 0 ≤ x / (2 : K) ^ (-1074 : ℤ) := by positivity
    rw [Int.cast_zero, sub_zero, abs_of_nonneg this]
    exact ht
  rw [F64.round_of_pos hx, hk, hm]
  simp

theorem F64.round_pos_of_ge {x : K} (h : (2 : K) ^ (-1074 : ℤ) ≤ x) :
    F64.round x = .posInf ∨ ∃ r : ℚ, F64.round x = .finite r ∧ 0 < r := by
  have h2K : (0 : K) < 2 := by norm_num
  have hx : 0 < x := lt_of_lt_of_le (by positivity) h
  have he1 : (2 : K) ^ Int.log 2 x ≤ x := by
    exact_mod_cast Int.zpow_log_le_self (b := 2) (by norm_num) hx
  have ht : (1 : K) ≤ x / (2 : K) ^ ulpExponent x := by
    rw [le_div_iff₀ (by positivity), one_mul, ulpExponent, abs_of_pos hx]
    rcases le_total (Int.log 2 x - 52) (-1074) with hc | hc
    · rw [max_eq_right hc]; exact h
    · rw [max_eq_left hc]
      calc (2 : K) ^ (Int.log 2 x - 52) ≤ (2 : K) ^ Int.log 2 x :=
            zpow_le_zpow_right₀ (by norm_num) (by omega)
        _ ≤ x := he1
  have hm : 1 ≤ roundHalfEven (x / (2 : K) ^ ulpExponent x) := by
    have h3 := roundHalfEven_ge (x / (2 : K) ^ ulpExponent x)
    have h4 : ((0 : ℤ) : K) < (roundHalfEven (x / (2 : K) ^ ulpExponent x) : K) := by
      push_cast; linarith
    have := Int.cast_lt.mp h4
    omega
  rw [F64.round_of_pos hx]
  split_ifs
  · exact Or.inl rfl
  · refine Or.inr ⟨_, rfl, ?_⟩
    have : (0 : ℚ) < roundHalfEven (x / (2 : K) ^ ulpExponent x) := by exact_mod_cast hm
    exact mul_pos this (zpow_pos (by norm_num) _)

end Rounding

/-! ### Algebra of the rounded operations -/

theorem F64.neg_neg_eq (x : F64) : F64.neg (F64.neg x) = x := by
  cases x <;> simp [F64.neg]

theorem F64.add_symm (x y : F64) : F64.add x y = F64.add y x := by
  cases x <;> cases y <;> simp [F64.add, add_comm]

theorem F64.neg_add_eq (x y : F64) :
    F64.neg (F64.add x y) = F64.add (F64.neg x) (F64.neg y) := by
  cases x with
  | finite a =>
    cases y with
    | finite b =>
      show F64.neg (F64.round (a + b)) = F64.round (-a + -b)
      rw [← F64.round_neg]; congr 1; ring
    | posInf => rfl
    | negInf => rfl
    | nan => rfl
  | posInf => cases y <;> rfl
  | negInf => cases y <;> rfl
  | nan => cases y <;> rfl

/-- Float subtraction is antisymmetric: `x - y` is exactly `-(y - x)`. -/
theorem F64.sub_antisymm (x y : F64) : F64.sub x y = F64.neg (F64.sub y x) := by
  rw [F64.sub, F64.sub, F64.neg_add_eq, F64.neg_neg_eq, F64.add_symm]

theorem F64.infTimes_neg (s : Bool) (b : ℚ) :
    F64.infTimes s (-b) = F64.infTimes (!s) b := by
  unfold F64.infTimes
  rcases lt_trichotomy b 0 with h | h | h
  · have h1 : ¬ (0 < b) := not_lt.mpr h.le
    have h2 : (0 : ℚ) < -b := by linarith
    cases s <;> simp [h.ne, h1, h2]
  · simp [h]
  · have h1 : ¬ ((0 : ℚ) < -b) := by linarith
    cases s <;> simp [h.ne', h1, h]

theorem F64.mul_symm (x y : F64) : F64.mul x y = F64.mul y x := by
  cases x <;> cases y <;> simp [F64.mul, mul_comm]

theorem F64.mul_neg_neg (x y : F64) : F64.mul (F64.neg x) (F64.neg y) = F64.mul x y := by
  cases x <;> cases y <;> simp [F64.mul, F64.neg, F64.infTimes_neg]

theorem F64.div_neg_left (x : F64) (b : ℚ) (hb : 0 < b) :
    F64.div (F64.neg x) (.finite b) = F64.neg (F64.div x (.finite b)) := by
  cases x with
  | finite a =>
    show (if b = 0 then _ else F64.round (-a / b)) =
      F64.neg (if b = 0 then _ else F64.round (a / b))
    rw [if_neg hb.ne', if_neg hb.ne', ← F64.round_neg]; congr 1; ring
  | posInf => simp [F64.div, F64.neg, hb.le]
  | negInf => simp [F64.div, F64.neg, hb.le]
  | nan => simp [F64.div, F64.neg]

@[simp] theorem F64.round_zero_rat : F64.round (0 : ℚ) = .finite 0 := F64.round_zero

@[simp] theorem F64.sub_self_finite (a : ℚ) : F64.sub (.finite a) (.finite a) = .finite 0 := by
  simp [F64.sub, F64.add, F64.neg]

@[simp] theorem F64.mul_zero_finite (a : ℚ) : F64.mul (.finite a) (.finite 0) = .finite 0 := by
  simp [F64.mul]

@[simp] theorem F64.zero_mul_finite (a : ℚ) : F64.mul (.finite 0) (.finite a) = .finite 0 := by
  simp [F64.mul]

@[simp] theorem F64.add_zero_zero : F64.add (.finite 0) (.finite 0) = .finite 0 := by
  simp [F64.add]

@[simp] theorem F64.sqrt_zero : F64.sqrt (.finite 0) = .finite 0 := by
  simp [F64.sqrt, F64.round_zero]

theorem F64.round_one {K : Type} [LinearOrderedField K] [FloorRing K] :
    F64.round (1 : K) = .finite 1 := by
  have := F64.round_natCast (K := K) 1 (by norm_num)
  simpa using this

@[simp] theorem F64.sqrt_one : F64.sqrt (.finite 1) = .finite 1 := by
  simp [F64.sqrt, F64.round_one]

/-- The `float64` value of `math.Pi / 180` is `0x11df46a2529d39 * 2 ^ -58`. -/
theorem piOver180_eq : piOver180 = .finite (5030569068109113 / 2 ^ 58) := by
  have h := F64.round_eq_of_close (K := ℚ)
    (x := (3.14159265358979323846264338327950288419716939937510582097494459 : ℚ) / 180)
    (e := -6) (by norm_num) (by norm_num) 5030569068109113
    (by rw [abs_lt]; norm_num) (by norm_num)
  rw [piOver180, h]
  norm_num

theorem F64.neg_infTimes (s : Bool) (b : ℚ) :
    F64.neg (F64.infTimes s b) = F64.infTimes (!s) b := by
  unfold F64.infTimes
  by_cases h0 : b = 0
  · simp [h0, F64.neg]
  · by_cases h1 : 0 < b <;> cases s <;> simp [h0, h1, F64.neg]

theorem F64.mul_neg_right (x y : F64) : F64.mul x (F64.neg y) = F64.neg (F64.mul x y) := by
  cases x with
  | finite a =>
    cases y with
    | finite b =>
      show F64.round (a * -b) = F64.neg (F64.round (a * b))
      rw [← F64.round_neg]; congr 1; ring
    | posInf =>
      show F64.infTimes false a = F64.neg (F64.infTimes true a)
      rw [F64.neg_infTimes]; rfl
    | negInf =>
      show F64.infTimes true a = F64.neg (F64.infTimes false a)
      rw [F64.neg_infTimes]; rfl
    | nan => rfl
  | posInf =>
    cases y with
    | finite b =>
      show F64.infTimes true (-b) = F64.neg (F64.infTimes true b)
      rw [F64.infTimes_neg, F64.neg_infTimes]
    | posInf => rfl
    | negInf => rfl
    | nan => rfl
  | negInf =>
    cases y with
    | finite b =>
      show F64.infTimes false (-b) = F64.neg (F64.infTimes false b)
      rw [F64.infTimes_neg, F64.neg_infTimes]
    | posInf => rfl
    | negInf => rfl
    | nan => rfl
  | nan => cases y <;> rfl

/-! ### Radians -/

theorem toRadians_finite_eq (q : ℚ) :
    toRadians (.finite q) = F64.round (q * (5030569068109113 / 2 ^ 58)) := by
  rw [toRadians, piOver180_eq]; rfl

@[simp] theorem toRadians_zero : toRadians (.finite 0) = .finite 0 := by
  rw [toRadians_finite_eq, zero_mul]; exact F64.round_zero

/-- The radians of a finite `float64` are finite (no overflow). -/
theorem toRadians_finite (q : ℚ) (hq : |q| < (2 : ℚ) ^ (1024 : ℕ)) :
    ∃ r : ℚ, toRadians (.finite q) = .finite r := by
  rw [toRadians_finite_eq]
  obtain ⟨r, hr, -⟩ := F64.round_bounded (K := ℚ) (x := q * (5030569068109113 / 2 ^ 58))
    (b := 1019) (by norm_num) (by norm_num) (by
      rw [abs_mul, abs_of_pos (by norm_num : (0 : ℚ) < 5030569068109113 / 2 ^ 58)]
      calc |q| * (5030569068109113 / 2 ^ 58) ≤ |q| * (1 / 2 ^ 5) := by
            apply mul_le_mul_of_nonneg_left _ (abs_nonneg q); norm_num
        _ < (2 : ℚ) ^ (1024 : ℕ) * (1 / 2 ^ 5) := by
            apply mul_lt_mul_of_pos_right hq; norm_num
        _ = (2 : ℚ) ^ (1019 : ℤ) := by norm_num)
  exact ⟨r, hr⟩

/-- The radians of the smallest positive `float64` underflow to zero. -/
theorem toRadians_tiny : toRadians (.finite ((2 : ℚ) ^ (-1074 : ℤ))) = .finite 0 := by
  rw [toRadians_finite_eq]
  apply F64.round_underflow (by positivity)
  rw [show (-1075 : ℤ) = -1074 + -1 by norm_num, zpow_add₀ (by norm_num : (2 : ℚ) ≠ 0)]
  apply mul_lt_mul_of_pos_left _ (by positivity)
  norm_num

theorem toRadians_posInf : toRadians .posInf = .posInf := by
  rw [toRadians, piOver180_eq]
  simp [F64.mul, F64.infTimes]

/-! ### The ideal library -/

theorem idealMath_Sin_neg (x : F64) : idealMath.Sin (F64.neg x) = F64.neg (idealMath.Sin x) := by
  cases x with
  | finite q =>
    show F64.round (Real.sin ((-q : ℚ) : ℝ)) = F64.neg (F64.round (Real.sin (q : ℝ)))
    rw [← F64.round_neg, Rat.cast_neg, Real.sin_neg]
  | posInf => rfl
  | negInf => rfl
  | nan => rfl

theorem idealMath_Sin_zero : idealMath.Sin (.finite 0) = .finite 0 := by
  show F64.round (Real.sin ((0 : ℚ) : ℝ)) = .finite 0
  rw [Rat.cast_zero, Real.sin_zero]; exact F64.round_zero

theorem F64.round_abs_le_one {K : Type} [LinearOrderedField K] [FloorRing K] {x : K}
    (h : |x| ≤ 1) : ∃ r : ℚ, F64.round x = .finite r ∧ |r| ≤ 1 := by
  rcases eq_or_lt_of_le h with h1 | h1
  · rcases (abs_eq (zero_le_one : (0 : K) ≤ 1)).mp h1 with h2 | h2
    · exact ⟨1, by rw [h2]; exact F64.round_one, by norm_num⟩
    · refine ⟨-1, ?_, by norm_num⟩
      rw [h2, F64.round_neg, F64.round_one]; rfl
  · obtain ⟨r, hr, hb, -⟩ := F64.round_bounded (x := x) (b := 0) (by norm_num) (by norm_num)
      (by simpa using h1)
    exact ⟨r, hr, by simpa using hb⟩

theorem idealMath_Cos_bounded (q : ℚ) :
    ∃ r : ℚ, idealMath.Cos (.finite q) = .finite r ∧ |r| ≤ 1 :=
  F64.round_abs_le_one (Real.abs_cos_le_one _)

theorem idealMath_Atan2_zero_one : idealMath.Atan2 (.finite 0) (.finite 1) = .finite 0 := by
  show F64.round (realAtan2 ((0 : ℚ) : ℝ) ((1 : ℚ) : ℝ)) = .finite 0
  simp [realAtan2, F64.round_zero]

theorem idealMath_Atan2_nan (y : F64) : idealMath.Atan2 y .nan = .nan := by
  cases y <;> rfl

/-! ### The distance functions on coordinates -/

theorem Parse_hasCoordinates {α : Type} (lon lat : α) :
    (Parse lon lat).HasCoordinates lon lat :=
  ⟨_, rfl, rfl, rfl⟩

theorem StraightLineDistance_of_coordinates {p tp : Point F64} {lon1 lat1 lon2 lat2 : F64}
    (hp : p.HasCoordinates lon1 lat1) (htp : tp.HasCoordinates lon2 lat2) :
    StraightLineDistance p tp =
      some (F64.mul (F64.sqrt (F64.add
        (F64.mul (F64.sub lon2 lon1) (F64.sub lon2 lon1))
        (F64.mul (F64.sub lat2 lat1) (F64.sub lat2 lat1)))) degToKm) := by
  obtain ⟨g1, h1, h10, h11⟩ := hp
  obtain ⟨g2, h2, h20, h21⟩ := htp
  simp [StraightLineDistance, h1, h2, h10, h11, h20, h21]

theorem Distance_of_coordinates (M : MathLibrary) {p tp : Point F64} {lon1 lat1 lon2 lat2 : F64}
    (hp : p.HasCoordinates lon1 lat1) (htp : tp.HasCoordinates lon2 lat2) :
    Distance M p tp =
      some (F64.mul earthRadiusKm (F64.mul (.finite 2)
        (M.Atan2 (F64.sqrt (haversineA M lon1 lat1 lon2 lat2))
          (F64.sqrt (F64.sub (.finite 1) (haversineA M lon1 lat1 lon2 lat2)))))) := by
  obtain ⟨g1, h1, h10, h11⟩ := hp
  obtain ⟨g2, h2, h20, h21⟩ := htp
  simp [Distance, h1, h2, h10, h11, h20, h21]

theorem planar_term_symm (x y : F64) :
    F64.mul (F64.sub x y) (F64.sub x y) = F64.mul (F64.sub y x) (F64.sub y x) := by
  rw [F64.sub_antisymm x y, F64.mul_neg_neg]

theorem F64.mul_mul_neg (p s : F64) :
    F64.mul (F64.mul p (F64.neg s)) (F64.neg s) = F64.mul (F64.mul p s) s := by
  rw [F64.mul_neg_right p s, F64.mul_neg_neg]

theorem haversineA_symm (M : MathLibrary) (hM : ∀ x, M.Sin (F64.neg x) = F64.neg (M.Sin x))
    (lon1 lat1 lon2 lat2 : F64) :
    haversineA M lon1 lat1 lon2 lat2 = haversineA M lon2 lat2 lon1 lat1 := by
  have h2 : (0 : ℚ) < 2 := by norm_num
  simp only [haversineA]
  rw [F64.sub_antisymm (toRadians lat2) (toRadians lat1),
    F64.sub_antisymm (toRadians lon2) (toRadians lon1),
    F64.div_neg_left _ 2 h2, F64.div_neg_left _ 2 h2, hM, hM, F64.mul_neg_neg,
    F64.mul_mul_neg, F64.mul_symm (M.Cos (toRadians lat1))]

theorem StraightLineDistance_symm (a b : Point F64) :
    StraightLineDistance a b = StraightLineDistance b a := by
  obtain ⟨ga⟩ := a
  obtain ⟨gb⟩ := b
  cases ga with
  | none => cases gb <;> rfl
  | some g1 =>
    cases gb with
    | none => rfl
    | some g2 =>
      simp only [StraightLineDistance]
      cases g1.Point[1]? <;> cases g1.Point[0]? <;> cases g2.Point[1]? <;>
        cases g2.Point[0]? <;>
        simp [planar_term_symm]

theorem Distance_symm (M : MathLibrary) (hM : ∀ x, M.Sin (F64.neg x) = F64.neg (M.Sin x))
    (a b : Point F64) : Distance M a b = Distance M b a := by
  obtain ⟨ga⟩ := a
  obtain ⟨gb⟩ := b
  cases ga with
  | none => cases gb <;> rfl
  | some g1 =>
    cases gb with
    | none => rfl
    | some g2 =>
      simp only [Distance]
      cases g1.Point[1]? <;> cases g1.Point[0]? <;> cases g2.Point[1]? <;>
        cases g2.Point[0]? <;>
        simp [haversineA_symm M hM]

theorem F64.equal_self {d : F64} (h : d ≠ .nan) : F64.equal d d = true := by
  cases d <;> simp_all [F64.equal]

/-! ### NaN and sign bookkeeping -/

@[simp] theorem F64.nan_add (y : F64) : F64.add .nan y = .nan := by cases y <;> rfl
@[simp] theorem F64.add_nan (x : F64) : F64.add x .nan = .nan := by cases x <;> rfl
@[simp] theorem F64.nan_mul (y : F64) : F64.mul .nan y = .nan := by cases y <;> rfl
@[simp] theorem F64.mul_nan (x : F64) : F64.mul x .nan = .nan := by cases x <;> rfl
@[simp] theorem F64.nan_div (y : F64) : F64.div .nan y = .nan := by cases y <;> rfl
@[simp] theorem F64.sqrt_nan : F64.sqrt .nan = .nan := rfl
@[simp] theorem F64.sqrt_posInf : F64.sqrt .posInf = .posInf := rfl
@[simp] theorem F64.sub_nan (x : F64) : F64.sub x .nan = .nan := by cases x <;> rfl
@[simp] theorem F64.nan_sub (y : F64) : F64.sub .nan y = .nan := by cases y <;> rfl
@[simp] theorem F64.posInf_sub_posInf : F64.sub .posInf .posInf = .nan := rfl

theorem F64.round_cases {K : Type} [LinearOrderedField K] [FloorRing K] (x : K) :
    F64.round x = .posInf ∨ F64.round x = .negInf ∨ ∃ r : ℚ, F64.round x = .finite r := by
  unfold F64.round
  split_ifs <;> simp

theorem F64.round_ne_nan {K : Type} [LinearOrderedField K] [FloorRing K] (x : K) :
    F64.round x ≠ .nan := by
  rcases F64.round_cases x with h | h | ⟨r, h⟩ <;> rw [h] <;> simp

theorem F64.round_nonNeg {K : Type} [LinearOrderedField K] [FloorRing K] {x : K}
    (h : 0 ≤ x) : (F64.round x).NonNeg := by
  rcases eq_or_lt_of_le h with h0 | h0
  · rw [← h0, F64.round_zero]; exact le_rfl
  · rw [F64.round_of_pos h0]
    split_ifs
    · trivial
    · show (0 : ℚ) ≤ _
      have : (0 : ℚ) ≤ roundHalfEven (x / (2 : K) ^ ulpExponent x) := by
        exact_mod_cast roundHalfEven_nonneg (by positivity)
      exact mul_nonneg this (zpow_pos (by norm_num) _).le

theorem F64.mul_self_nonNeg {x : F64} (h : x ≠ .nan) : (F64.mul x x).NonNeg := by
  cases x with
  | finite a => exact F64.round_nonNeg (mul_self_nonneg a)
  | posInf => trivial
  | negInf => trivial
  | nan => exact absurd rfl h

theorem F64.add_nonNeg {x y : F64} (hx : x.NonNeg) (hy : y.NonNeg) : (F64.add x y).NonNeg := by
  cases x with
  | finite a =>
    cases y with
    | finite b => exact F64.round_nonNeg (add_nonneg hx hy)
    | posInf => trivial
    | negInf => exact hy.elim
    | nan => exact hy.elim
  | posInf =>
    cases y with
    | finite b => trivial
    | posInf => trivial
    | negInf => exact hy.elim
    | nan => exact hy.elim
  | negInf => exact hx.elim
  | nan => exact hx.elim

theorem F64.sqrt_nonNeg {x : F64} (hx : x.NonNeg) : (F64.sqrt x).NonNeg := by
  cases x with
  | finite a =>
    have ha : ¬ a < 0 := not_lt.mpr hx
    show (if a < 0 then F64.nan else F64.round (Real.sqrt (a : ℝ))).NonNeg
    rw [if_neg ha]
    exact F64.round_nonNeg (Real.sqrt_nonneg _)
  | posInf => trivial
  | negInf => exact hx.elim
  | nan => exact hx.elim

theorem F64.mul_nonNeg_of_pos {x : F64} (hx : x.NonNeg) {c : ℚ} (hc : 0 < c) :
    (F64.mul x (.finite c)).NonNeg := by
  cases x with
  | finite a => exact F64.round_nonNeg (mul_nonneg hx hc.le)
  | posInf =>
    show (F64.infTimes true c).NonNeg
    simp [F64.infTimes, hc.ne', hc, F64.NonNeg]
  | negInf => exact hx.elim
  | nan => exact hx.elim

theorem F64.sub_finite_ne_nan (a b : ℚ) : F64.sub (.finite a) (.finite b) ≠ .nan :=
  F64.round_ne_nan _

@[simp] theorem F64.zero_div_two : F64.div (.finite 0) (.finite 2) = .finite 0 := by
  simp [F64.div]

@[simp] theorem F64.one_sub_zero : F64.sub (.finite 1) (.finite 0) = .finite 1 := by
  show F64.round ((1 : ℚ) + -0) = .finite 1
  rw [neg_zero, add_zero]; exact F64.round_one

@[simp] theorem F64.one_mul_one : F64.mul (.finite 1) (.finite 1) = .finite 1 := by
  show F64.round ((1 : ℚ) * 1) = .finite 1
  rw [mul_one]; exact F64.round_one

@[simp] theorem F64.one_add_zero : F64.add (.finite 1) (.finite 0) = .finite 1 := by
  show F64.round ((1 : ℚ) + 0) = .finite 1
  rw [add_zero]; exact F64.round_one

theorem F64.one_mul_degToKm : F64.mul (.finite 1) degToKm = .finite 111 := by
  show F64.round ((1 : ℚ) * 111) = .finite 111
  rw [one_mul]
  simpa using F64.round_natCast (K := ℚ) 111 (by norm_num)

/-- The planar distance between points whose coordinates differ by one unit
along one axis and not at all along the other is exactly `111`. -/
theorem planar_unit (dx dy : F64)
    (h : (dx = .finite 1 ∧ dy = .finite 0) ∨ (dx = .finite 0 ∧ dy = .finite 1)) :
    F64.mul (F64.sqrt (F64.add (F64.mul dx dx) (F64.mul dy dy))) degToKm = .finite 111 := by
  rcases h with ⟨h1, h2⟩ | ⟨h1, h2⟩
  · rw [h1, h2]; simp [F64.one_mul_degToKm]
  · rw [h1, h2, F64.add_symm]; simp [F64.one_mul_degToKm]

/-- The Haversine term of a point against itself is zero, for finite radians
and a library with `Sin(0) = 0` and a bounded `Cos`. -/
theorem haversineA_self (M : MathLibrary) (hSin : M.Sin (.finite 0) = .finite 0)
    (hCos : ∀ q : ℚ, ∃ r : ℚ, M.Cos (.finite q) = .finite r ∧ |r| ≤ 1)
    (lon lat : ℚ) (hlon : |lon| < (2 : ℚ) ^ (1024 : ℕ)) (hlat : |lat| < (2 : ℚ) ^ (1024 : ℕ)) :
    haversineA M (.finite lon) (.finite lat) (.finite lon) (.finite lat) = .finite 0 := by
  obtain ⟨rlon, hrlon⟩ := toRadians_finite lon hlon
  obtain ⟨rlat, hrlat⟩ := toRadians_finite lat hlat
  obtain ⟨c, hc, hc1⟩ := hCos rlat
  obtain ⟨c2, hc2, -⟩ := F64.round_abs_le_one (K := ℚ) (x := c * c) (by
    rw [abs_mul]; exact mul_le_one₀ hc1 (abs_nonneg c) hc1)
  have hcc : F64.mul (.finite c) (.finite c) = .finite c2 := hc2
  simp only [haversineA, hrlon, hrlat, F64.sub_self_finite, F64.zero_div_two, hSin, hc, hcc,
    F64.mul_zero_finite, F64.add_zero_zero]

/-- C7. For every pair of points of which at least one is absent (nil
geometry), `StraightLineDistance` and `Distance` both return exactly 0,
whatever the other operand and the mathematical library are; no coordinate is
read, so a present operand with a malformed coordinate array raises no
panic. -/
theorem absent_operand (M : MathLibrary) (p tp : Point F64)
    (h : p.Geometry = none ∨ tp.Geometry = none) :
    StraightLineDistance p tp = some (.finite 0) ∧ Distance M p tp = some (.finite 0) := by
  obtain ⟨gp⟩ := p
  obtain ⟨gtp⟩ := tp
  cases gp <;> cases gtp <;> simp_all [StraightLineDistance, Distance]

/-- Witness for C7: an absent point against a present one that has no
coordinates at all. -/
theorem absent_operand_witness :
    StraightLineDistance (Point.mk none) (Point.mk (some ⟨"Point", []⟩)) = some (.finite 0) ∧
      Distance idealMath (Point.mk none) (Point.mk (some ⟨"Point", []⟩)) = some (.finite 0) :=
  absent_operand idealMath (Point.mk none) (Point.mk (some ⟨"Point", []⟩)) (Or.inl rfl)

/-- Counterexample to C8 as stated with `==`: the planar distance between the
present points `(+Inf, 0)` and `(+Inf, 1)` is NaN in both orders, as is their
great-circle distance, and NaN is not `==` to NaN. -/
theorem distance_symmetry_counterexample :
    StraightLineDistance (Parse .posInf (.finite 0)) (Parse .posInf (.finite 1)) = some .nan ∧
    StraightLineDistance (Parse .posInf (.finite 1)) (Parse .posInf (.finite 0)) = some .nan ∧
    Distance idealMath (Parse .posInf (.finite 0)) (Parse .posInf (.finite 1)) = some .nan ∧
    Distance idealMath (Parse .posInf (.finite 1)) (Parse .posInf (.finite 0)) = some .nan ∧
    F64.equal .nan .nan = false := by
  have hS : idealMath.Sin .nan = .nan := rfl
  have hA : ∀ x, idealMath.Atan2 .nan x = .nan := fun x => by cases x <;> rfl
  refine ⟨?_, ?_, ?_, ?_, rfl⟩
  · rw [StraightLineDistance_of_coordinates (Parse_hasCoordinates _ _) (Parse_hasCoordinates _ _)]
    simp
  · rw [StraightLineDistance_of_coordinates (Parse_hasCoordinates _ _) (Parse_hasCoordinates _ _)]
    simp
  · rw [Distance_of_coordinates idealMath (Parse_hasCoordinates _ _) (Parse_hasCoordinates _ _)]
    simp [haversineA, toRadians_posInf, hS, hA]
  · rw [Distance_of_coordinates idealMath (Parse_hasCoordinates _ _) (Parse_hasCoordinates _ _)]
    simp [haversineA, toRadians_posInf, hS, hA]

/-- C8, amended. For all points `a` and `b` (present or not, with any
coordinate arrays) and every library whose `Sin` is odd, the two orders of
`StraightLineDistance` and of `Distance` give the same outcome: the same
`float64` value, or a panic in both orders.  The two results are therefore
equal under `==` whenever the value is not NaN. -/
theorem distance_symmetry (M : MathLibrary)
    (hM : ∀ x, M.Sin (F64.neg x) = F64.neg (M.Sin x)) (a b : Point F64) :
    StraightLineDistance a b = StraightLineDistance b a ∧
    Distance M a b = Distance M b a ∧
    (∀ d, StraightLineDistance a b = some d → d ≠ .nan →
      ∃ e, StraightLineDistance b a = some e ∧ F64.equal d e = true) ∧
    (∀ d, Distance M a b = some d → d ≠ .nan →
      ∃ e, Distance M b a = some e ∧ F64.equal d e = true) := by
  refine ⟨StraightLineDistance_symm a b, Distance_symm M hM a b, ?_, ?_⟩
  · intro d h hd
    exact ⟨d, by rw [← StraightLineDistance_symm a b]; exact h, F64.equal_self hd⟩
  · intro d h hd
    exact ⟨d, by rw [← Distance_symm M hM a b]; exact h, F64.equal_self hd⟩

/-- Witness for C8: the points `(0, 0)` and `(0, 1)` with the ideal
library. -/
theorem distance_symmetry_witness :
    (∀ x, idealMath.Sin (F64.neg x) = F64.neg (idealMath.Sin x)) ∧
    (StraightLineDistance (Parse (.finite 0) (.finite 0)) (Parse (.finite 0) (.finite 1)) =
        StraightLineDistance (Parse (.finite 0) (.finite 1)) (Parse (.finite 0) (.finite 0)) ∧
      Distance idealMath (Parse (.finite 0) (.finite 0)) (Parse (.finite 0) (.finite 1)) =
        Distance idealMath (Parse (.finite 0) (.finite 1)) (Parse (.finite 0) (.finite 0))) :=
  ⟨idealMath_Sin_neg,
    (distance_symmetry idealMath idealMath_Sin_neg (Parse (.finite 0) (.finite 0))
      (Parse (.finite 0) (.finite 1))).1,
    (distance_symmetry idealMath idealMath_Sin_neg (Parse (.finite 0) (.finite 0))
      (Parse (.finite 0) (.finite 1))).2.1⟩

/-- Counterexample to C9: a present point whose coordinate array is empty
makes both methods panic, and for the present point `(+Inf, 0)` both methods
return NaN, not 0. -/
theorem distance_identity_counterexample :
    StraightLineDistance (Point.mk (some ⟨"Point", []⟩)) (Point.mk (some ⟨"Point", []⟩)) = none ∧
    Distance idealMath (Point.mk (some ⟨"Point", []⟩)) (Point.mk (some ⟨"Point", []⟩)) = none ∧
    StraightLineDistance (Parse .posInf (.finite 0)) (Parse .posInf (.finite 0)) = some .nan ∧
    Distance idealMath (Parse .posInf (.finite 0)) (Parse .posInf (.finite 0)) = some .nan := by
  have hS : idealMath.Sin .nan = .nan := rfl
  have hA : ∀ x, idealMath.Atan2 .nan x = .nan := fun x => by cases x <;> rfl
  refine ⟨rfl, rfl, ?_, ?_⟩
  · rw [StraightLineDistance_of_coordinates (Parse_hasCoordinates _ _) (Parse_hasCoordinates _ _)]
    simp
  · rw [Distance_of_coordinates idealMath (Parse_hasCoordinates _ _) (Parse_hasCoordinates _ _)]
    simp [haversineA, toRadians_posInf, hS, hA]

/-- C9, amended. For every present point `a` whose first two coordinates are
finite `float64` values, and every library with `Sin(0) = 0`, `Cos` finite
and at most 1 in magnitude on finite arguments and `Atan2(0, 1) = 0`,
`a.StraightLineDistance(a)` and `a.Distance(a)` are exactly 0. -/
theorem distance_identity (M : MathLibrary)
    (hSin : M.Sin (.finite 0) = .finite 0)
    (hCos : ∀ q : ℚ, ∃ r : ℚ, M.Cos (.finite q) = .finite r ∧ |r| ≤ 1)
    (hAtan : M.Atan2 (.finite 0) (.finite 1) = .finite 0)
    (a : Point F64) (lon lat : ℚ) (ha : a.HasCoordinates (.finite lon) (.finite lat))
    (hlon : |lon| < (2 : ℚ) ^ (1024 : ℕ)) (hlat : |lat| < (2 : ℚ) ^ (1024 : ℕ)) :
    StraightLineDistance a a = some (.finite 0) ∧ Distance M a a = some (.finite 0) := by
  constructor
  · rw [StraightLineDistance_of_coordinates ha ha]
    simp [degToKm]
  · rw [Distance_of_coordinates M ha ha, haversineA_self M hSin hCos lon lat hlon hlat]
    simp [hAtan, earthRadiusKm]

/-- Witness for C9: the point `(200, -100)`, outside the geographic ranges,
with the ideal library. -/
theorem distance_identity_witness :
    StraightLineDistance (Parse (.finite 200) (.finite (-100)))
        (Parse (.finite 200) (.finite (-100))) = some (.finite 0) ∧
      Distance idealMath (Parse (.finite 200) (.finite (-100)))
        (Parse (.finite 200) (.finite (-100))) = some (.finite 0) :=
  distance_identity idealMath idealMath_Sin_zero idealMath_Cos_bounded idealMath_Atan2_zero_one
    (Parse (.finite 200) (.finite (-100))) 200 (-100) (Parse_hasCoordinates _ _)
    (by rw [abs_lt]; norm_num) (by rw [abs_lt]; norm_num)

theorem F64.round_two_zpow (j : ℤ) (h1 : -1074 ≤ j) (h2 : j < 1024) :
    F64.round ((2 : ℚ) ^ j) = .finite ((2 : ℚ) ^ j) := by
  have h := F64.round_representable (K := ℚ) 1 j (by norm_num) (by norm_num) h1 (by
    rw [Nat.cast_one, one_mul, ← zpow_natCast]
    exact zpow_lt_zpow_right₀ (by norm_num) (by exact_mod_cast h2))
  simpa using h

/-- Counterexample to C11: between `(2^600, 0)` and `(-2^600, 0)` the squared
difference overflows and the result is `+Inf`, where the formula gives
`111 * 2^601`; between `(0, 0)` and `(2^-600, 0)` it underflows and the result
is `0`, where the formula gives `111 * 2^-600`. -/
theorem planar_formula_counterexample :
    StraightLineDistance (Parse (.finite ((2 : ℚ) ^ (600 : ℤ))) (.finite 0))
        (Parse (.finite (-(2 : ℚ) ^ (600 : ℤ))) (.finite 0)) = some .posInf ∧
      StraightLineDistance (Parse (.finite 0) (.finite 0))
        (Parse (.finite ((2 : ℚ) ^ (-600 : ℤ))) (.finite 0)) = some (.finite 0) := by
  constructor
  · rw [StraightLineDistance_of_coordinates (Parse_hasCoordinates _ _) (Parse_hasCoordinates _ _)]
    have hdx : F64.sub (.finite (-(2 : ℚ) ^ (600 : ℤ))) (.finite ((2 : ℚ) ^ (600 : ℤ))) =
        .finite (-(2 : ℚ) ^ (601 : ℤ)) := by
      show F64.round (-(2 : ℚ) ^ (600 : ℤ) + -(2 : ℚ) ^ (600 : ℤ)) = _
      rw [show -(2 : ℚ) ^ (600 : ℤ) + -(2 : ℚ) ^ (600 : ℤ) = -((2 : ℚ) ^ (601 : ℤ)) by norm_num,
        F64.round_neg, F64.round_two_zpow 601 (by norm_num) (by norm_num)]
      rfl
    have hsq : F64.mul (.finite (-(2 : ℚ) ^ (601 : ℤ))) (.finite (-(2 : ℚ) ^ (601 : ℤ))) =
        .posInf := by
      show F64.round (-(2 : ℚ) ^ (601 : ℤ) * -(2 : ℚ) ^ (601 : ℤ)) = _
      apply F64.round_overflow
      norm_num
    rw [hdx, hsq]
    simp [F64.add, F64.mul, F64.infTimes, degToKm]
  · rw [StraightLineDistance_of_coordinates (Parse_hasCoordinates _ _) (Parse_hasCoordinates _ _)]
    have hdx : F64.sub (.finite ((2 : ℚ) ^ (-600 : ℤ))) (.finite 0) =
        .finite ((2 : ℚ) ^ (-600 : ℤ)) := by
      show F64.round ((2 : ℚ) ^ (-600 : ℤ) + -0) = _
      rw [neg_zero, add_zero, F64.round_two_zpow (-600) (by norm_num) (by norm_num)]
    have hsq : F64.mul (.finite ((2 : ℚ) ^ (-600 : ℤ))) (.finite ((2 : ℚ) ^ (-600 : ℤ))) =
        .finite 0 := by
      show F64.round ((2 : ℚ) ^ (-600 : ℤ) * (2 : ℚ) ^ (-600 : ℤ)) = _
      apply F64.round_underflow (by positivity)
      rw [← zpow_add₀ (by norm_num : (2 : ℚ) ≠ 0)]
      exact zpow_lt_zpow_right₀ (by norm_num) (by norm_num)
    rw [hdx, hsq]
    simp [degToKm]

/-- C11, amended. For present points with finite coordinates
`(lon1, lat1)` and `(lon2, lat2)`, `StraightLineDistance` returns the
`float64` evaluation of `sqrt(dx*dx + dy*dy) * 111.0`, with
`dx = lon2 - lon1` and `dy = lat2 - lat1` and every operation rounded: the
result is `+Inf` or a finite value that is not negative (never NaN), it
depends on the coordinates only through the two rounded differences, and it
is exactly `111.0` when they are 0 and 1. -/
theorem planar_formula (p tp : Point F64) (lon1 lat1 lon2 lat2 : ℚ)
    (hp : p.HasCoordinates (.finite lon1) (.finite lat1))
    (htp : tp.HasCoordinates (.finite lon2) (.finite lat2)) :
    ∃ d, StraightLineDistance p tp = some d ∧
      d = F64.mul (F64.sqrt (F64.add
        (F64.mul (F64.sub (.finite lon2) (.finite lon1)) (F64.sub (.finite lon2) (.finite lon1)))
        (F64.mul (F64.sub (.finite lat2) (.finite lat1)) (F64.sub (.finite lat2) (.finite lat1)))))
          (.finite 111) ∧
      d.NonNeg ∧
      (∀ (q tq : Point F64) (x1 y1 x2 y2 : F64),
        q.HasCoordinates x1 y1 → tq.HasCoordinates x2 y2 →
        F64.sub x2 x1 = F64.sub (.finite lon2) (.finite lon1) →
        F64.sub y2 y1 = F64.sub (.finite lat2) (.finite lat1) →
        StraightLineDistance q tq = some d) ∧
      (F64.sub (.finite lon2) (.finite lon1) = .finite 0 →
        F64.sub (.finite lat2) (.finite lat1) = .finite 1 → d = .finite 111) := by
  refine ⟨_, StraightLineDistance_of_coordinates hp htp, rfl, ?_, ?_, ?_⟩
  · exact F64.mul_nonNeg_of_pos (F64.sqrt_nonNeg (F64.add_nonNeg
      (F64.mul_self_nonNeg (F64.sub_finite_ne_nan _ _))
      (F64.mul_self_nonNeg (F64.sub_finite_ne_nan _ _)))) (by norm_num)
  · intro q tq x1 y1 x2 y2 hq htq hx hy
    rw [StraightLineDistance_of_coordinates hq htq, hx, hy]
  · intro hx hy
    exact planar_unit _ _ (Or.inr ⟨hx, hy⟩)

/-- Witness for C11: for `(0, 0)` and `(0, 1)` the result is exactly
`111.0`. -/
theorem planar_formula_witness :
    StraightLineDistance (Parse (.finite 0) (.finite 0)) (Parse (.finite 0) (.finite 1)) =
      some (.finite 111) := by
  obtain ⟨d, h1, -, -, -, h5⟩ := planar_formula (Parse (.finite 0) (.finite 0))
    (Parse (.finite 0) (.finite 1)) 0 0 0 1 (Parse_hasCoordinates _ _) (Parse_hasCoordinates _ _)
  rw [h1, h5 (by simp) (by simp)]

theorem distances_of_wellFormed {α : Type} (M : MathLibrary) (f : α → F64) (p q : Point α)
    (hp : p.WellFormed) (hq : q.WellFormed) :
    (∃ d, StraightLineDistance (p.mapCoordinates f) (q.mapCoordinates f) = some d) ∧
      ∃ d, Distance M (p.mapCoordinates f) (q.mapCoordinates f) = some d := by
  obtain ⟨⟨tp, cp⟩, hp1, -, hp3⟩ := hp
  obtain ⟨⟨tq, cq⟩, hq1, -, hq3⟩ := hq
  obtain ⟨gp⟩ := p
  obtain ⟨gq⟩ := q
  simp only at hp1 hq1 hp3 hq3
  subst hp1 hq1
  match cp, hp3, cq, hq3 with
  | [a, b], _, [c, d], _ => exact ⟨⟨_, rfl⟩, ⟨_, rfl⟩⟩

section Idempotence

variable {K : Type} [LinearOrderedField K] [FloorRing K]

theorem roundHalfEven_quotient_le {x : K} (hx : 0 < x) :
    roundHalfEven (x / (2 : K) ^ ulpExponent x) ≤ 2 ^ 53 := by
  have h2K : (0 : K) < 2 := by norm_num
  have he2 : x < (2 : K) ^ (Int.log 2 x + 1) := by
    exact_mod_cast Int.lt_zpow_succ_log_self (b := 2) (by norm_num) x
  have hk : Int.log 2 x - 52 ≤ ulpExponent x := by
    rw [ulpExponent, abs_of_pos hx]; exact le_max_left _ _
  have ht : x / (2 : K) ^ ulpExponent x < ((2 ^ 53 : ℤ) : K) := by
    rw [div_lt_iff₀ (by positivity)]
    calc x < (2 : K) ^ (Int.log 2 x + 1) := he2
      _ ≤ (2 : K) ^ (53 + ulpExponent x) := zpow_le_zpow_right₀ (by norm_num) (by omega)
      _ = ((2 ^ 53 : ℤ) : K) * (2 : K) ^ ulpExponent x := by
        rw [zpow_add₀ h2K.ne']; push_cast; norm_num
  have h3 := roundHalfEven_le (x / (2 : K) ^ ulpExponent x)
  have h4 : (roundHalfEven (x / (2 : K) ^ ulpExponent x) : K) < ((2 ^ 53 + 1 : ℤ) : K) := by
    push_cast; push_cast at ht; linarith
  have := Int.cast_lt.mp h4
  omega

theorem F64.round_round_of_pos {x : K} (hx : 0 < x) (r : ℚ) (h : F64.round x = .finite r) :
    F64.round r = .finite r := by
  rw [F64.round_of_pos hx] at h
  split_ifs at h with hfin
  simp only [F64.finite.injEq] at h
  have hk : -1074 ≤ ulpExponent x := le_max_right _ _
  have hm0 : 0 ≤ roundHalfEven (x / (2 : K) ^ ulpExponent x) :=
    roundHalfEven_nonneg (by positivity)
  have hm1 := roundHalfEven_quotient_le hx
  obtain ⟨n, hn⟩ := Int.eq_ofNat_of_zero_le hm0
  rw [hn] at h hfin hm1
  have hn1 : n ≤ 2 ^ 53 := by exact_mod_cast hm1
  rw [← h]
  rcases Nat.eq_zero_or_pos n with h0 | h0
  · subst h0; simp [F64.round_zero]
  rcases Nat.lt_or_ge n (2 ^ 53) with h1 | h1
  · have := F64.round_representable (K := ℚ) n (ulpExponent x) h0 h1 hk
      (by push_cast at hfin ⊢; exact not_le.mp hfin)
    simpa using this
  · have hn2 : n = 2 ^ 53 := le_antisymm hn1 h1
    have hval : (((n : ℤ) : ℚ)) * (2 : ℚ) ^ ulpExponent x =
        ((2 ^ 52 : ℕ) : ℚ) * (2 : ℚ) ^ (ulpExponent x + 1) := by
      rw [hn2, zpow_add₀ (by norm_num : (2 : ℚ) ≠ 0)]; push_cast; ring
    rw [hval]
    apply F64.round_representable (K := ℚ) (2 ^ 52) (ulpExponent x + 1) (by norm_num)
      (by norm_num) (by omega)
    rw [← hval]; exact not_le.mp hfin

/-- Rounding is idempotent: a value obtained by rounding is a `float64`, which
rounding leaves unchanged. -/
theorem F64.round_round (x : K) (r : ℚ) (h : F64.round x = .finite r) :
    F64.round r = .finite r := by
  rcases lt_trichotomy x 0 with hx | hx | hx
  · have h1 : F64.round (-x) = .finite (-r) := by rw [F64.round_neg, h]; rfl
    have h2 := F64.round_round_of_pos (by linarith) (-r) h1
    have h3 := F64.round_neg (-r)
    rw [neg_neg, h2] at h3
    rw [h3]; simp [F64.neg]
  · subst hx
    rw [F64.round_zero] at h
    simp only [F64.finite.injEq] at h
    rw [← h]; exact F64.round_zero
  · exact F64.round_round_of_pos hx r h

end Idempotence

/-- Adding zero to a product changes nothing. -/
theorem F64.mul_add_zero (x y : F64) : F64.add (F64.mul x y) (.finite 0) = F64.mul x y := by
  rcases h : F64.mul x y with r | _ | _ | _
  · show F64.round (r + 0) = .finite r
    rw [add_zero]
    cases x with
    | finite a =>
      cases y with
      | finite b => exact F64.round_round (a * b) r h
      | posInf => simp [F64.mul, F64.infTimes] at h; split_ifs at h
      | negInf => simp [F64.mul, F64.infTimes] at h; split_ifs at h
      | nan => simp [F64.mul] at h
    | posInf =>
      cases y with
      | finite b => simp [F64.mul, F64.infTimes] at h; split_ifs at h
      | posInf => simp [F64.mul] at h
      | negInf => simp [F64.mul] at h
      | nan => simp [F64.mul] at h
    | negInf =>
      cases y with
      | finite b => simp [F64.mul, F64.infTimes] at h; split_ifs at h
      | posInf => simp [F64.mul] at h
      | negInf => simp [F64.mul] at h
      | nan => simp [F64.mul] at h
    | nan => simp at h
  · rfl
  · rfl
  · rfl

/-- One minus a finite value above one is negative or `-Inf`, so that its
square root is NaN. -/
theorem F64.sqrt_one_sub_of_gt (q : ℚ) (hq : 1 + (2 : ℚ) ^ (-52 : ℤ) ≤ q) :
    F64.sqrt (F64.sub (.finite 1) (.finite q)) = .nan := by
  have h1 : F64.sub (.finite 1) (.finite q) = F64.neg (F64.round (q - 1)) := by
    show F64.round ((1 : ℚ) + -q) = _
    rw [← F64.round_neg]; congr 1; ring
  have h2 : (2 : ℚ) ^ (-1074 : ℤ) ≤ q - 1 := by
    have : (2 : ℚ) ^ (-1074 : ℤ) ≤ (2 : ℚ) ^ (-52 : ℤ) :=
      zpow_le_zpow_right₀ (by norm_num) (by norm_num)
    linarith
  rw [h1]
  rcases F64.round_pos_of_ge h2 with h | ⟨r, h, hr⟩
  · rw [h]; rfl
  · rw [h]
    show (if -r < 0 then F64.nan else _) = F64.nan
    rw [if_pos (by linarith)]

theorem haversineA_meridian (M : MathLibrary) (hSin : M.Sin (.finite 0) = .finite 0)
    (hCos : ∀ q : ℚ, ∃ r : ℚ, M.Cos (.finite q) = .finite r ∧ |r| ≤ 1)
    (lon lat1 lat2 : ℚ) (hlon : |lon| < (2 : ℚ) ^ (1024 : ℕ))
    (hlat1 : |lat1| < (2 : ℚ) ^ (1024 : ℕ)) (hlat2 : |lat2| < (2 : ℚ) ^ (1024 : ℕ)) :
    haversineA M (.finite lon) (.finite lat1) (.finite lon) (.finite lat2) =
      F64.mul
        (M.Sin (F64.div (F64.sub (toRadians (.finite lat2)) (toRadians (.finite lat1)))
          (.finite 2)))
        (M.Sin (F64.div (F64.sub (toRadians (.finite lat2)) (toRadians (.finite lat1)))
          (.finite 2))) := by
  obtain ⟨rlon, hrlon⟩ := toRadians_finite lon hlon
  obtain ⟨r1, hr1⟩ := toRadians_finite lat1 hlat1
  obtain ⟨r2, hr2⟩ := toRadians_finite lat2 hlat2
  obtain ⟨c1, hc1, hb1⟩ := hCos r1
  obtain ⟨c2, hc2, hb2⟩ := hCos r2
  obtain ⟨c, hc, -⟩ := F64.round_abs_le_one (K := ℚ) (x := c1 * c2) (by
    rw [abs_mul]; exact mul_le_one₀ hb1 (abs_nonneg c2) hb2)
  have hcc : F64.mul (.finite c1) (.finite c2) = .finite c := hc
  simp only [haversineA, hrlon, hr1, hr2, F64.sub_self_finite, F64.zero_div_two, hSin, hc1, hc2,
    hcc, F64.mul_zero_finite, F64.mul_add_zero]

/-- Counterexample to C12: no `float64` result equals `6371 * 1 * π / 180`,
an irrational number, whatever the library; and for the latitudes `0` and
`2^-1074` (`d = 2^-1074`) the radians of both are `0` and the result is `0`,
where the formula gives a positive distance. -/
theorem Distance_meridian_counterexample :
    (¬ ∃ (M : MathLibrary) (r : ℚ),
        Distance M (Parse (.finite 0) (.finite 0)) (Parse (.finite 0) (.finite 1)) =
          some (.finite r) ∧ (r : ℝ) = 6371 * |(1 : ℝ)| * Real.pi / 180) ∧
      Distance idealMath (Parse (.finite 0) (.finite 0))
        (Parse (.finite 0) (.finite ((2 : ℚ) ^ (-1074 : ℤ)))) = some (.finite 0) ∧
      (0 : ℝ) < 6371 * |(2 : ℝ) ^ (-1074 : ℤ)| * Real.pi / 180 := by
  refine ⟨?_, ?_, by positivity⟩
  · rintro ⟨M, r, -, hr⟩
    have hpi : Real.pi = ((r * 180 / 6371 : ℚ) : ℝ) := by
      push_cast; rw [hr]; simp
    exact irrational_pi.ne_rat _ hpi
  · rw [Distance_of_coordinates idealMath (Parse_hasCoordinates _ _) (Parse_hasCoordinates _ _)]
    have ha : haversineA idealMath (.finite 0) (.finite 0) (.finite 0)
        (.finite ((2 : ℚ) ^ (-1074 : ℤ))) = .finite 0 := by
      have h := haversineA_self idealMath idealMath_Sin_zero idealMath_Cos_bounded 0 0
        (by norm_num) (by norm_num)
      simp only [haversineA, toRadians_tiny, toRadians_zero] at h ⊢
      exact h
    rw [ha]
    simp [idealMath_Atan2_zero_one, earthRadiusKm]

/-- Counterexample to C13: the latitudes `0` and `2^-1074` of `[0, 90]` have
the same radians, so that `Distance` is the same at both, whatever the
library: it is not strictly decreasing. -/
theorem divergence_with_latitude_counterexample :
    (0 : ℚ) < (2 : ℚ) ^ (-1074 : ℤ) ∧ (2 : ℚ) ^ (-1074 : ℤ) ≤ 90 ∧
      ∀ M : MathLibrary,
        Distance M (Parse (.finite 0) (.finite ((2 : ℚ) ^ (-1074 : ℤ))))
            (Parse (.finite 1) (.finite ((2 : ℚ) ^ (-1074 : ℤ)))) =
          Distance M (Parse (.finite 0) (.finite 0)) (Parse (.finite 1) (.finite 0)) := by
  refine ⟨by positivity, ?_, ?_⟩
  · calc (2 : ℚ) ^ (-1074 : ℤ) ≤ (2 : ℚ) ^ (0 : ℤ) :=
        zpow_le_zpow_right₀ (by norm_num) (by norm_num)
      _ ≤ 90 := by norm_num
  · intro M
    rw [Distance_of_coordinates M (Parse_hasCoordinates _ _) (Parse_hasCoordinates _ _),
      Distance_of_coordinates M (Parse_hasCoordinates _ _) (Parse_hasCoordinates _ _)]
    simp only [haversineA, toRadians_tiny, toRadians_zero]

section Error

variable {K : Type} [LinearOrderedField K] [FloorRing K]

/-- The rounding error of a positive value that does not overflow is at most
half a unit in the last place. -/
theorem F64.round_error_of_pos {x : K} (hx : 0 < x) (hfin : x < (2 : K) ^ (1023 : ℤ)) :
    ∃ r : ℚ, F64.round x = .finite r ∧ 0 ≤ r ∧
      |(r : K) - x| ≤ (2 : K) ^ ulpExponent x / 2 := by
  obtain ⟨r, hr, hr0, -⟩ := F64.round_bounded_of_pos hx (by norm_num) (by norm_num) hfin
  refine ⟨r, hr, hr0, ?_⟩
  rw [F64.round_of_pos hx] at hr
  split_ifs at hr
  simp only [F64.finite.injEq] at hr
  rw [← hr]
  have hp : (0 : K) < (2 : K) ^ ulpExponent x := by positivity
  have h1 := roundHalfEven_le (x / (2 : K) ^ ulpExponent x)
  have h2 := roundHalfEven_ge (x / (2 : K) ^ ulpExponent x)
  have hx2 : x = x / (2 : K) ^ ulpExponent x * (2 : K) ^ ulpExponent x := by
    field_simp
  push_cast
  rw [abs_le]
  constructor
  · nlinarith
  · nlinarith

/-- In the normal range the rounding error is at most `2 ^ -53` of the
value. -/
theorem F64.round_close {x : K} (h1 : (2 : K) ^ (-1022 : ℤ) ≤ x)
    (h2 : x < (2 : K) ^ (1023 : ℤ)) :
    ∃ r : ℚ, F64.round x = .finite r ∧ |(r : K) - x| ≤ x * (2 : K) ^ (-53 : ℤ) := by
  have h2K : (0 : K) < 2 := by norm_num
  have hx : 0 < x := lt_of_lt_of_le (by positivity) h1
  obtain ⟨r, hr, -, he⟩ := F64.round_error_of_pos hx h2
  refine ⟨r, hr, he.trans ?_⟩
  have hlog : -1022 ≤ Int.log 2 x := by
    rw [← Int.zpow_le_iff_le_log (by norm_num) hx]; exact_mod_cast h1
  have he1 : (2 : K) ^ Int.log 2 x ≤ x := by
    exact_mod_cast Int.zpow_log_le_self (b := 2) (by norm_num) hx
  have hk : ulpExponent x = Int.log 2 x - 52 := by
    rw [ulpExponent, abs_of_pos hx]; exact max_eq_left (by omega)
  rw [hk]
  calc (2 : K) ^ (Int.log 2 x - 52) / 2 = (2 : K) ^ Int.log 2 x * (2 : K) ^ (-53 : ℤ) := by
        rw [show Int.log 2 x - 52 = Int.log 2 x + (-53) + 1 by ring, zpow_add₀ h2K.ne',
          zpow_add₀ h2K.ne']
        simp
    _ ≤ x * (2 : K) ^ (-53 : ℤ) := mul_le_mul_of_nonneg_right he1 (by positivity)

/-- The absolute rounding error of a value below `2 ^ b` in magnitude is at
most `2 ^ (b - 54)`. -/
theorem F64.round_abs_error {x : K} {b : ℤ} (hb1 : -1020 ≤ b) (hb2 : b ≤ 1023)
    (h : |x| < (2 : K) ^ b) :
    ∃ r : ℚ, F64.round x = .finite r ∧ |(r : K) - x| ≤ (2 : K) ^ (b - 54) := by
  have h2K : (0 : K) < 2 := by norm_num
  have key : ∀ y : K, 0 < y → y < (2 : K) ^ b →
      ∃ r : ℚ, F64.round y = .finite r ∧ |(r : K) - y| ≤ (2 : K) ^ (b - 54) := by
    intro y hy hyb
    obtain ⟨r, hr, -, he⟩ := F64.round_error_of_pos hy
      (lt_of_lt_of_le hyb (zpow_le_zpow_right₀ (by norm_num) hb2))
    refine ⟨r, hr, he.trans ?_⟩
    have hlog : Int.log 2 y < b := by
      rw [← Int.lt_zpow_iff_log_lt (by norm_num) hy]; exact_mod_cast hyb
    have hk : ulpExponent y ≤ b - 53 := by
      rw [ulpExponent, abs_of_pos hy]; apply max_le <;> omega
    calc (2 : K) ^ ulpExponent y / 2 ≤ (2 : K) ^ (b - 53) / 2 :=
          div_le_div_of_nonneg_right (zpow_le_zpow_right₀ (by norm_num) hk) (by norm_num)
      _ = (2 : K) ^ (b - 54) := by
          rw [show b - 53 = b - 54 + 1 by ring, zpow_add₀ h2K.ne']; simp
  rcases lt_trichotomy x 0 with hx | hx | hx
  · obtain ⟨r, hr, he⟩ := key (-x) (by linarith) (by rwa [abs_of_neg hx] at h)
    refine ⟨-r, ?_, ?_⟩
    · have := F64.round_neg (-x)
      rw [neg_neg, hr] at this
      rw [this]; rfl
    · rw [show ((-r : ℚ) : K) - x = -((r : K) - -x) by push_cast; ring, abs_neg]
      exact he
  · subst hx
    exact ⟨0, F64.round_zero, by simp; positivity⟩
  · exact key x hx (by rwa [abs_of_pos hx] at h)

/-- Rounding of a value enclosed by two rationals of the normal range: the
enclosure widens by a factor `1 ± 2 ^ -53`. -/
theorem F64.round_within {x : K} {lo hi : ℚ} (a b : ℚ) (h1 : (a : K) ≤ x) (h2 : x ≤ (b : K))
    (hn : (2 : ℚ) ^ (-1022 : ℤ) ≤ a) (hf : b < (2 : ℚ) ^ (1023 : ℤ))
    (hlo : lo ≤ a * (1 - (2 : ℚ) ^ (-53 : ℤ))) (hhi : b * (1 + (2 : ℚ) ^ (-53 : ℤ)) ≤ hi) :
    (F64.round x).Within lo hi := by
  have hnK : (2 : K) ^ (-1022 : ℤ) ≤ (a : K) := by
    have := (Rat.cast_le (K := K)).mpr hn
    rwa [Rat.cast_zpow, Rat.cast_ofNat] at this
  have hfK : (b : K) < (2 : K) ^ (1023 : ℤ) := by exact_mod_cast hf
  have hloK : (lo : K) ≤ (a : K) * (1 - (2 : K) ^ (-53 : ℤ)) := by
    have := (Rat.cast_le (K := K)).mpr hlo
    rwa [Rat.cast_mul, Rat.cast_sub, Rat.cast_one, Rat.cast_zpow, Rat.cast_ofNat] at this
  have hhiK : (b : K) * (1 + (2 : K) ^ (-53 : ℤ)) ≤ (hi : K) := by
    have := (Rat.cast_le (K := K)).mpr hhi
    rwa [Rat.cast_mul, Rat.cast_add, Rat.cast_one, Rat.cast_zpow, Rat.cast_ofNat] at this
  have hu : (0 : K) < (2 : K) ^ (-53 : ℤ) := by positivity
  have hu1 : (2 : K) ^ (-53 : ℤ) < 1 := zpow_lt_one_of_neg₀ (by norm_num) (by norm_num)
  obtain ⟨r, hr, he⟩ := F64.round_close (hnK.trans h1) (lt_of_le_of_lt h2 hfK)
  rw [abs_le] at he
  have hx0 : 0 < x := lt_of_lt_of_le (by positivity) (hnK.trans h1)
  refine ⟨r, hr, ?_, ?_⟩
  · have : (lo : K) ≤ (r : K) := by
      calc (lo : K) ≤ (a : K) * (1 - (2 : K) ^ (-53 : ℤ)) := hloK
        _ ≤ x * (1 - (2 : K) ^ (-53 : ℤ)) := mul_le_mul_of_nonneg_right h1 (by linarith)
        _ ≤ r := by linarith
    exact_mod_cast this
  · have : (r : K) ≤ (hi : K) := by
      calc (r : K) ≤ x * (1 + (2 : K) ^ (-53 : ℤ)) := by linarith
        _ ≤ (b : K) * (1 + (2 : K) ^ (-53 : ℤ)) := mul_le_mul_of_nonneg_right h2 (by linarith)
        _ ≤ hi := hhiK
    exact_mod_cast this

end Error

/-! ### Enclosures of the rounded operations -/

theorem F64.Within.mono {x : F64} {a b lo hi : ℚ} (h : x.Within a b) (hlo : lo ≤ a)
    (hhi : b ≤ hi) : x.Within lo hi := by
  obtain ⟨r, hr, h1, h2⟩ := h
  exact ⟨r, hr, hlo.trans h1, h2.trans hhi⟩

theorem F64.within_finite (q : ℚ) : (F64.finite q).Within q q := ⟨q, rfl, le_rfl, le_rfl⟩

theorem F64.mul_within {x y : F64} {a b c d lo hi : ℚ} (hx : x.Within a b) (hy : y.Within c d)
    (ha : 0 ≤ a) (hc : 0 ≤ c) (hn : (2 : ℚ) ^ (-1022 : ℤ) ≤ a * c)
    (hf : b * d < (2 : ℚ) ^ (1023 : ℤ))
    (hlo : lo ≤ a * c * (1 - (2 : ℚ) ^ (-53 : ℤ)))
    (hhi : b * d * (1 + (2 : ℚ) ^ (-53 : ℤ)) ≤ hi) : (F64.mul x y).Within lo hi := by
  obtain ⟨r, hr, hr1, hr2⟩ := hx
  obtain ⟨s, hs, hs1, hs2⟩ := hy
  rw [hr, hs]
  show (F64.round (r * s)).Within lo hi
  apply F64.round_within (K := ℚ) (a * c) (b * d) _ _ hn hf hlo hhi
  · simpa using mul_le_mul hr1 hs1 hc (ha.trans hr1)
  · simpa using mul_le_mul hr2 hs2 (hc.trans hs1) ((ha.trans hr1).trans hr2)

theorem F64.add_within {x y : F64} {a b c d lo hi : ℚ} (hx : x.Within a b) (hy : y.Within c d)
    (hn : (2 : ℚ) ^ (-1022 : ℤ) ≤ a + c) (hf : b + d < (2 : ℚ) ^ (1023 : ℤ))
    (hlo : lo ≤ (a + c) * (1 - (2 : ℚ) ^ (-53 : ℤ)))
    (hhi : (b + d) * (1 + (2 : ℚ) ^ (-53 : ℤ)) ≤ hi) : (F64.add x y).Within lo hi := by
  obtain ⟨r, hr, hr1, hr2⟩ := hx
  obtain ⟨s, hs, hs1, hs2⟩ := hy
  rw [hr, hs]
  show (F64.round (r + s)).Within lo hi
  apply F64.round_within (K := ℚ) (a + c) (b + d) _ _ hn hf hlo hhi
  · simpa using add_le_add hr1 hs1
  · simpa using add_le_add hr2 hs2

theorem F64.sub_within {x y : F64} {a b c d lo hi : ℚ} (hx : x.Within a b) (hy : y.Within c d)
    (hn : (2 : ℚ) ^ (-1022 : ℤ) ≤ a - d) (hf : b - c < (2 : ℚ) ^ (1023 : ℤ))
    (hlo : lo ≤ (a - d) * (1 - (2 : ℚ) ^ (-53 : ℤ)))
    (hhi : (b - c) * (1 + (2 : ℚ) ^ (-53 : ℤ)) ≤ hi) : (F64.sub x y).Within lo hi := by
  obtain ⟨r, hr, hr1, hr2⟩ := hx
  obtain ⟨s, hs, hs1, hs2⟩ := hy
  rw [hr, hs]
  show (F64.round (r + -s)).Within lo hi
  apply F64.round_within (K := ℚ) (a - d) (b - c) _ _ hn hf hlo hhi
  · simp only [Rat.cast_id]; linarith
  · simp only [Rat.cast_id]; linarith

theorem F64.sqrt_within {x : F64} {a b lo hi : ℚ} (hx : x.Within a b) (l h : ℚ)
    (hl : l * l ≤ a) (hh : b ≤ h * h) (hh0 : 0 ≤ h)
    (hn : (2 : ℚ) ^ (-1022 : ℤ) ≤ l) (hf : h < (2 : ℚ) ^ (1023 : ℤ))
    (hlo : lo ≤ l * (1 - (2 : ℚ) ^ (-53 : ℤ)))
    (hhi : h * (1 + (2 : ℚ) ^ (-53 : ℤ)) ≤ hi) : (F64.sqrt x).Within lo hi := by
  obtain ⟨r, hr, hr1, hr2⟩ := hx
  have hl0 : 0 ≤ l := le_trans (by positivity) hn
  have hr0 : 0 ≤ r := le_trans (mul_nonneg hl0 hl0) (hl.trans hr1)
  rw [hr]
  show (if r < 0 then F64.nan else F64.round (Real.sqrt (r : ℝ))).Within lo hi
  rw [if_neg (not_lt.mpr hr0)]
  apply F64.round_within (K := ℝ) l h _ _ hn hf hlo hhi
  · apply Real.le_sqrt_of_sq_le
    have : (l * l : ℚ) ≤ r := hl.trans hr1
    have h2 : ((l * l : ℚ) : ℝ) ≤ (r : ℝ) := by exact_mod_cast this
    rw [sq]; exact_mod_cast h2
  · rw [Real.sqrt_le_iff]
    refine ⟨by exact_mod_cast hh0, ?_⟩
    have : r ≤ h * h := hr2.trans hh
    have h2 : (r : ℝ) ≤ ((h * h : ℚ) : ℝ) := by exact_mod_cast this
    rw [sq]; exact_mod_cast h2

/-! ### Real bounds -/

theorem arctan_le_self {t : ℝ} (ht : 0 ≤ t) : Real.arctan t ≤ t := by
  have h0 : 0 ≤ Real.arctan t := by
    rw [← Real.arctan_zero]; exact Real.arctan_strictMono.monotone ht
  have := Real.le_tan h0 (Real.arctan_lt_pi_div_two t)
  rwa [Real.tan_arctan] at this

theorem le_arctan {t : ℝ} (ht : 0 ≤ t) : t / (1 + t ^ 2) ≤ Real.arctan t := by
  have h0 : 0 ≤ Real.arctan t := by
    rw [← Real.arctan_zero]; exact Real.arctan_strictMono.monotone ht
  have h1 : Real.sin (Real.arctan t) ≤ Real.arctan t := Real.sin_le h0
  rw [Real.sin_arctan] at h1
  refine le_trans ?_ h1
  have hw : (1 : ℝ) ≤ 1 + t ^ 2 := by nlinarith [sq_nonneg t]
  have hs : Real.sqrt (1 + t ^ 2) ≤ 1 + t ^ 2 := by
    rw [Real.sqrt_le_iff]
    exact ⟨by linarith, by nlinarith⟩
  have hs0 : 0 < Real.sqrt (1 + t ^ 2) := Real.sqrt_pos.mpr (by linarith)
  exact div_le_div_of_nonneg_left ht hs0 hs

/-! ### Enclosures of the library functions of an accurate library -/

theorem cast_two_zpow_neg_thirty : (((2 : ℚ) ^ (-30 : ℤ) : ℚ) : ℝ) = (2 : ℝ) ^ (-30 : ℤ) := by
  rw [Rat.cast_zpow, Rat.cast_ofNat]

theorem MathLibrary.Accurate.sin_within {M : MathLibrary} (hM : M.Accurate) (q : ℚ) {lo hi : ℚ}
    (hq0 : 0 < q) (hq1 : q ≤ 1) (hlo : lo ≤ q - q ^ 3 / 4 - (2 : ℚ) ^ (-30 : ℤ))
    (hhi : q + (2 : ℚ) ^ (-30 : ℤ) ≤ hi) : (M.Sin (.finite q)).Within lo hi := by
  obtain ⟨s, hs, he⟩ := hM.1 q (by rw [abs_of_pos hq0]; linarith)
  obtain ⟨he1, he2⟩ := abs_le.mp he
  have hq0R : (0 : ℝ) < (q : ℝ) := by exact_mod_cast hq0
  have hq1R : (q : ℝ) ≤ 1 := by exact_mod_cast hq1
  have h1 := Real.sin_lt hq0R
  have h2 := Real.sin_gt_sub_cube hq0R hq1R
  have hloR : (lo : ℝ) ≤ (q : ℝ) - (q : ℝ) ^ 3 / 4 - (2 : ℝ) ^ (-30 : ℤ) := by
    have := (Rat.cast_le (K := ℝ)).mpr hlo
    rw [Rat.cast_sub, cast_two_zpow_neg_thirty] at this
    push_cast at this
    exact this
  have hhiR : (q : ℝ) + (2 : ℝ) ^ (-30 : ℤ) ≤ (hi : ℝ) := by
    have := (Rat.cast_le (K := ℝ)).mpr hhi
    rwa [Rat.cast_add, cast_two_zpow_neg_thirty] at this
  generalize (2 : ℝ) ^ (-30 : ℤ) = e at he1 he2 hloR hhiR
  refine ⟨s, hs, ?_, ?_⟩
  · have : (lo : ℝ) ≤ (s : ℝ) := by linarith
    exact_mod_cast this
  · have : (s : ℝ) ≤ (hi : ℝ) := by linarith
    exact_mod_cast this

/-- Bounds of the cosine of `q` from those of the cosine of `q / 2`. -/
theorem cos_bounds_of_half {x : ℝ} (hx : |x / 2| ≤ 1)
    (hpos : 0 ≤ 1 - (x / 2) ^ 2 / 2 - |x / 2| ^ 4 * (5 / 96)) :
    2 * (1 - (x / 2) ^ 2 / 2 - |x / 2| ^ 4 * (5 / 96)) ^ 2 - 1 ≤ Real.cos x ∧
      Real.cos x ≤ 2 * (1 - (x / 2) ^ 2 / 2 + |x / 2| ^ 4 * (5 / 96)) ^ 2 - 1 := by
  have hb := Real.cos_bound hx
  rw [abs_le] at hb
  have hc : Real.cos x = 2 * Real.cos (x / 2) ^ 2 - 1 := by
    rw [← Real.cos_two_mul]; congr 1; ring
  have hL : 1 - (x / 2) ^ 2 / 2 - |x / 2| ^ 4 * (5 / 96) ≤ Real.cos (x / 2) := by linarith
  have hU : Real.cos (x / 2) ≤ 1 - (x / 2) ^ 2 / 2 + |x / 2| ^ 4 * (5 / 96) := by linarith
  rw [hc]
  constructor
  · have := pow_le_pow_left₀ hpos hL 2
    linarith
  · have := pow_le_pow_left₀ (hpos.trans hL) hU 2
    linarith

theorem MathLibrary.Accurate.cos_within {M : MathLibrary} (hM : M.Accurate) (q : ℚ) {lo hi : ℚ}
    (hq0 : 0 ≤ q) (hq1 : q ≤ 2)
    (hpos : 0 ≤ 1 - (q / 2) ^ 2 / 2 - (q / 2) ^ 4 * (5 / 96))
    (hlo : lo ≤ 2 * (1 - (q / 2) ^ 2 / 2 - (q / 2) ^ 4 * (5 / 96)) ^ 2 - 1 - (2 : ℚ) ^ (-30 : ℤ))
    (hhi : 2 * (1 - (q / 2) ^ 2 / 2 + (q / 2) ^ 4 * (5 / 96)) ^ 2 - 1 + (2 : ℚ) ^ (-30 : ℤ) ≤ hi) :
    (M.Cos (.finite q)).Within lo hi := by
  obtain ⟨c, hc, he⟩ := hM.2.1 q (by rw [abs_of_nonneg hq0]; exact hq1)
  obtain ⟨he1, he2⟩ := abs_le.mp he
  have hq0R : (0 : ℝ) ≤ (q : ℝ) := by exact_mod_cast hq0
  have hq1R : (q : ℝ) ≤ 2 := by exact_mod_cast hq1
  have habs : |(q : ℝ) / 2| = (q : ℝ) / 2 := abs_of_nonneg (by linarith)
  have hposR : (0 : ℝ) ≤ 1 - ((q : ℝ) / 2) ^ 2 / 2 - ((q : ℝ) / 2) ^ 4 * (5 / 96) := by
    have := (Rat.cast_le (K := ℝ)).mpr hpos
    push_cast at this
    exact this
  have hb := cos_bounds_of_half (x := (q : ℝ)) (by rw [habs]; linarith) (by rw [habs]; exact hposR)
  rw [habs] at hb
  have hloR : (lo : ℝ) ≤ 2 * (1 - ((q : ℝ) / 2) ^ 2 / 2 - ((q : ℝ) / 2) ^ 4 * (5 / 96)) ^ 2 - 1
      - (2 : ℝ) ^ (-30 : ℤ) := by
    have := (Rat.cast_le (K := ℝ)).mpr hlo
    rw [Rat.cast_sub, cast_two_zpow_neg_thirty] at this
    push_cast at this
    exact this
  have hhiR : 2 * (1 - ((q : ℝ) / 2) ^ 2 / 2 + ((q : ℝ) / 2) ^ 4 * (5 / 96)) ^ 2 - 1
      + (2 : ℝ) ^ (-30 : ℤ) ≤ (hi : ℝ) := by
    have := (Rat.cast_le (K := ℝ)).mpr hhi
    rw [Rat.cast_add, cast_two_zpow_neg_thirty] at this
    push_cast at this
    exact this
  obtain ⟨hb1, hb2⟩ := hb
  generalize (2 : ℝ) ^ (-30 : ℤ) = e at he1 he2 hloR hhiR
  generalize 2 * (1 - ((q : ℝ) / 2) ^ 2 / 2 - ((q : ℝ) / 2) ^ 4 * (5 / 96)) ^ 2 - 1 = u
    at hb1 hloR
  generalize 2 * (1 - ((q : ℝ) / 2) ^ 2 / 2 + ((q : ℝ) / 2) ^ 4 * (5 / 96)) ^ 2 - 1 = v
    at hb2 hhiR
  refine ⟨c, hc, ?_, ?_⟩
  · have : (lo : ℝ) ≤ (c : ℝ) := by linarith
    exact_mod_cast this
  · have : (c : ℝ) ≤ (hi : ℝ) := by linarith
    exact_mod_cast this

theorem MathLibrary.Accurate.atan2_within {M : MathLibrary} (hM : M.Accurate) {y x : F64}
    {y1 y2 x1 x2 lo hi : ℚ} (hy : y.Within y1 y2) (hx : x.Within x1 x2)
    (hy1 : 0 ≤ y1) (hx1 : 0 < x1)
    (hlo : lo ≤ y1 / x2 / (1 + (y1 / x2) ^ 2) - (2 : ℚ) ^ (-30 : ℤ))
    (hhi : y2 / x1 + (2 : ℚ) ^ (-30 : ℤ) ≤ hi) : (M.Atan2 y x).Within lo hi := by
  obtain ⟨ry, hry, hry1, hry2⟩ := hy
  obtain ⟨rx, hrx, hrx1, hrx2⟩ := hx
  have hry0 : 0 ≤ ry := hy1.trans hry1
  have hrx0 : 0 < rx := lt_of_lt_of_le hx1 hrx1
  have hx2 : 0 < x2 := lt_of_lt_of_le hrx0 hrx2
  obtain ⟨t, ht, he⟩ := hM.2.2 ry rx hry0 hrx0
  obtain ⟨he1, he2⟩ := abs_le.mp he
  rw [hry, hrx]
  -- the quotient lies between the quotients of the endpoints
  have hT1 : y1 / x2 ≤ ry / rx := div_le_div₀ hry0 hry1 hrx0 hrx2
  have hT2 : ry / rx ≤ y2 / x1 := div_le_div₀ (hry0.trans hry2) hry2 hx1 hrx1
  have hT0 : 0 ≤ y1 / x2 := div_nonneg hy1 hx2.le
  have hT1R : ((y1 / x2 : ℚ) : ℝ) ≤ (ry : ℝ) / (rx : ℝ) := by
    have := (Rat.cast_le (K := ℝ)).mpr hT1
    rwa [Rat.cast_div ry rx] at this
  have hT2R : (ry : ℝ) / (rx : ℝ) ≤ ((y2 / x1 : ℚ) : ℝ) := by
    have := (Rat.cast_le (K := ℝ)).mpr hT2
    rwa [Rat.cast_div ry rx] at this
  have hT0R : (0 : ℝ) ≤ ((y1 / x2 : ℚ) : ℝ) := by exact_mod_cast hT0
  have hup : Real.arctan ((ry : ℝ) / (rx : ℝ)) ≤ ((y2 / x1 : ℚ) : ℝ) :=
    (arctan_le_self (hT0R.trans hT1R)).trans hT2R
  have hdn : ((y1 / x2 : ℚ) : ℝ) / (1 + ((y1 / x2 : ℚ) : ℝ) ^ 2) ≤
      Real.arctan ((ry : ℝ) / (rx : ℝ)) :=
    (le_arctan hT0R).trans (Real.arctan_strictMono.monotone hT1R)
  have hloR : (lo : ℝ) ≤ ((y1 / x2 : ℚ) : ℝ) / (1 + ((y1 / x2 : ℚ) : ℝ) ^ 2)
      - (2 : ℝ) ^ (-30 : ℤ) := by
    have := (Rat.cast_le (K := ℝ)).mpr hlo
    rw [Rat.cast_sub, cast_two_zpow_neg_thirty, Rat.cast_div _ (1 + (y1 / x2) ^ 2), Rat.cast_add,
      Rat.cast_one, Rat.cast_pow] at this
    exact this
  have hhiR : ((y2 / x1 : ℚ) : ℝ) + (2 : ℝ) ^ (-30 : ℤ) ≤ (hi : ℝ) := by
    have := (Rat.cast_le (K := ℝ)).mpr hhi
    rwa [Rat.cast_add, cast_two_zpow_neg_thirty] at this
  generalize (2 : ℝ) ^ (-30 : ℤ) = e at he1 he2 hloR hhiR
  refine ⟨t, ht, ?_, ?_⟩
  · have : (lo : ℝ) ≤ (t : ℝ) := by linarith
    exact_mod_cast this
  · have : (t : ℝ) ≤ (hi : ℝ) := by linarith
    exact_mod_cast this

/-! ### The ideal library is accurate -/

theorem F64.round_real_accurate {x : ℝ} (hx : |x| < 2) :
    ∃ r : ℚ, F64.round x = .finite r ∧ |(r : ℝ) - x| ≤ (2 : ℝ) ^ (-30 : ℤ) := by
  obtain ⟨r, hr, he⟩ := F64.round_abs_error (K := ℝ) (x := x) (b := 1) (by norm_num)
    (by norm_num) (by simpa using hx)
  refine ⟨r, hr, he.trans ?_⟩
  exact zpow_le_zpow_right₀ (by norm_num) (by norm_num)

theorem idealMath_accurate : idealMath.Accurate := by
  refine ⟨fun q _ => ?_, fun q _ => ?_, fun y x hy hx => ?_⟩
  · exact F64.round_real_accurate
      (lt_of_le_of_lt (Real.abs_sin_le_one _) (by norm_num))
  · exact F64.round_real_accurate
      (lt_of_le_of_lt (Real.abs_cos_le_one _) (by norm_num))
  · have hxR : (0 : ℝ) < (x : ℝ) := by exact_mod_cast hx
    have hval : realAtan2 (y : ℝ) (x : ℝ) = Real.arctan ((y : ℝ) / (x : ℝ)) := by
      unfold realAtan2
      by_cases h0 : (y : ℝ) = 0
      · rw [if_pos h0, if_pos hxR.le, h0, zero_div, Real.arctan_zero]
      · rw [if_neg h0, if_neg hxR.ne', if_neg (not_lt.mpr hxR.le)]
    show ∃ t : ℚ, F64.round (realAtan2 (y : ℝ) (x : ℝ)) = .finite t ∧ _
    rw [hval]
    apply F64.round_real_accurate
    rw [abs_lt]
    have h1 := Real.arctan_lt_pi_div_two ((y : ℝ) / (x : ℝ))
    have h2 := Real.neg_pi_div_two_lt_arctan ((y : ℝ) / (x : ℝ))
    have h3 := Real.pi_le_four
    constructor <;> linarith

/-! ### Radians of the sample coordinates -/

theorem toRadians_one : toRadians (.finite 1) = .finite (5030569068109113 / 2 ^ 58) := by
  rw [toRadians_finite_eq, one_mul]
  exact F64.round_round _ _ piOver180_eq

theorem F64.sub_zero_of_round {x : ℚ} (h : F64.round x = .finite x) :
    F64.sub (.finite x) (.finite 0) = .finite x := by
  show F64.round (x + -0) = .finite x
  rw [neg_zero, add_zero, h]

theorem F64.div_finite (a b : ℚ) (hb : b ≠ 0) :
    F64.div (.finite a) (.finite b) = F64.round (a / b) := by
  simp [F64.div, hb]

/-- Half the radians of one degree, exactly. -/
theorem half_radians_one :
    F64.div (F64.sub (toRadians (.finite 1)) (toRadians (.finite 0))) (.finite 2) =
      .finite (5030569068109113 / 2 ^ 59) := by
  rw [toRadians_one, toRadians_zero,
    F64.sub_zero_of_round (F64.round_round _ _ piOver180_eq)]
  rw [F64.div_finite _ _ (by norm_num)]
  have h := F64.round_representable (K := ℚ) 5030569068109113 (-59) (by norm_num) (by norm_num)
    (by norm_num) (by norm_num)
  have e1 : ((5030569068109113 : ℕ) : ℚ) * (2 : ℚ) ^ (-59 : ℤ) =
      (5030569068109113 / 2 ^ 58 : ℚ) / 2 := by norm_num
  have e2 : (5030569068109113 / 2 ^ 58 : ℚ) / 2 = 5030569068109113 / 2 ^ 59 := by norm_num
  rw [e1] at h
  rw [h, e2]

theorem toRadians_sixty : toRadians (.finite 60) = .finite (4716158501352293 / 2 ^ 52) := by
  rw [toRadians_finite_eq]
  have h := F64.round_eq_of_close (K := ℚ) (x := 60 * (5030569068109113 / 2 ^ 58)) (e := 0)
    (by norm_num) (by norm_num) 4716158501352293 (by rw [abs_lt]; norm_num) (by norm_num)
  rw [h]
  norm_num

/-! ### One degree along a meridian and along a parallel -/

theorem F64.zero_add_mul (x y : F64) : F64.add (.finite 0) (F64.mul x y) = F64.mul x y := by
  rw [F64.add_symm, F64.mul_add_zero]

/-- On a parallel (equal finite latitudes) the first term of the Haversine
sum vanishes. -/
theorem haversineA_parallel (M : MathLibrary) (hSin : M.Sin (.finite 0) = .finite 0)
    (lon1 lon2 : F64) (lat : ℚ) (hlat : |lat| < (2 : ℚ) ^ (1024 : ℕ)) :
    haversineA M lon1 (.finite lat) lon2 (.finite lat) =
      F64.mul
        (F64.mul
          (F64.mul (M.Cos (toRadians (.finite lat))) (M.Cos (toRadians (.finite lat))))
          (M.Sin (F64.div (F64.sub (toRadians lon2) (toRadians lon1)) (.finite 2))))
        (M.Sin (F64.div (F64.sub (toRadians lon2) (toRadians lon1)) (.finite 2))) := by
  obtain ⟨r, hr⟩ := toRadians_finite lat hlat
  simp only [haversineA, hr, F64.sub_self_finite, F64.zero_div_two, hSin, F64.zero_mul_finite,
    F64.zero_add_mul]

/-- From an enclosure of the Haversine term of two points one degree apart on a
great circle to one of the distance. -/
theorem distance_tail_one_degree (M : MathLibrary) (hM : M.Accurate) {a : F64}
    (ha : a.Within 0.00007615143883517 0.00007615437134338) :
    (F64.mul earthRadiusKm (F64.mul (.finite 2)
      (M.Atan2 (F64.sqrt a) (F64.sqrt (F64.sub (.finite 1) a))))).Within 111.188 111.1995 := by
  have h1 : (F64.sqrt a).Within 0.00872647917748 0.008726647199444 :=
    F64.sqrt_within ha 0.008726479177481 0.008726647199443
      (by norm_num) (by norm_num) (by norm_num) (by norm_num) (by norm_num) (by norm_num)
      (by norm_num)
  have h2 : (F64.sub (.finite 1) a).Within 0.9999238456286 0.9999238485612 :=
    F64.sub_within (F64.within_finite 1) ha (by norm_num) (by norm_num) (by norm_num) (by norm_num)
  have h3 : (F64.sqrt (F64.sub (.finite 1) a)).Within 0.9999619220882 0.9999619235568 :=
    F64.sqrt_within h2 0.9999619220883 0.9999619235567
      (by norm_num) (by norm_num) (by norm_num) (by norm_num) (by norm_num) (by norm_num)
      (by norm_num)
  have h4 : (M.Atan2 (F64.sqrt a) (F64.sqrt (F64.sub (.finite 1) a))).Within
      0.008726145972849 0.008726980435923 :=
    hM.atan2_within h1 h3 (by norm_num) (by norm_num) (by norm_num) (by norm_num)
  have h5 : (F64.mul (.finite 2)
      (M.Atan2 (F64.sqrt a) (F64.sqrt (F64.sub (.finite 1) a)))).Within
      0.01745229194569 0.01745396087185 :=
    F64.mul_within (F64.within_finite 2) h4
      (by norm_num) (by norm_num) (by norm_num) (by norm_num) (by norm_num) (by norm_num)
  exact F64.mul_within (F64.within_finite 6371) h5
    (by norm_num) (by norm_num) (by norm_num) (by norm_num) (by norm_num) (by norm_num)

/-- From an enclosure of the Haversine term of two points one degree of
longitude apart at latitude 60 to one of the distance. -/
theorem distance_tail_sixty (M : MathLibrary) (hM : M.Accurate) {a : F64}
    (ha : a.Within 0.00001723870798692 0.00001925335065359) :
    (F64.mul earthRadiusKm (F64.mul (.finite 2)
      (M.Atan2 (F64.sqrt a) (F64.sqrt (F64.sub (.finite 1) a))))).Within 52 55.95 := by
  have h1 : (F64.sqrt a).Within 0.004151952310284 0.004387864019502 :=
    F64.sqrt_within ha 0.004151952310285 0.004387864019501
      (by norm_num) (by norm_num) (by norm_num) (by norm_num) (by norm_num) (by norm_num)
      (by norm_num)
  have h2 : (F64.sub (.finite 1) a).Within 0.9999807466493 0.9999827612921 :=
    F64.sub_within (F64.within_finite 1) ha (by norm_num) (by norm_num) (by norm_num) (by norm_num)
  have h3 : (F64.sqrt (F64.sub (.finite 1) a)).Within 0.9999903732772 0.9999913806101 :=
    F64.sqrt_within h2 0.9999903732773 0.99999138061
      (by norm_num) (by norm_num) (by norm_num) (by norm_num) (by norm_num) (by norm_num)
      (by norm_num)
  have h4 : (M.Atan2 (F64.sqrt a) (F64.sqrt (F64.sub (.finite 1) a))).Within
      0.004151915591655 0.004387907191982 :=
    hM.atan2_within h1 h3 (by norm_num) (by norm_num) (by norm_num) (by norm_num)
  have h5 : (F64.mul (.finite 2)
      (M.Atan2 (F64.sqrt a) (F64.sqrt (F64.sub (.finite 1) a)))).Within
      0.008303831183309 0.008775814383965 :=
    F64.mul_within (F64.within_finite 2) h4
      (by norm_num) (by norm_num) (by norm_num) (by norm_num) (by norm_num) (by norm_num)
  exact F64.mul_within (F64.within_finite 6371) h5
    (by norm_num) (by norm_num) (by norm_num) (by norm_num) (by norm_num) (by norm_num)

theorem sin_half_degree_within (M : MathLibrary) (hM : M.Accurate) :
    (M.Sin (.finite (5030569068109113 / 2 ^ 59))).Within 0.008726479185619 0.008726647191295 :=
  hM.sin_within _ (by norm_num) (by norm_num) (by norm_num) (by norm_num)

/-- The great-circle distance between `(0, 0)` and `(0, 1)`. -/
theorem meridian_one_degree_distance (M : MathLibrary) (hSin : M.Sin (.finite 0) = .finite 0)
    (hCos : ∀ q : ℚ, ∃ r : ℚ, M.Cos (.finite q) = .finite r ∧ |r| ≤ 1) (hM : M.Accurate) :
    ∃ d, Distance M (Parse (.finite 0) (.finite 0)) (Parse (.finite 0) (.finite 1)) = some d ∧
      d.Within 111.188 111.1995 := by
  refine ⟨_, Distance_of_coordinates M (Parse_hasCoordinates _ _) (Parse_hasCoordinates _ _), ?_⟩
  apply distance_tail_one_degree M hM
  rw [haversineA_meridian M hSin hCos 0 0 1 (by norm_num) (by norm_num) (by norm_num),
    half_radians_one]
  have hS := sin_half_degree_within M hM
  exact F64.mul_within hS hS (by norm_num) (by norm_num) (by norm_num) (by norm_num)
    (by norm_num) (by norm_num)

/-- The great-circle distance between `(0, 0)` and `(1, 0)`. -/
theorem equator_one_degree_distance (M : MathLibrary) (hSin : M.Sin (.finite 0) = .finite 0)
    (hM : M.Accurate) :
    ∃ d, Distance M (Parse (.finite 0) (.finite 0)) (Parse (.finite 1) (.finite 0)) = some d ∧
      d.Within 111.188 111.1995 := by
  refine ⟨_, Distance_of_coordinates M (Parse_hasCoordinates _ _) (Parse_hasCoordinates _ _), ?_⟩
  apply distance_tail_one_degree M hM
  rw [haversineA_parallel M hSin _ _ 0 (by norm_num), half_radians_one, toRadians_zero]
  have hS := sin_half_degree_within M hM
  have hC : (M.Cos (.finite 0)).Within 0.9999999990686 1.000000000932 :=
    hM.cos_within 0 le_rfl (by norm_num) (by norm_num) (by norm_num) (by norm_num)
  have hCC : (F64.mul (M.Cos (.finite 0)) (M.Cos (.finite 0))).Within
      0.9999999981371 1.000000001865 :=
    F64.mul_within hC hC (by norm_num) (by norm_num) (by norm_num) (by norm_num)
      (by norm_num) (by norm_num)
  have hP : (F64.mul (F64.mul (M.Cos (.finite 0)) (M.Cos (.finite 0)))
      (M.Sin (.finite (5030569068109113 / 2 ^ 59)))).Within
      0.008726479169362 0.008726647207571 :=
    F64.mul_within hCC hS (by norm_num) (by norm_num) (by norm_num) (by norm_num)
      (by norm_num) (by norm_num)
  exact F64.mul_within hP hS (by norm_num) (by norm_num) (by norm_num) (by norm_num)
    (by norm_num) (by norm_num)

/-- The great-circle distance between `(0, 60)` and `(1, 60)`. -/
theorem sixty_one_degree_distance (M : MathLibrary) (hSin : M.Sin (.finite 0) = .finite 0)
    (hM : M.Accurate) :
    ∃ d, Distance M (Parse (.finite 0) (.finite 60)) (Parse (.finite 1) (.finite 60)) = some d ∧
      d.Within 52 55.95 := by
  refine ⟨_, Distance_of_coordinates M (Parse_hasCoordinates _ _) (Parse_hasCoordinates _ _), ?_⟩
  apply distance_tail_sixty M hM
  rw [haversineA_parallel M hSin _ _ 60 (by rw [abs_lt]; norm_num), half_radians_one,
    toRadians_sixty]
  have hS := sin_half_degree_within M hM
  have hC : (M.Cos (.finite (4716158501352293 / 2 ^ 52))).Within 0.4757877973438 0.5028121251278 :=
    hM.cos_within _ (by norm_num) (by norm_num) (by norm_num) (by norm_num) (by norm_num)
  have hCC : (F64.mul (M.Cos (.finite (4716158501352293 / 2 ^ 52)))
      (M.Cos (.finite (4716158501352293 / 2 ^ 52)))).Within 0.2263740281012 0.2528200331756 :=
    F64.mul_within hC hC (by norm_num) (by norm_num) (by norm_num) (by norm_num)
      (by norm_num) (by norm_num)
  have hP : (F64.mul (F64.mul (M.Cos (.finite (4716158501352293 / 2 ^ 52)))
      (M.Cos (.finite (4716158501352293 / 2 ^ 52))))
      (M.Sin (.finite (5030569068109113 / 2 ^ 59)))).Within
      0.001975448244389 0.002206271232415 :=
    F64.mul_within hCC hS (by norm_num) (by norm_num) (by norm_num) (by norm_num)
      (by norm_num) (by norm_num)
  exact F64.mul_within hP hS (by norm_num) (by norm_num) (by norm_num) (by norm_num)
    (by norm_num) (by norm_num)

/-- C12, amended. For two present points of the same finite longitude and
finite latitudes, and a library with `Sin(0) = 0` and `Cos` at most 1 in
magnitude, the Haversine term is the rounded square of
`s = Sin((toRadians(lat2) - toRadians(lat1)) / 2)`, so that `Distance` is
`6371.0 * (2 * Atan2(Sqrt(s*s), Sqrt(1 - s*s)))` in `float64` arithmetic and
depends on the latitudes only through the difference of their rounded
radians.  For a library accurate to `2 ^ -30`, the distance between `(0, 0)`
and `(0, 1)` is a finite value within 0.01 of 111.19 and within 0.01 of
`6371 * π / 180`. -/
theorem Distance_meridian (M : MathLibrary) (hSin : M.Sin (.finite 0) = .finite 0)
    (hCos : ∀ q : ℚ, ∃ r : ℚ, M.Cos (.finite q) = .finite r ∧ |r| ≤ 1) (hM : M.Accurate)
    (p tp : Point F64) (lon lat1 lat2 : ℚ)
    (hp : p.HasCoordinates (.finite lon) (.finite lat1))
    (htp : tp.HasCoordinates (.finite lon) (.finite lat2))
    (hlon : |lon| < (2 : ℚ) ^ (1024 : ℕ)) (hlat1 : |lat1| < (2 : ℚ) ^ (1024 : ℕ))
    (hlat2 : |lat2| < (2 : ℚ) ^ (1024 : ℕ)) :
    (∃ s, s = M.Sin (F64.div (F64.sub (toRadians (.finite lat2)) (toRadians (.finite lat1)))
          (.finite 2)) ∧
        Distance M p tp = some (F64.mul (.finite 6371) (F64.mul (.finite 2)
          (M.Atan2 (F64.sqrt (F64.mul s s)) (F64.sqrt (F64.sub (.finite 1) (F64.mul s s))))))) ∧
      ∃ d : ℚ, Distance M (Parse (.finite 0) (.finite 0)) (Parse (.finite 0) (.finite 1)) =
          some (.finite d) ∧
        |d - 111.19| < 0.01 ∧ |(d : ℝ) - 6371 * |(1 : ℝ)| * Real.pi / 180| < 0.01 := by
  constructor
  · refine ⟨_, rfl, ?_⟩
    rw [Distance_of_coordinates M hp htp, haversineA_meridian M hSin hCos lon lat1 lat2 hlon hlat1
      hlat2]
    rfl
  · obtain ⟨d, hd, r, hr, h1, h2⟩ := meridian_one_degree_distance M hSin hCos hM
    subst hr
    refine ⟨r, hd, ?_, ?_⟩
    · rw [abs_lt]; constructor <;> linarith
    · have h1R : ((111.188 : ℚ) : ℝ) ≤ (r : ℝ) := by exact_mod_cast h1
      have h2R : (r : ℝ) ≤ ((111.1995 : ℚ) : ℝ) := by exact_mod_cast h2
      have hpi1 := Real.pi_gt_d6
      have hpi2 := Real.pi_lt_d6
      push_cast at h1R h2R
      rw [abs_one, abs_lt]
      constructor <;> linarith

/-- Witness for C12: with the ideal library the distance between `(0, 0)` and
`(0, 1)` is within 0.01 of 111.19. -/
theorem Distance_meridian_witness :
    ∃ d : ℚ, Distance idealMath (Parse (.finite 0) (.finite 0)) (Parse (.finite 0) (.finite 1)) =
        some (.finite d) ∧
      |d - 111.19| < 0.01 ∧ |(d : ℝ) - 6371 * |(1 : ℝ)| * Real.pi / 180| < 0.01 :=
  (Distance_meridian idealMath idealMath_Sin_zero idealMath_Cos_bounded idealMath_accurate
    (Parse (.finite 0) (.finite 0)) (Parse (.finite 0) (.finite 1)) 0 0 1
    (Parse_hasCoordinates _ _) (Parse_hasCoordinates _ _) (by norm_num) (by norm_num)
    (by norm_num)).2

/-- C13, amended. For two present points at the same finite latitude whose
longitudes differ by exactly 1, `StraightLineDistance` is exactly `111.0`.
`Distance` depends on the latitude only through its rounded radians, so that
it is constant, not strictly decreasing, across latitudes with the same
radians.  For a library with `Sin(0) = 0` that is accurate to `2 ^ -30`,
`Distance` between `(0, 0)` and `(1, 0)` is above 111 and between `(0, 60)`
and `(1, 60)` below 56: the gap `StraightLineDistance - Distance` grows from
a negative value at the equator to more than 55 at latitude 60. -/
theorem divergence_with_latitude (M : MathLibrary) (hSin : M.Sin (.finite 0) = .finite 0)
    (hM : M.Accurate) :
    (∀ (p tp : Point F64) (lon1 lon2 : F64) (phi : ℚ),
      p.HasCoordinates lon1 (.finite phi) → tp.HasCoordinates lon2 (.finite phi) →
      F64.sub lon2 lon1 = .finite 1 → StraightLineDistance p tp = some (.finite 111)) ∧
    (∀ (p tp q tq : Point F64) (lon1 lon2 phi psi : F64),
      p.HasCoordinates lon1 phi → tp.HasCoordinates lon2 phi →
      q.HasCoordinates lon1 psi → tq.HasCoordinates lon2 psi →
      toRadians phi = toRadians psi → Distance M p tp = Distance M q tq) ∧
    ∃ d0 d60 : ℚ,
      Distance M (Parse (.finite 0) (.finite 0)) (Parse (.finite 1) (.finite 0)) =
        some (.finite d0) ∧
      Distance M (Parse (.finite 0) (.finite 60)) (Parse (.finite 1) (.finite 60)) =
        some (.finite d60) ∧
      111 < d0 ∧ d60 < 56 ∧ 111 - d0 < 0 ∧ 55 < 111 - d60 := by
  refine ⟨?_, ?_, ?_⟩
  · intro p tp lon1 lon2 phi hp htp hlon
    rw [StraightLineDistance_of_coordinates hp htp]
    exact congrArg some (planar_unit _ _ (Or.inl ⟨hlon, F64.sub_self_finite phi⟩))
  · intro p tp q tq lon1 lon2 phi psi hp htp hq htq h
    rw [Distance_of_coordinates M hp htp, Distance_of_coordinates M hq htq]
    simp only [haversineA, h]
  · obtain ⟨d0, hd0, r0, hr0, h01, h02⟩ := equator_one_degree_distance M hSin hM
    obtain ⟨d60, hd60, r60, hr60, h601, h602⟩ := sixty_one_degree_distance M hSin hM
    subst hr0 hr60
    refine ⟨r0, r60, hd0, hd60, ?_, ?_, ?_, ?_⟩ <;> linarith

/-- Witness for C13: with the ideal library, the distance at the equator is
above 111 and the distance at latitude 60 is below 56. -/
theorem divergence_with_latitude_witness :
    ∃ d0 d60 : ℚ,
      Distance idealMath (Parse (.finite 0) (.finite 0)) (Parse (.finite 1) (.finite 0)) =
        some (.finite d0) ∧
      Distance idealMath (Parse (.finite 0) (.finite 60)) (Parse (.finite 1) (.finite 60)) =
        some (.finite d60) ∧
      111 < d0 ∧ d60 < 56 ∧ 111 - d0 < 0 ∧ 55 < 111 - d60 :=
  (divergence_with_latitude idealMath idealMath_Sin_zero idealMath_accurate).2.2

/-! ### The antipodal pair `(-180, -56)`, `(0, 56)` -/

theorem F64.round_of_representable (x : ℚ) (n : ℕ) (j : ℤ) (hx : x = (n : ℚ) * (2 : ℚ) ^ j)
    (hn0 : 0 < n) (hn : n < 2 ^ 53) (hj : -1074 ≤ j)
    (hfin : (n : ℚ) * (2 : ℚ) ^ j < (2 : ℚ) ^ (1024 : ℕ)) : F64.round x = .finite x := by
  rw [hx]; exact F64.round_representable n j hn0 hn hj hfin

theorem toRadians_neg (q : ℚ) : toRadians (.finite (-q)) = F64.neg (toRadians (.finite q)) := by
  rw [toRadians_finite_eq, toRadians_finite_eq, ← F64.round_neg]; congr 1; ring

theorem toRadians_180 : toRadians (.finite 180) = .finite (884279719003555 / 2 ^ 48) := by
  rw [toRadians_finite_eq]
  have h := F64.round_eq_of_close (K := ℚ) (x := 180 * (5030569068109113 / 2 ^ 58)) (e := 1)
    (by norm_num) (by norm_num) 7074237752028440 (by rw [abs_lt]; norm_num) (by norm_num)
  rw [h]
  norm_num

theorem toRadians_56 : toRadians (.finite 56) = .finite (2200873967297737 / 2 ^ 51) := by
  rw [toRadians_finite_eq]
  have h := F64.round_eq_of_close (K := ℚ) (x := 56 * (5030569068109113 / 2 ^ 58)) (e := -1)
    (by norm_num) (by norm_num) 8803495869190948 (by rw [abs_lt]; norm_num) (by norm_num)
  rw [h]
  norm_num

/-- With the values that package `math` computes, the Haversine term of the
antipodal points `(-180, -56)` and `(0, 56)` is `1 + 2 ^ -52`. -/
theorem haversineA_sample :
    haversineA sampleMath (.finite (-180)) (.finite (-56)) (.finite 0) (.finite 56) =
      .finite (4503599627370497 / 2 ^ 52) := by
  have hr1 : toRadians (.finite (-56)) = .finite (-(2200873967297737 / 2 ^ 51)) := by
    rw [toRadians_neg, toRadians_56]; rfl
  have hr2 : toRadians (.finite (-180)) = .finite (-(884279719003555 / 2 ^ 48)) := by
    rw [toRadians_neg, toRadians_180]; rfl
  have hdlat : F64.sub (.finite (2200873967297737 / 2 ^ 51))
      (.finite (-(2200873967297737 / 2 ^ 51))) = .finite (2200873967297737 / 2 ^ 50) := by
    show F64.round ((2200873967297737 / 2 ^ 51 : ℚ) + -(-(2200873967297737 / 2 ^ 51))) = _
    rw [show (2200873967297737 / 2 ^ 51 : ℚ) + -(-(2200873967297737 / 2 ^ 51)) =
      2200873967297737 / 2 ^ 50 by norm_num]
    exact F64.round_of_representable _ 2200873967297737 (-50) (by norm_num) (by norm_num)
      (by norm_num) (by norm_num) (by norm_num)
  have hhalf1 : F64.div (.finite (2200873967297737 / 2 ^ 50)) (.finite 2) =
      .finite (2200873967297737 / 2 ^ 51) := by
    rw [F64.div_finite _ _ (by norm_num),
      show (2200873967297737 / 2 ^ 50 : ℚ) / 2 = 2200873967297737 / 2 ^ 51 by norm_num]
    exact F64.round_of_representable _ 2200873967297737 (-51) (by norm_num) (by norm_num)
      (by norm_num) (by norm_num) (by norm_num)
  have hdlon : F64.sub (.finite 0) (.finite (-(884279719003555 / 2 ^ 48))) =
      .finite (884279719003555 / 2 ^ 48) := by
    show F64.round ((0 : ℚ) + -(-(884279719003555 / 2 ^ 48))) = _
    rw [show (0 : ℚ) + -(-(884279719003555 / 2 ^ 48)) = 884279719003555 / 2 ^ 48 by norm_num]
    exact F64.round_of_representable _ 884279719003555 (-48) (by norm_num) (by norm_num)
      (by norm_num) (by norm_num) (by norm_num)
  have hhalf2 : F64.div (.finite (884279719003555 / 2 ^ 48)) (.finite 2) =
      .finite (884279719003555 / 2 ^ 49) := by
    rw [F64.div_finite _ _ (by norm_num),
      show (884279719003555 / 2 ^ 48 : ℚ) / 2 = 884279719003555 / 2 ^ 49 by norm_num]
    exact F64.round_of_representable _ 884279719003555 (-49) (by norm_num) (by norm_num)
      (by norm_num) (by norm_num) (by norm_num)
  have hS1 : sampleMath.Sin (.finite (2200873967297737 / 2 ^ 51)) =
      .finite (7467306605670053 / 2 ^ 53) := by
    show (if _ then _ else _) = _
    rw [if_pos rfl]
  have hS2 : sampleMath.Sin (.finite (884279719003555 / 2 ^ 49)) = .finite 1 := by
    show (if _ then _ else if _ then _ else _) = _
    rw [if_neg (by rw [F64.finite.injEq]; norm_num), if_pos rfl]
  have hC1 : sampleMath.Cos (.finite (2200873967297737 / 2 ^ 51)) =
      .finite (5036761903398163 / 2 ^ 53) := by
    show (if _ then _ else _) = _
    rw [if_pos (Or.inl rfl)]
  have hC2 : sampleMath.Cos (.finite (-(2200873967297737 / 2 ^ 51))) =
      .finite (5036761903398163 / 2 ^ 53) := by
    show (if _ then _ else _) = _
    rw [if_pos (Or.inr rfl)]
  have hss : F64.mul (.finite (7467306605670053 / 2 ^ 53)) (.finite (7467306605670053 / 2 ^ 53)) =
      .finite (6190677741888929 / 2 ^ 53) := by
    have h := F64.round_eq_of_close (K := ℚ)
      (x := (7467306605670053 / 2 ^ 53) * (7467306605670053 / 2 ^ 53)) (e := -1)
      (by norm_num) (by norm_num) 6190677741888929 (by rw [abs_lt]; norm_num) (by norm_num)
    show F64.round ((7467306605670053 / 2 ^ 53 : ℚ) * (7467306605670053 / 2 ^ 53)) = _
    rw [h]
    norm_num
  have hcc : F64.mul (.finite (5036761903398163 / 2 ^ 53)) (.finite (5036761903398163 / 2 ^ 53)) =
      .finite (5633043025704129 / 2 ^ 54) := by
    have h := F64.round_eq_of_close (K := ℚ)
      (x := (5036761903398163 / 2 ^ 53) * (5036761903398163 / 2 ^ 53)) (e := -2)
      (by norm_num) (by norm_num) 5633043025704129 (by rw [abs_lt]; norm_num) (by norm_num)
    show F64.round ((5036761903398163 / 2 ^ 53 : ℚ) * (5036761903398163 / 2 ^ 53)) = _
    rw [h]
    norm_num
  have hc1 : F64.mul (.finite (5633043025704129 / 2 ^ 54)) (.finite 1) =
      .finite (5633043025704129 / 2 ^ 54) := by
    show F64.round ((5633043025704129 / 2 ^ 54 : ℚ) * 1) = _
    rw [mul_one]
    exact F64.round_of_representable _ 5633043025704129 (-54) (by norm_num) (by norm_num)
      (by norm_num) (by norm_num) (by norm_num)
  have hsum : F64.add (.finite (6190677741888929 / 2 ^ 53)) (.finite (5633043025704129 / 2 ^ 54)) =
      .finite (4503599627370497 / 2 ^ 52) := by
    have h := F64.round_eq_of_close (K := ℚ)
      (x := 6190677741888929 / 2 ^ 53 + 5633043025704129 / 2 ^ 54) (e := 0)
      (by norm_num) (by norm_num) 4503599627370497 (by rw [abs_lt]; norm_num) (by norm_num)
    show F64.round ((6190677741888929 / 2 ^ 53 : ℚ) + 5633043025704129 / 2 ^ 54) = _
    rw [h]
    norm_num
  simp only [haversineA, hr1, hr2, toRadians_56, toRadians_zero, hdlat, hhalf1, hdlon, hhalf2,
    hS1, hS2, hC1, hC2, hss, hcc, hc1, hsum]

/-- C10, code bug. Whenever the computed Haversine term is a finite value
above 1 (the smallest such `float64` is `1 + 2 ^ -52`), `1 - a` is negative,
`math.Sqrt(1 - a)` is NaN, and, for a library whose `Atan2` returns NaN on a
NaN argument, `Distance` returns NaN: the term is not confined to `[0, 1]` in
`float64` arithmetic and the result is then neither non-negative nor at most
`π * 6371`. -/
theorem Distance_range_failure (M : MathLibrary) (hAtan : ∀ y, M.Atan2 y .nan = .nan)
    (p tp : Point F64) (lon1 lat1 lon2 lat2 : F64)
    (hp : p.HasCoordinates lon1 lat1) (htp : tp.HasCoordinates lon2 lat2) (q : ℚ)
    (ha : haversineA M lon1 lat1 lon2 lat2 = .finite q) (hq : 1 + (2 : ℚ) ^ (-52 : ℤ) ≤ q) :
    F64.sqrt (F64.sub (.finite 1) (haversineA M lon1 lat1 lon2 lat2)) = .nan ∧
      Distance M p tp = some .nan := by
  have h1 : F64.sqrt (F64.sub (.finite 1) (haversineA M lon1 lat1 lon2 lat2)) = .nan := by
    rw [ha]; exact F64.sqrt_one_sub_of_gt q hq
  refine ⟨h1, ?_⟩
  rw [Distance_of_coordinates M hp htp, h1, hAtan]
  simp

/-- Witness for C10: the antipodal points `(-180, -56)` and `(0, 56)`, both
within the geographic ranges, with the values that package `math` computes
for the sines and cosines: the Haversine term is `1 + 2 ^ -52` and `Distance`
returns NaN. -/
theorem Distance_range_failure_witness :
    haversineA sampleMath (.finite (-180)) (.finite (-56)) (.finite 0) (.finite 56) =
        .finite (4503599627370497 / 2 ^ 52) ∧
      F64.sqrt (F64.sub (.finite 1)
        (haversineA sampleMath (.finite (-180)) (.finite (-56)) (.finite 0) (.finite 56))) =
          .nan ∧
      Distance sampleMath (Parse (.finite (-180)) (.finite (-56)))
        (Parse (.finite 0) (.finite 56)) = some .nan :=
  ⟨haversineA_sample,
    Distance_range_failure sampleMath idealMath_Atan2_nan (Parse (.finite (-180)) (.finite (-56)))
      (Parse (.finite 0) (.finite 56)) _ _ _ _ (Parse_hasCoordinates _ _)
      (Parse_hasCoordinates _ _) (4503599627370497 / 2 ^ 52) haversineA_sample (by norm_num)⟩

/-! ## The JSON codec -/

theorem jsonMarshal_point (lon lat : ℚ) :
    jsonMarshal (NewPointGeometry [.finite lon, .finite lat]) =
      (some (.object [("type", .string "Point"),
        ("coordinates", .array [.number lon, .number lat])]), none) := rfl

theorem jsonUnmarshal_point (lon lat : ℚ) (g : Geometry F64) :
    jsonUnmarshal (.object [("type", .string "Point"),
        ("coordinates", .array [.number lon, .number lat])]) g =
      (NewPointGeometry [.finite lon, .finite lat], none) := by
  simp [jsonUnmarshal, JSON.lookup, JSON.toFloat, NewPointGeometry, mapAll]

/-- C14. On the modelled JSON library: for every point with finite
coordinates `(lon, lat)`, `MarshalJSON` succeeds with the GeoJSON point
object whose `coordinates` are `[lon, lat]`, and `UnmarshalJSON` applied to
that output succeeds, whatever the receiver held, and yields the point with
exactly the same longitude and latitude; (-122.4194, 37.7749) encodes to the
object of type "Point" with coordinates `[-122.4194, 37.7749]`. -/
theorem JSON_round_trip (lon lat : ℚ) (p0 : Point F64) :
    MarshalJSON specJSON (Parse (.finite lon) (.finite lat)) =
        (some (.object [("type", .string "Point"),
          ("coordinates", .array [.number lon, .number lat])]), none) ∧
      UnmarshalJSON specJSON p0 (.object [("type", .string "Point"),
          ("coordinates", .array [.number lon, .number lat])]) =
        (Parse (.finite lon) (.finite lat), none) ∧
      MarshalJSON specJSON (Parse (.finite (-122.4194)) (.finite 37.7749)) =
        (some (.object [("type", .string "Point"),
          ("coordinates", .array [.number (-122.4194), .number 37.7749])]), none) := by
  refine ⟨rfl, ?_, rfl⟩
  simp only [UnmarshalJSON, specJSON, jsonUnmarshal_point]
  simp [NewPointGeometry, Parse]

theorem UnmarshalJSON_of_error {Payload α : Type} (lib : JSONLibrary Payload α) (p : Point α)
    (data : Payload) (g : Geometry α) (e : String)
    (h : lib.Unmarshal data zeroGeometry = (g, some e)) :
    UnmarshalJSON lib p data = (p, some e) := by
  simp only [UnmarshalJSON, h]

theorem UnmarshalJSON_of_parsed {Payload α : Type} (lib : JSONLibrary Payload α) (p : Point α)
    (data : Payload) (g : Geometry α) (h : lib.Unmarshal data zeroGeometry = (g, none)) :
    UnmarshalJSON lib p data =
      if g.Type_ ≠ "Point" ∨ g.Point.length ≠ 2 then (p, some "invalid GeoJSON Point")
      else ({ Geometry := some g }, none) := by
  simp only [UnmarshalJSON, h]

/-- C15. For every payload: when the library fails to parse it,
`UnmarshalJSON` returns the parser's error; when it parses as a geometry,
`UnmarshalJSON` succeeds if and only if the parsed type is "Point" and the
coordinate array has exactly two elements, fails with "invalid GeoJSON
Point" otherwise, and on success the point has the first coordinate as
longitude and the second as latitude. -/
theorem UnmarshalJSON_validation {Payload α : Type} (lib : JSONLibrary Payload α)
    (p : Point α) (data : Payload) :
    (∀ g e, lib.Unmarshal data zeroGeometry = (g, some e) →
      UnmarshalJSON lib p data = (p, some e)) ∧
    (∀ g, lib.Unmarshal data zeroGeometry = (g, none) →
      ((∃ q, UnmarshalJSON lib p data = (q, none)) ↔
        (g.Type_ = "Point" ∧ g.Point.length = 2)) ∧
      (¬ (g.Type_ = "Point" ∧ g.Point.length = 2) →
        UnmarshalJSON lib p data = (p, some "invalid GeoJSON Point")) ∧
      (∀ lon lat, g.Type_ = "Point" → g.Point = [lon, lat] →
        UnmarshalJSON lib p data = (Parse lon lat, none))) := by
  refine ⟨fun g e h => UnmarshalJSON_of_error lib p data g e h, ?_⟩
  intro g h
  rw [UnmarshalJSON_of_parsed lib p data g h]
  by_cases hc : g.Type_ = "Point" ∧ g.Point.length = 2
  · have hn : ¬ (g.Type_ ≠ "Point" ∨ g.Point.length ≠ 2) := by
      rintro (h1 | h1)
      · exact h1 hc.1
      · exact h1 hc.2
    rw [if_neg hn]
    refine ⟨⟨fun _ => hc, fun _ => ⟨_, rfl⟩⟩, fun h2 => absurd hc h2, ?_⟩
    intro lon lat ht hp
    obtain ⟨t, pt⟩ := g
    simp only at ht hp
    subst ht hp
    rfl
  · have hy : g.Type_ ≠ "Point" ∨ g.Point.length ≠ 2 := by
      by_contra hcon
      push_neg at hcon
      exact hc hcon
    rw [if_pos hy]
    refine ⟨⟨?_, fun h2 => absurd h2 hc⟩, fun _ => rfl, ?_⟩
    · rintro ⟨q, hq⟩
      simp at hq
    · intro lon lat ht hp
      exact absurd ⟨ht, by rw [hp]; rfl⟩ hc

/-- On the modelled JSON library: a point object with two coordinates is
accepted; one coordinate, another geometry type, or a document that is not an
object are refused. -/
theorem specJSON_decode_examples :
    UnmarshalJSON specJSON (Point.mk none)
        (.object [("type", .string "Point"), ("coordinates", .array [.number 3, .number 4])]) =
      (Parse (.finite 3) (.finite 4), none) ∧
    UnmarshalJSON specJSON (Point.mk none)
        (.object [("type", .string "Point"), ("coordinates", .array [.number 3])]) =
      (Point.mk none, some "invalid GeoJSON Point") ∧
    UnmarshalJSON specJSON (Point.mk none)
        (.object [("type", .string "LineString"), ("coordinates", .array [])]) =
      (Point.mk none, some "invalid GeoJSON Point") ∧
    UnmarshalJSON specJSON (Point.mk none) (.array []) =
      (Point.mk none, some "json: cannot unmarshal into a geometry object") := by
  refine ⟨?_, ?_, ?_, ?_⟩ <;>
    simp [UnmarshalJSON, specJSON, jsonUnmarshal, JSON.lookup, JSON.toFloat, mapAll, Parse,
      NewPointGeometry, zeroGeometry]

/-- C16. For a JSON library that never itself returns the error "invalid
GeoJSON Point": `MarshalJSON` returns that error, and no bytes, whenever the
point is absent or its geometry type tag is not "Point"; otherwise its result
is the library's and is not that error. -/
theorem MarshalJSON_failure {Payload α : Type} (lib : JSONLibrary Payload α) (p : Point α)
    (hlib : ∀ g, (lib.Marshal g).2 ≠ some "invalid GeoJSON Point") :
    ((p.Geometry = none ∨ ∃ g, p.Geometry = some g ∧ g.Type_ ≠ "Point") →
      MarshalJSON lib p = (none, some "invalid GeoJSON Point")) ∧
    (¬ (p.Geometry = none ∨ ∃ g, p.Geometry = some g ∧ g.Type_ ≠ "Point") →
      (MarshalJSON lib p).2 ≠ some "invalid GeoJSON Point" ∧
      ∃ g, p.Geometry = some g ∧ MarshalJSON lib p = lib.Marshal g) := by
  obtain ⟨geo⟩ := p
  cases geo with
  | none =>
    exact ⟨fun _ => rfl, fun h => absurd (Or.inl rfl) h⟩
  | some g =>
    by_cases ht : g.Type_ = "Point"
    · have hm : MarshalJSON lib { Geometry := some g } = lib.Marshal g := by
        simp [MarshalJSON, ht]
      refine ⟨?_, fun _ => ⟨by rw [hm]; exact hlib g, g, rfl, hm⟩⟩
      rintro (h | ⟨g2, h, h2⟩)
      · simp at h
      · simp only [Option.some.injEq] at h
        subst h
        exact absurd ht h2
    · refine ⟨fun _ => by simp [MarshalJSON, ht], fun h => absurd (Or.inr ⟨g, rfl, ht⟩) h⟩

theorem specJSON_Marshal_ne (g : Geometry F64) :
    (specJSON.Marshal g).2 ≠ some "invalid GeoJSON Point" := by
  simp only [specJSON, jsonMarshal]
  split <;> simp

/-- Witness for C16: the absent point, on the modelled JSON library. -/
theorem MarshalJSON_failure_witness :
    ((Point.mk (none : Option (Geometry F64))).Geometry = none ∨
        ∃ g, (Point.mk (none : Option (Geometry F64))).Geometry = some g ∧ g.Type_ ≠ "Point") ∧
      MarshalJSON specJSON (Point.mk none) = (none, some "invalid GeoJSON Point") :=
  ⟨Or.inl rfl, (MarshalJSON_failure specJSON (Point.mk none) specJSON_Marshal_ne).1 (Or.inl rfl)⟩

theorem Scan_of_accepted (g : Point F64) (b : List Byte) (hb : Accepted b) :
    Scan g (.bytes b) =
      some (Parse (int64ToFloat64 (leSigned64 ((b.drop 9).take 8)))
        (int64ToFloat64 (leSigned64 ((b.drop 17).take 8))), none) := by
  obtain ⟨h, h0, h1⟩ := hb
  obtain ⟨x0, x1, x2, x3, x4, x5, x6, x7, x8, x9, x10, x11, x12, x13, x14, x15, x16, x17, x18, x19, x20, x21, x22, x23, x24, rfl⟩ := list_length_25 b h
  simp only [List.getElem?_cons_zero, List.getElem?_cons_succ, Option.some.injEq] at h0 h1
  rw [Scan_bytes_25, if_neg (by simp [h0]), if_neg (by simp [h1])]
  simp [Parse, float64FromBytes, uint64ToInt64_le64]

theorem Scan_of_not_accepted (g : Point F64) (b : List Byte) (hb : ¬ Accepted b) :
    Scan g (.bytes b) = some (g, some "failed to scan Point: invalid POINT data") := by
  by_cases h : b.length = 25
  · obtain ⟨x0, x1, x2, x3, x4, x5, x6, x7, x8, x9, x10, x11, x12, x13, x14, x15, x16, x17, x18, x19, x20, x21, x22, x23, x24, rfl⟩ := list_length_25 b h
    rw [Scan_bytes_25]
    by_cases h0 : x0 = 0
    · by_cases h1 : x1 = 1
      · exact absurd (by simp [Accepted, h0, h1]) hb
      · simp [h0, h1]
    · simp [h0]
  · simp [Scan, h]

theorem Scan_of_not_bytes (g : Point F64) (v : AnyValue) (hv : ∀ c, v ≠ .bytes c) :
    Scan g v = some (g, some "failed to scan Point: invalid type") := by
  cases v with
  | bytes c => exact absurd rfl (hv c)
  | _ => rfl

theorem Scan_cases (g : Point F64) (v : AnyValue) :
    (∃ lon lat, Scan g v = some (Parse lon lat, none)) ∨ ∃ e, Scan g v = some (g, some e) := by
  cases v with
  | bytes b =>
    by_cases hb : Accepted b
    · exact Or.inl ⟨_, _, Scan_of_accepted g b hb⟩
    · exact Or.inr ⟨_, Scan_of_not_accepted g b hb⟩
  | _ => exact Or.inr ⟨_, rfl⟩

theorem Parse_wellFormed {α : Type} (lon lat : α) : (Parse lon lat).WellFormed :=
  ⟨_, rfl, rfl, rfl⟩

theorem UnmarshalJSON_cases {Payload α : Type} (lib : JSONLibrary Payload α) (p : Point α)
    (data : Payload) :
    (∃ g, g.Type_ = "Point" ∧ g.Point.length = 2 ∧
        UnmarshalJSON lib p data = ({ Geometry := some g }, none)) ∨
      ∃ e, UnmarshalJSON lib p data = (p, some e) := by
  rcases h : lib.Unmarshal data zeroGeometry with ⟨g, _ | e⟩
  · rw [UnmarshalJSON_of_parsed lib p data g h]
    by_cases hc : g.Type_ ≠ "Point" ∨ g.Point.length ≠ 2
    · rw [if_pos hc]
      exact Or.inr ⟨_, rfl⟩
    · rw [if_neg hc]
      push_neg at hc
      exact Or.inl ⟨g, hc.1, hc.2, rfl⟩
  · exact Or.inr ⟨e, UnmarshalJSON_of_error lib p data g e h⟩

theorem Value_of_wellFormed (conv : F64 → ℕ) (p : Point F64) (hp : p.WellFormed) :
    ∃ data, Value conv p = some (some data, none) := by
  obtain ⟨⟨tp, cp⟩, hp1, hp2, hp3⟩ := hp
  obtain ⟨gp⟩ := p
  simp only at hp1 hp2 hp3
  subst hp1 hp2
  match cp, hp3 with
  | [a, b], _ => exact ⟨_, Value_point conv a b⟩

/-- C18. Every point produced by `Parse`, by a successful `Scan` or by a
successful `UnmarshalJSON` is present, tagged "Point" and has exactly two
coordinates; on points with this property `StraightLineDistance` and
`Distance` (reading the coordinates as `float64` values, with any
mathematical library) and `Value` return
without a panic on an index out of range. -/
theorem wellFormed_invariant :
    (∀ {α : Type} (lon lat : α), (Parse lon lat).WellFormed) ∧
    (∀ (g p : Point F64) (v : AnyValue), Scan g v = some (p, none) → p.WellFormed) ∧
    (∀ {Payload α : Type} (lib : JSONLibrary Payload α) (p q : Point α) (data : Payload),
      UnmarshalJSON lib p data = (q, none) → q.WellFormed) ∧
    (∀ {α : Type} (M : MathLibrary) (f : α → F64) (p q : Point α),
      p.WellFormed → q.WellFormed →
      (∃ d, StraightLineDistance (p.mapCoordinates f) (q.mapCoordinates f) = some d) ∧
        ∃ d, Distance M (p.mapCoordinates f) (q.mapCoordinates f) = some d) ∧
    (∀ (conv : F64 → ℕ) (p : Point F64), p.WellFormed →
      ∃ data, Value conv p = some (some data, none)) := by
  refine ⟨fun lon lat => Parse_wellFormed lon lat, ?_, ?_,
    fun M f p q hp hq => distances_of_wellFormed M f p q hp hq,
    fun conv p hp => Value_of_wellFormed conv p hp⟩
  · intro g p v h
    rcases Scan_cases g v with ⟨lon, lat, h2⟩ | ⟨e, h2⟩
    · rw [h2] at h
      simp only [Option.some.injEq, Prod.mk.injEq, and_true] at h
      rw [← h]
      exact Parse_wellFormed lon lat
    · rw [h2] at h
      simp at h
  · intro Payload α lib p q data h
    rcases UnmarshalJSON_cases lib p data with ⟨g, h1, h2, h3⟩ | ⟨e, h3⟩
    · rw [h3] at h
      simp only [Prod.mk.injEq, and_true] at h
      rw [← h]
      exact ⟨g, rfl, h1, h2⟩
    · rw [h3] at h
      simp at h

/-- C19. Whenever `Scan` or `UnmarshalJSON` returns an error, the receiver
after the call is exactly the receiver before the call. -/
theorem atomic_decode :
    (∀ (g p : Point F64) (v : AnyValue) (e : String), Scan g v = some (p, some e) → p = g) ∧
    (∀ {Payload α : Type} (lib : JSONLibrary Payload α) (p q : Point α) (data : Payload)
      (e : String), UnmarshalJSON lib p data = (q, some e) → q = p) := by
  constructor
  · intro g p v e h
    rcases Scan_cases g v with ⟨lon, lat, h2⟩ | ⟨e2, h2⟩
    · rw [h2] at h
      simp at h
    · rw [h2] at h
      simp only [Option.some.injEq, Prod.mk.injEq] at h
      exact h.1.symm
  · intro Payload α lib p q data e h
    rcases UnmarshalJSON_cases lib p data with ⟨g, -, -, h3⟩ | ⟨e2, h3⟩
    · rw [h3] at h
      simp at h
    · rw [h3] at h
      simp only [Prod.mk.injEq] at h
      exact h.1.symm

/-! ## Construction, and Scan followed by Value -/

/-- C17. For all `lon` and `lat`, with no condition on their range,
`Parse(lon, lat)` is a present point, different from the absent zero value,
tagged "Point", whose coordinate array is exactly `[lon, lat]`: longitude
first, latitude second, unchanged; for instance `Parse(200, -100)` holds
200 and -100. -/
theorem Parse_construction {α : Type} (lon lat : α) :
    (Parse lon lat).Geometry = some { Type_ := "Point", Point := [lon, lat] } ∧
      Parse lon lat ≠ Point.mk none ∧
      (∀ g, (Parse lon lat).Geometry = some g →
        g.Point[0]? = some lon ∧ g.Point[1]? = some lat ∧ g.Point.length = 2) ∧
      Parse (200 : ℝ) (-100) =
        Point.mk (some { Type_ := "Point", Point := [(200 : ℝ), -100] }) := by
  refine ⟨rfl, ?_, ?_, rfl⟩
  · intro h
    simp [Parse] at h
  · intro g hg
    simp only [Parse, NewPointGeometry, Option.some.injEq] at hg
    subst hg
    exact ⟨rfl, rfl, rfl⟩

theorem putBytes_le64 (b0 b1 b2 b3 b4 b5 b6 b7 : Byte) :
    putBytes (le64 b0 b1 b2 b3 b4 b5 b6 b7) = [b0, b1, b2, b3, b4, b5, b6, b7] := by
  have h0 := b0.isLt
  have h1 := b1.isLt
  have h2 := b2.isLt
  have h3 := b3.isLt
  have h4 := b4.isLt
  have h5 := b5.isLt
  have h6 := b6.isLt
  have h7 := b7.isLt
  rw [le64_eq_sum]
  simp only [putBytes, Nat.shiftRight_eq_div_pow]
  have e : ∀ (a : ℕ) (b : Byte), a % 256 = b.val → toByte a = b := by
    intro a b h; exact Fin.ext h
  refine congrArg₂ _ (e _ _ ?_) (congrArg₂ _ (e _ _ ?_) (congrArg₂ _ (e _ _ ?_)
    (congrArg₂ _ (e _ _ ?_) (congrArg₂ _ (e _ _ ?_) (congrArg₂ _ (e _ _ ?_)
    (congrArg₂ _ (e _ _ ?_) (congrArg₂ _ (e _ _ ?_) rfl))))))) <;> omega

theorem float64FromBytes_of_le {u : ℕ} (h : u ≤ 2 ^ 53) :
    float64FromBytes u = .finite (u : ℚ) := by
  have e : uint64ToInt64 u = (u : ℤ) := by
    unfold uint64ToInt64
    rw [Nat.mod_eq_of_lt (by omega), if_pos (by omega)]
  have hd : IsDoubleInt (u : ℤ) := by
    rcases Nat.lt_or_ge u (2 ^ 53) with hlt | hge
    · exact ⟨u, 0, hlt, by simp⟩
    · exact ⟨1, 53, by norm_num, by simp; omega⟩
  rw [float64FromBytes, e, int64ToFloat64_exact hd]
  simp

theorem float64ToUint64_natCast (conv : F64 → ℕ) {u : ℕ} (h : u < 2 ^ 64) :
    float64ToUint64 conv (.finite (u : ℚ)) = u := by
  have ht : truncRat (u : ℚ) = (u : ℤ) := by
    have := truncRat_intCast (u : ℤ)
    simpa using this
  rw [float64ToUint64_inRange conv (by rw [ht]; positivity) (by rw [ht]; exact_mod_cast h), ht]
  simp

theorem Scan_of_accepted_bytes (g : Point F64)
    (x2 x3 x4 x5 x6 x7 x8 x9 x10 x11 x12 x13 x14 x15 x16 x17 x18 x19 x20 x21 x22 x23 x24 : Byte) :
    Scan g (.bytes [0, 1, x2, x3, x4, x5, x6, x7, x8, x9, x10, x11, x12,
      x13, x14, x15, x16, x17, x18, x19, x20, x21, x22, x23, x24]) =
      some (Parse (float64FromBytes (le64 x9 x10 x11 x12 x13 x14 x15 x16))
        (float64FromBytes (le64 x17 x18 x19 x20 x21 x22 x23 x24)), none) := rfl

/-- C20. For every accepted record `b` whose bytes 2..8 are zero and whose
two little-endian 64-bit integers (bytes 9..16 and 17..24) are at most
`2 ^ 53`, `Scan` succeeds and `Value` applied to the point it produces
returns exactly `b`, whatever the platform does out of range. -/
theorem decode_encode_round_trip (conv : F64 → ℕ) (g : Point F64) (b : List Byte)
    (hb : Accepted b) (hz : (b.drop 2).take 7 = [0, 0, 0, 0, 0, 0, 0])
    (hlon : leValue ((b.drop 9).take 8) ≤ 2 ^ 53)
    (hlat : leValue ((b.drop 17).take 8) ≤ 2 ^ 53) :
    ∃ p, Scan g (.bytes b) = some (p, none) ∧ Value conv p = some (some b, none) := by
  obtain ⟨h, h0, h1⟩ := hb
  obtain ⟨x0, x1, x2, x3, x4, x5, x6, x7, x8, x9, x10, x11, x12, x13, x14, x15, x16, x17, x18, x19, x20, x21, x22, x23, x24, rfl⟩ := list_length_25 b h
  simp only [List.getElem?_cons_zero, List.getElem?_cons_succ, Option.some.injEq] at h0 h1
  simp only [List.drop_succ_cons, List.drop_zero, List.take_succ_cons, List.take_zero,
    List.cons.injEq, and_true] at hz hlon hlat
  obtain ⟨z2, z3, z4, z5, z6, z7, z8⟩ := hz
  subst h0 h1 z2 z3 z4 z5 z6 z7 z8
  rw [← le64_eq_leValue] at hlon hlat
  refine ⟨_, Scan_of_accepted_bytes g _ _ _ _ _ _ _ _ _ _ _ _ _ _ _ _ _ _ _ _ _ _ _, ?_⟩
  rw [float64FromBytes_of_le hlon, float64FromBytes_of_le hlat, Value_point,
    float64ToUint64_natCast conv (by omega), float64ToUint64_natCast conv (by omega),
    putBytes_le64, putBytes_le64]
  rfl

/-- Witness for C20: the record holding 10 and 20. -/
theorem decode_encode_round_trip_witness :
    ∃ p, Scan (Point.mk none) (.bytes [0, 1, 0, 0, 0, 0, 0, 0, 0, 10, 0, 0, 0, 0, 0, 0, 0,
        20, 0, 0, 0, 0, 0, 0, 0]) = some (p, none) ∧
      Value outOfRangeArm64 p = some (some [0, 1, 0, 0, 0, 0, 0, 0, 0, 10, 0, 0, 0, 0, 0, 0, 0,
        20, 0, 0, 0, 0, 0, 0, 0], none) :=
  decode_encode_round_trip outOfRangeArm64 (Point.mk none) _ (by decide) (by decide)
    (by decide) (by decide)

end Geo
